import Mathlib

/-!
Shallow embedding of the meTasking sync reconciliation engine
(`metaskingsync/sync.py` and `metaskingsync/provider/base.py`,
with the apply steps of `provider/toggl.py` and `provider/metasking.py`).

Python dictionaries are modelled as association lists iterated in insertion
order, Python sets as insertion-ordered duplicate-free lists, timestamps as a
lexicographically ordered (minute, second, micro) triple (the `minute`
component stands for everything down to minute precision, which is all the
rounding in `round_datetime` ever distinguishes), and exceptions as
`Except String`.
-/

/-! ### Association-list dictionaries (model of Python `dict` and `set`) -/

def dictLookup {α β : Type} [DecidableEq α] (k : α) : List (α × β) → Option β
  | [] => none
  | (k', v) :: rest => if k' = k then some v else dictLookup k rest

def dictInsert {α β : Type} [DecidableEq α] (k : α) (v : β) :
    List (α × β) → List (α × β)
  | [] => [(k, v)]
  | (k', v') :: rest =>
    if k' = k then (k, v) :: rest else (k', v') :: dictInsert k v rest

def dictErase {α β : Type} [DecidableEq α] (k : α) :
    List (α × β) → List (α × β)
  | [] => []
  | (k', v') :: rest =>
    if k' = k then rest else (k', v') :: dictErase k rest

/-- Model of Python `d[k] -= 1` style in-place adjustment of one key. -/
def dictAdjust {α β : Type} [DecidableEq α] (k : α) (f : β → β) :
    List (α × β) → List (α × β)
  | [] => []
  | (k', v') :: rest =>
    if k' = k then (k', f v') :: rest else (k', v') :: dictAdjust k f rest

def dictGetD {α β : Type} [DecidableEq α] (k : α) (d : β)
    (m : List (α × β)) : β :=
  (dictLookup k m).getD d

/-- Model of Python `m.setdefault(k, set()).add(x)`: append `x` to the bucket
of `k`, keeping the bucket duplicate-free. -/
def mapSetAdd {α β : Type} [DecidableEq α] [DecidableEq β] (k : α) (x : β) :
    List (α × List β) → List (α × List β)
  | [] => [(k, [x])]
  | (k', s) :: rest =>
    if k' = k then (k', if x ∈ s then s else s ++ [x]) :: rest
    else (k', s) :: mapSetAdd k x rest

def exceptIsOk {ε α : Type} : Except ε α → Bool
  | .ok _ => true
  | .error _ => false

/-! ### Timestamps and rounding (`sync.py`, `round_datetime`) -/

structure DateTime where
  minute : Nat
  second : Nat
  micro : Nat
deriving DecidableEq, Repr

/-- Chronological (lexicographic) strict order on timestamps, the model of
Python `datetime` comparison. -/
def DateTime.lt (a b : DateTime) : Bool :=
  if a.minute ≠ b.minute then a.minute < b.minute
  else if a.second ≠ b.second then a.second < b.second
  else a.micro < b.micro

inductive Accuracy where
  | minute
  | second
  | microsecond
deriving DecidableEq, Repr

/-- Translation of `round_datetime` (`sync.py` lines 11-19): `minute` zeroes
seconds and microseconds (`dt.replace(second=0, microsecond=0)`), `second`
zeroes microseconds, `microsecond` is the identity. -/
def round_datetime (accuracy : Accuracy) (dt : DateTime) : DateTime :=
  match accuracy with
  | .minute => { dt with second := 0, micro := 0 }
  | .second => { dt with micro := 0 }
  | .microsecond => dt

/-! ### Interval records (`provider/base.py`, `DataPoint`) -/

structure DataPoint where
  id : String
  name : String
  description : Option String
  start : DateTime
  end_ : DateTime
deriving DecidableEq, Repr

/-- Translation of constructing a `DataPoint` through its pydantic validator
`end_must_be_after_start` (`base.py` lines 29-33): construction fails when
`end < start` and otherwise keeps every field unchanged. -/
def mkDataPoint (id name : String) (description : Option String)
    (start end_ : DateTime) : Except String DataPoint :=
  if DateTime.lt end_ start then .error "end must be after start"
  else .ok ⟨id, name, description, start, end_⟩

/-! ### Change records (`provider/base.py`, `DataPointAction`) -/

structure DataPointAction where
  prev : Option DataPoint
  next : Option DataPoint
deriving DecidableEq, Repr

def DataPointAction.is_create (a : DataPointAction) : Bool :=
  a.prev.isNone && a.next.isSome

def DataPointAction.is_update (a : DataPointAction) : Bool :=
  a.prev.isSome && a.next.isSome

def DataPointAction.is_delete (a : DataPointAction) : Bool :=
  a.prev.isSome && a.next.isNone

/-- Translation of constructing a `DataPointAction` through its pydantic
root validator `validate_action` (`base.py` lines 58-64): both fields `none`
is rejected. -/
def mkDataPointAction (prev next : Option DataPoint) :
    Except String DataPointAction :=
  if prev.isNone && next.isNone then .error "prev and next cannot both be None"
  else .ok ⟨prev, next⟩

/-! ### Decimal rendering of naturals (model of Python `str(int)`) -/

/-- Little-endian decimal digits, by fuelled structural recursion; fuel `n`
always suffices for rendering `n` (see `natDecimalDigits_fuel`). -/
def natDigitsAux : Nat → Nat → List Nat
  | 0, _ => []
  | _ + 1, 0 => []
  | fuel + 1, n + 1 => ((n + 1) % 10) :: natDigitsAux fuel ((n + 1) / 10)

def natDecimalDigits (n : Nat) : List Nat :=
  natDigitsAux n n

/-- Model of Python `str` on a non-negative integer: decimal notation. -/
def natStr (n : Nat) : String :=
  if n = 0 then "0"
  else String.mk (((natDecimalDigits n).reverse).map Nat.digitChar)

theorem natDigitsAux_fuel (n : Nat) : ∀ f₁ f₂ : Nat, n ≤ f₁ → n ≤ f₂ →
    natDigitsAux f₁ n = natDigitsAux f₂ n := by
  induction n using Nat.strong_induction_on with
  | _ n ih =>
    intro f₁ f₂ h₁ h₂
    match n, f₁, f₂ with
    | 0, 0, 0 => rfl
    | 0, 0, _ + 1 => rfl
    | 0, _ + 1, 0 => rfl
    | 0, _ + 1, _ + 1 => rfl
    | n + 1, f₁ + 1, f₂ + 1 =>
      simp only [natDigitsAux]
      have hdiv : (n + 1) / 10 < n + 1 := Nat.div_lt_self (Nat.succ_pos n) (by omega)
      have := ih ((n + 1) / 10) hdiv f₁ f₂ (by omega) (by omega)
      rw [this]

/-- Recombining value of a little-endian digit list. -/
def digitsVal : List Nat → Nat
  | [] => 0
  | d :: rest => d + 10 * digitsVal rest

theorem digitsVal_natDecimalDigits (n : Nat) :
    digitsVal (natDecimalDigits n) = n := by
  induction n using Nat.strong_induction_on with
  | _ n ih =>
    match n with
    | 0 => rfl
    | n + 1 =>
      have hdiv : (n + 1) / 10 < n + 1 := Nat.div_lt_self (Nat.succ_pos n) (by omega)
      have hfuel : natDigitsAux n ((n + 1) / 10) = natDecimalDigits ((n + 1) / 10) :=
        natDigitsAux_fuel ((n + 1) / 10) n ((n + 1) / 10) (by omega) le_rfl
      have : natDecimalDigits (n + 1) =
          ((n + 1) % 10) :: natDecimalDigits ((n + 1) / 10) := by
        unfold natDecimalDigits
        simp only [natDigitsAux]
        rw [hfuel]
        rfl
      rw [this]
      simp only [digitsVal]
      rw [ih ((n + 1) / 10) hdiv]
      omega

theorem natDecimalDigits_injective : Function.Injective natDecimalDigits := by
  intro a b h
  have := digitsVal_natDecimalDigits a
  rw [h, digitsVal_natDecimalDigits] at this
  omega

theorem natDigitsAux_lt_ten : ∀ (f n : Nat), ∀ d ∈ natDigitsAux f n, d < 10 := by
  intro f
  induction f with
  | zero => intro n d hd; simp [natDigitsAux] at hd
  | succ f ih =>
    intro n d hd
    match n with
    | 0 => simp [natDigitsAux] at hd
    | n + 1 =>
      simp only [natDigitsAux, List.mem_cons] at hd
      rcases hd with h | h
      · omega
      · exact ih ((n + 1) / 10) d h

theorem natDecimalDigits_lt_ten (n : Nat) :
    ∀ d ∈ natDecimalDigits n, d < 10 :=
  natDigitsAux_lt_ten n n

theorem digitChar_inj_lt_ten (d e : Nat) (hd : d < 10) (he : e < 10)
    (h : Nat.digitChar d = Nat.digitChar e) : d = e := by
  interval_cases d <;> interval_cases e <;> first | rfl | (exfalso; exact absurd h (by decide))

theorem map_digitChar_inj : ∀ (l₁ l₂ : List Nat), (∀ d ∈ l₁, d < 10) →
    (∀ d ∈ l₂, d < 10) →
    l₁.map Nat.digitChar = l₂.map Nat.digitChar → l₁ = l₂ := by
  intro l₁
  induction l₁ with
  | nil =>
    intro l₂ _ _ h
    cases l₂ with
    | nil => rfl
    | cons y ys => simp at h
  | cons x xs ih =>
    intro l₂ h₁ h₂ h
    cases l₂ with
    | nil => simp at h
    | cons y ys =>
      simp only [List.map_cons, List.cons.injEq] at h
      have hx : x = y := digitChar_inj_lt_ten x y
        (h₁ x (by simp)) (h₂ y (by simp)) h.1
      have hxs : xs = ys := ih ys (fun d hd => h₁ d (by simp [hd]))
        (fun d hd => h₂ d (by simp [hd])) h.2
      rw [hx, hxs]

theorem natStr_pos_ne_zero_str (b : Nat) (hb : b ≠ 0) :
    String.mk (((natDecimalDigits b).reverse).map Nat.digitChar) ≠ "0" := by
  intro h
  have hval : digitsVal (natDecimalDigits b) = b := digitsVal_natDecimalDigits b
  have hchars : ((natDecimalDigits b).reverse).map Nat.digitChar = ['0'] := by
    have := congrArg String.data h
    simpa using this
  have hdigs : (natDecimalDigits b).reverse = [0] := by
    apply map_digitChar_inj
    · intro d hd
      exact natDecimalDigits_lt_ten b d (by simpa using hd)
    · intro d hd
      simp only [List.mem_singleton] at hd
      omega
    · simpa using hchars
  have : natDecimalDigits b = [0] := by
    have := congrArg List.reverse hdigs
    simpa using this
  rw [this] at hval
  simp [digitsVal] at hval
  omega

theorem natStr_injective : Function.Injective natStr := by
  intro a b h
  unfold natStr at h
  by_cases ha : a = 0 <;> by_cases hb : b = 0
  · omega
  · exfalso
    rw [if_pos ha, if_neg hb] at h
    exact natStr_pos_ne_zero_str b hb h.symm
  · exfalso
    rw [if_neg ha, if_pos hb] at h
    exact natStr_pos_ne_zero_str a ha h
  · rw [if_neg ha, if_neg hb] at h
    have hlists : ((natDecimalDigits a).reverse).map Nat.digitChar =
        ((natDecimalDigits b).reverse).map Nat.digitChar := by
      have := congrArg String.data h
      simpa using this
    have hdigs : (natDecimalDigits a).reverse = (natDecimalDigits b).reverse := by
      apply map_digitChar_inj _ _ _ _ hlists
      · intro d hd
        exact natDecimalDigits_lt_ten a d (by simpa using hd)
      · intro d hd
        exact natDecimalDigits_lt_ten b d (by simpa using hd)
    exact natDecimalDigits_injective (List.reverse_injective hdigs)

/-! ### The reconciler (`sync.py`, `sync`) -/

def _SOURCE : Nat := 0

def _DESTINATION : Nat := 1

/-- The mutable state closed over by `sync` (`sync.py` lines 23-29):
`id_map`, `time_start_map`, `time_end_map`, the per-side `ids_list` pair and
the synthetic-id counter `next_generated_id`. -/
structure SyncState where
  id_map : List ((Nat × String) × DataPoint)
  time_start_map : List (DateTime × List (Nat × String))
  time_end_map : List (DateTime × List (Nat × String))
  ids_list_src : List String
  ids_list_dst : List String
  next_generated_id : Nat
deriving DecidableEq, Repr

def initialSyncState : SyncState :=
  ⟨[], [], [], [], [], 0⟩

/-- The probing condition of `next_id` (`sync.py` lines 34-37): the candidate
id is present on either side of `id_map`. -/
def inIdMap (id_map : List ((Nat × String) × DataPoint)) (id : String) : Bool :=
  (dictLookup (_SOURCE, id) id_map).isSome ||
    (dictLookup (_DESTINATION, id) id_map).isSome

/-- Fuelled translation of the `while` loop of `next_id` (`sync.py` lines
34-39): starting from counter `n`, return the first counter value whose
candidate id `"new-" ++ natStr n` is unused. Fuel `id_map.length + 1` always
suffices (`next_id_core_not_in`). -/
def next_id_core (id_map : List ((Nat × String) × DataPoint)) :
    Nat → Nat → Nat
  | 0, n => n
  | fuel + 1, n =>
    if inIdMap id_map ("new-" ++ natStr n) then next_id_core id_map fuel (n + 1)
    else n

/-- Translation of `next_id` (`sync.py` lines 31-41): probe from the current
counter, return the fresh id and advance the counter past it. -/
def next_id (st : SyncState) : String × SyncState :=
  let k := next_id_core st.id_map (st.id_map.length + 1) st.next_generated_id
  ("new-" ++ natStr k, { st with next_generated_id := k + 1 })

/-- Translation of `index_data_point` (`sync.py` lines 43-67): reject a
duplicate id on the same side, insert into `id_map`, abort when another
record of the same side under the same rounded-start key has an identical
raw `end` (note: the comparison on line 54 is `data_point2.end !=
data_point.end`, on the unrounded ends), and finally register the record in
both time maps and its side's id list. -/
def index_data_point (accuracy : Accuracy) (data_type : Nat)
    (data_point : DataPoint) (st : SyncState) : Except String SyncState :=
  if (dictLookup (data_type, data_point.id) st.id_map).isSome then
    .error ("Duplicate data point id: " ++ data_point.id)
  else
    let id_map' := dictInsert (data_type, data_point.id) data_point st.id_map
    let rounded_start := round_datetime accuracy data_point.start
    let rounded_end := round_datetime accuracy data_point.end_
    match (dictGetD rounded_start [] st.time_start_map).find? (fun p =>
        decide (p.1 = data_type) &&
        (match dictLookup p id_map' with
         | some data_point2 => decide (data_point2.end_ = data_point.end_)
         | none => false)) with
    | some p =>
      .error ("Duplicate data point (both data points have the same " ++
        "rounded start and end time, this is not supported as the " ++
        "algorithm uses rounded start and end time as data point " ++
        "fingerprint for matching): " ++ data_point.id ++ " and " ++ p.2)
    | none =>
      .ok { st with
        id_map := id_map',
        time_start_map :=
          mapSetAdd rounded_start (data_type, data_point.id) st.time_start_map,
        time_end_map :=
          mapSetAdd rounded_end (data_type, data_point.id) st.time_end_map,
        ids_list_src :=
          if data_type = _SOURCE then st.ids_list_src ++ [data_point.id]
          else st.ids_list_src,
        ids_list_dst :=
          if data_type = _DESTINATION then st.ids_list_dst ++ [data_point.id]
          else st.ids_list_dst }

/-- The indexing loops of `sync` (`sync.py` lines 69-73): index every dumped
record of one side in dump order. -/
def indexAll (accuracy : Accuracy) (data_type : Nat) :
    List DataPoint → SyncState → Except String SyncState
  | [], st => .ok st
  | p :: rest, st =>
    match index_data_point accuracy data_type p st with
    | .error e => .error e
    | .ok st' => indexAll accuracy data_type rest st'

/-- The inner candidate scan of the missing-in-destination loop (`sync.py`
lines 80-90): some destination record under the same rounded-start key has a
matching rounded end. -/
def destMatchExists (accuracy : Accuracy) (st : SyncState)
    (data_point : DataPoint) : Bool :=
  let rounded_start := round_datetime accuracy data_point.start
  let rounded_end := round_datetime accuracy data_point.end_
  (dictGetD rounded_start [] st.time_start_map).any (fun p =>
    decide (p.1 = _DESTINATION) &&
    (match dictLookup p st.id_map with
     | some dp2 => decide (round_datetime accuracy dp2.end_ = rounded_end)
     | none => false))

/-- The missing-in-destination loop (`sync.py` lines 75-93), with the Python
set `missing_in_destination` modelled in insertion (source) order. -/
def computeMissing (accuracy : Accuracy) (st : SyncState) : List String :=
  st.ids_list_src.filter (fun id =>
    match dictLookup (_SOURCE, id) st.id_map with
    | none => false
    | some dp => ! destMatchExists accuracy st dp)

/-- The inner candidate scan of the destination loop (`sync.py` lines
102-110): the first source record under the same rounded-start key with a
matching rounded end. -/
def sourceMatch (accuracy : Accuracy) (st : SyncState)
    (data_point : DataPoint) : Option DataPoint :=
  let rounded_start := round_datetime accuracy data_point.start
  let rounded_end := round_datetime accuracy data_point.end_
  match (dictGetD rounded_start [] st.time_start_map).find? (fun p =>
      decide (p.1 = _SOURCE) &&
      (match dictLookup p st.id_map with
       | some dp2 => decide (round_datetime accuracy dp2.end_ = rounded_end)
       | none => false)) with
  | some p => dictLookup p st.id_map
  | none => none

/-- The modified-or-extra destination loop (`sync.py` lines 95-135):
classify each destination record as modified (name or description differ
from its first matching source record) or additional, aborting when one id
would be flagged as modified twice. -/
def processDest (accuracy : Accuracy) (st : SyncState) :
    List String → List String → List (DataPoint × DataPoint) → List String →
    Except String (List (DataPoint × DataPoint) × List String)
  | [], _, modified, additional => .ok (modified, additional)
  | id :: rest, modified_ids, modified, additional =>
    match dictLookup (_DESTINATION, id) st.id_map with
    | none => processDest accuracy st rest modified_ids modified additional
    | some data_point =>
      match sourceMatch accuracy st data_point with
      | some source_data_point =>
        if data_point.name ≠ source_data_point.name ∨
            data_point.description ≠ source_data_point.description then
          if id ∈ modified_ids then
            .error ("Same id matched multiple times as being different " ++
              "from source: " ++ data_point.id)
          else
            processDest accuracy st rest (modified_ids ++ [id])
              (modified ++ [(data_point,
                { data_point with
                  name := source_data_point.name,
                  description := source_data_point.description })])
              additional
        else processDest accuracy st rest modified_ids modified additional
      | none =>
        processDest accuracy st rest modified_ids modified (additional ++ [id])

/-- The update-synthesis loop (`sync.py` lines 139-144): emit one update per
modified pair and re-register the new version in `id_map`. -/
def applyUpdates : List (DataPoint × DataPoint) → SyncState →
    List DataPointAction × SyncState
  | [], st => ([], st)
  | (p, n) :: rest, st =>
    let st' := { st with id_map := dictInsert (_DESTINATION, n.id) n st.id_map }
    let (acts, st'') := applyUpdates rest st'
    (⟨some p, some n⟩ :: acts, st'')

/-- The create-synthesis loop (`sync.py` lines 146-151): deep-copy each
missing source record, give it a fresh synthetic id, emit a create and
register the new record into the destination side of the index. -/
def synthesizeCreates (accuracy : Accuracy) :
    List String → SyncState → Except String (List DataPointAction × SyncState)
  | [], st => .ok ([], st)
  | id :: rest, st =>
    match dictLookup (_SOURCE, id) st.id_map with
    | none => synthesizeCreates accuracy rest st
    | some original =>
      let (nid, st') := next_id st
      let new_data_point := { original with id := nid }
      match index_data_point accuracy _DESTINATION new_data_point st' with
      | .error e => .error e
      | .ok st'' =>
        match synthesizeCreates accuracy rest st'' with
        | .error e => .error e
        | .ok (acts, st''') => .ok (⟨none, some new_data_point⟩ :: acts, st''')

/-- The delete-synthesis loop (`sync.py` lines 153-155). -/
def computeDeletes (st : SyncState) (additional : List String) :
    List DataPointAction :=
  additional.filterMap (fun id =>
    (dictLookup (_DESTINATION, id) st.id_map).map
      (fun original => ⟨some original, none⟩))

/-- Translation of `sync` (`sync.py` lines 22-157) on already-dumped sides:
index both sides, compute the missing / modified / additional
classification, then emit updates, creates and deletes in that order. -/
def sync (accuracy : Accuracy) (source destination : List DataPoint) :
    Except String (List DataPointAction) :=
  match indexAll accuracy _SOURCE source initialSyncState with
  | .error e => .error e
  | .ok st₁ =>
    match indexAll accuracy _DESTINATION destination st₁ with
    | .error e => .error e
    | .ok st₂ =>
      let missing := computeMissing accuracy st₂
      match processDest accuracy st₂ st₂.ids_list_dst [] [] [] with
      | .error e => .error e
      | .ok (modified, additional) =>
        let (updates, st₃) := applyUpdates modified st₂
        match synthesizeCreates accuracy missing st₃ with
        | .error e => .error e
        | .ok (creates, st₄) =>
          .ok (updates ++ creates ++ computeDeletes st₄ additional)

/-! ### The provider-side indexed collection (`provider/base.py`) -/

/-- The state of a `BaseProvider` (`base.py` lines 119-140) together with the
configuration fields of `Provider` (`base.py` lines 69-87). -/
structure BaseProviderState where
  since : Option DateTime
  until_ : Option DateTime
  dry_run : Bool
  allow_delete : Bool
  data_sequence : List String
  data_indexes : List (String × Nat)
  data_map : List (String × DataPoint)
  remaining_changes : List DataPointAction
  all_changes : List DataPointAction
deriving DecidableEq, Repr

/-- Translation of `Provider.__init__` (`base.py` lines 74-89): reject
`since > until`, otherwise start with empty collections. -/
def mkBaseProvider (since until_ : Option DateTime)
    (dry_run allow_delete : Bool) : Except String BaseProviderState :=
  match since, until_ with
  | some s, some u =>
    if DateTime.lt u s then .error "since must be before until"
    else .ok ⟨some s, some u, dry_run, allow_delete, [], [], [], [], []⟩
  | os, ou => .ok ⟨os, ou, dry_run, allow_delete, [], [], [], [], []⟩

/-- Translation of `BaseProvider.index_data_point` (`base.py` lines
146-159): silently skip records ending before `since` or starting after
`until`, reject duplicate ids, otherwise append to the sequence and record
position and record maps together. -/
def BaseProviderState.index_data_point (st : BaseProviderState)
    (data_point : DataPoint) : Except String BaseProviderState :=
  if (match st.since with
      | some s => DateTime.lt data_point.end_ s
      | none => false) then .ok st
  else if (match st.until_ with
      | some u => DateTime.lt u data_point.start
      | none => false) then .ok st
  else if (dictLookup data_point.id st.data_map).isSome then
    .error ("Duplicate data point id: " ++ data_point.id)
  else
    .ok { st with
      data_sequence := st.data_sequence ++ [data_point.id],
      data_indexes :=
        dictInsert data_point.id st.data_sequence.length st.data_indexes,
      data_map := dictInsert data_point.id data_point st.data_map }

/-- Translation of `BaseProvider.open` (`base.py` lines 142-144): index
every record produced by `initialize_data_points` in order. -/
def BaseProviderState.openAll (st : BaseProviderState) :
    List DataPoint → Except String BaseProviderState
  | [] => .ok st
  | p :: rest =>
    match st.index_data_point p with
    | .error e => .error e
    | .ok st' => st'.openAll rest

/-- Translation of the per-change body of `BaseProvider.add_changes`
(`base.py` lines 172-197): the `is_create` / `is_delete` / `is_update`
dispatch, with the trailing `raise ValueError("Unknown action: ...")`
branch, and failed `assert` statements modelled as errors. -/
def BaseProviderState.processChange (st : BaseProviderState)
    (data_point : DataPointAction) : Except String BaseProviderState :=
  if data_point.is_create then
    match data_point.next with
    | none => .error "assertion failed: data_point.next is not None"
    | some nxt =>
      if (dictLookup nxt.id st.data_map).isSome then
        .error ("Duplicate data point id: " ++ nxt.id)
      else
        .ok { st with
          data_sequence := st.data_sequence ++ [nxt.id],
          data_indexes :=
            dictInsert nxt.id st.data_sequence.length st.data_indexes,
          data_map := dictInsert nxt.id nxt st.data_map }
  else if data_point.is_delete then
    match data_point.prev with
    | none => .error "assertion failed: data_point.prev is not None"
    | some prv =>
      if (dictLookup prv.id st.data_map).isSome then
        let data_point_index := dictGetD prv.id 0 st.data_indexes
        let seq' := st.data_sequence.eraseIdx data_point_index
        let idxs := (seq'.drop data_point_index).foldl
          (fun m id => dictAdjust id (fun v => v - 1) m) st.data_indexes
        .ok { st with
          data_sequence := seq',
          data_indexes := dictErase prv.id idxs,
          data_map := dictErase prv.id st.data_map }
      else .ok st
  else if data_point.is_update then
    match data_point.next with
    | none => .error "assertion failed: data_point.next is not None"
    | some nxt =>
      .ok { st with data_map := dictInsert nxt.id nxt st.data_map }
  else
    .error "Unknown action"

def BaseProviderState.processAll : BaseProviderState → List DataPointAction →
    Except String BaseProviderState
  | st, [] => .ok st
  | st, a :: rest =>
    match st.processChange a with
    | .error e => .error e
    | .ok st' => st'.processAll rest

/-- Translation of `BaseProvider.add_changes` (`base.py` lines 169-198):
queue the changes on `remaining_changes` and `all_changes`, then fold the
per-change body over them. -/
def BaseProviderState.add_changes (st : BaseProviderState)
    (data : List DataPointAction) : Except String BaseProviderState :=
  BaseProviderState.processAll
    { st with
      remaining_changes := st.remaining_changes ++ data,
      all_changes := st.all_changes ++ data }
    data

/-- The position map sends the id at position `j`, `j + 1`, ... of the
sequence to exactly that position. -/
def seqIndexesOk (indexes : List (String × Nat)) : Nat → List String → Bool
  | _, [] => true
  | j, id :: rest =>
    decide (dictLookup id indexes = some j) && seqIndexesOk indexes (j + 1) rest

/-- Consistency invariant of the indexed collection (spec §3): the id
sequence has no duplicates, `data_indexes` sends each id in the sequence to
its position, and the key set of `data_map` is the set of ids in the
sequence. -/
def consistentB (st : BaseProviderState) : Bool :=
  decide st.data_sequence.Nodup &&
  seqIndexesOk st.data_indexes 0 st.data_sequence &&
  st.data_map.all (fun kv => decide (kv.1 ∈ st.data_sequence)) &&
  st.data_sequence.all (fun id => (dictLookup id st.data_map).isSome)

/-- Structural well-formedness that Python's `dict` type provides by
construction: an association-list model of a dict never holds two entries
with the same key. -/
def wfDicts (st : BaseProviderState) : Prop :=
  (st.data_indexes.map Prod.fst).Nodup ∧ (st.data_map.map Prod.fst).Nodup

/-! ### Apply steps of the concrete providers (`toggl.py`, `metasking.py`) -/

/-- One mutation performed against a concrete backing store; the shallow
model of the network calls issued by the providers' apply steps. -/
inductive StoreOp where
  | createOp (dp : DataPoint)
  | updateOp (dp : DataPoint)
  | deleteOp (id : String)
deriving DecidableEq, Repr

/-- Translation of `TogglProvider.apply_changes` (`toggl.py` lines 76-131),
abstracting each HTTP request to the store operation it performs: deletes
are skipped entirely when `allow_delete` is false. -/
def toggl_apply_changes (allow_delete : Bool)
    (changes : List DataPointAction) : List StoreOp :=
  changes.filterMap (fun change =>
    if change.is_delete then
      match change.prev with
      | none => none
      | some prv => if !allow_delete then none else some (.deleteOp prv.id)
    else if change.is_update then
      match change.next with
      | none => none
      | some nxt => some (.updateOp nxt)
    else if change.is_create then
      match change.next with
      | none => none
      | some nxt => some (.createOp nxt)
    else none)

/-- Translation of `MetaTaskingProvider._apply_change` (`metasking.py` lines
92-151), abstracting each HTTP request sequence to the store operation it
performs: deletes return without any request when `allow_delete` is
false. -/
def metasking_apply_change (allow_delete : Bool)
    (change : DataPointAction) : List StoreOp :=
  if change.is_delete then
    match change.prev with
    | none => []
    | some prv => if !allow_delete then [] else [.deleteOp prv.id]
  else if change.is_create then
    match change.next with
    | none => []
    | some nxt => [.createOp nxt]
  else if change.is_update then
    match change.next with
    | none => []
    | some nxt => [.updateOp nxt]
  else []

def metasking_apply_changes (allow_delete : Bool)
    (changes : List DataPointAction) : List StoreOp :=
  changes.flatMap (metasking_apply_change allow_delete)

/-- The bound test re-checked by `BaseProvider.index_data_point`: the record
ends no earlier than `since` and starts no later than `until`. -/
def inBounds (since until_ : Option DateTime) (dp : DataPoint) : Bool :=
  (match since with
   | some s => ! DateTime.lt dp.end_ s
   | none => true) &&
  (match until_ with
   | some u => ! DateTime.lt u dp.start
   | none => true)

/-! ### Declarative fingerprint reading of the reconciler -/

/-- Rounded fingerprint of a record (spec §4.1). -/
def fp (accuracy : Accuracy) (p : DataPoint) : DateTime × DateTime :=
  (round_datetime accuracy p.start, round_datetime accuracy p.end_)

/-- Records `s` and `d` agree on both components of the rounded
fingerprint. -/
def fpMatches (accuracy : Accuracy) (s d : DataPoint) : Bool :=
  decide (round_datetime accuracy s.start = round_datetime accuracy d.start) &&
  decide (round_datetime accuracy s.end_ = round_datetime accuracy d.end_)

/-- The same-side conflict actually tested by `index_data_point`
(`sync.py` lines 50-55): identical rounded start and identical raw end. -/
def collB (accuracy : Accuracy) (a b : DataPoint) : Bool :=
  decide (round_datetime accuracy a.start = round_datetime accuracy b.start) &&
  decide (a.end_ = b.end_)

/-- One side of input data is accepted by the indexing phase: distinct ids
and no two records with identical rounded start and identical raw end. -/
def sideOk (accuracy : Accuracy) (pts : List DataPoint) : Prop :=
  (pts.map (fun p => p.id)).Nodup ∧
    pts.Pairwise (fun a b => collB accuracy a b = false)

/-- Source records with no destination record sharing their fingerprint. -/
def missingDecl (accuracy : Accuracy) (src dst : List DataPoint) :
    List DataPoint :=
  src.filter (fun s => ! dst.any (fun d => fpMatches accuracy s d))

/-- Destination records with no source record sharing their fingerprint. -/
def additionalDecl (accuracy : Accuracy) (src dst : List DataPoint) :
    List DataPoint :=
  dst.filter (fun d => ! src.any (fun s => fpMatches accuracy s d))

/-- The first source record (in dump order) sharing `d`'s fingerprint. -/
def matchDecl (accuracy : Accuracy) (src : List DataPoint) (d : DataPoint) :
    Option DataPoint :=
  src.find? (fun s => fpMatches accuracy s d)

def updatedRecord (d s : DataPoint) : DataPoint :=
  { d with name := s.name, description := s.description }

def differs (d s : DataPoint) : Bool :=
  decide (d.name ≠ s.name ∨ d.description ≠ s.description)

/-- Modified destination pairs in destination order. -/
def modifiedDecl (accuracy : Accuracy) (src dst : List DataPoint) :
    List (DataPoint × DataPoint) :=
  dst.filterMap (fun d =>
    (matchDecl accuracy src d).bind (fun s =>
      if differs d s then some (d, updatedRecord d s) else none))

def updatesDecl (accuracy : Accuracy) (src dst : List DataPoint) :
    List DataPointAction :=
  (modifiedDecl accuracy src dst).map (fun pn => ⟨some pn.1, some pn.2⟩)

def deletesDecl (accuracy : Accuracy) (src dst : List DataPoint) :
    List DataPointAction :=
  (additionalDecl accuracy src dst).map (fun d => ⟨some d, none⟩)

/-! ### Association-list lemmas -/

theorem dictLookup_insert {α β : Type} [DecidableEq α] (k k' : α) (v : β)
    (m : List (α × β)) :
    dictLookup k' (dictInsert k v m) =
      if k = k' then some v else dictLookup k' m := by
  induction m with
  | nil => by_cases h : k = k' <;> simp [dictInsert, dictLookup, h]
  | cons kv rest ih =>
    obtain ⟨k₀, v₀⟩ := kv
    by_cases h₀ : k₀ = k
    · subst h₀
      by_cases h : k₀ = k' <;> simp [dictInsert, dictLookup, h]
    · by_cases h : k₀ = k'
      · subst h
        have hkk : ¬ k = k₀ := fun he => h₀ he.symm
        simp [dictInsert, h₀, dictLookup, hkk, ih]
      · simp [dictInsert, h₀, dictLookup, h, ih]

theorem dictLookup_eq_none {α β : Type} [DecidableEq α] (k : α)
    (m : List (α × β)) (h : k ∉ m.map Prod.fst) : dictLookup k m = none := by
  induction m with
  | nil => rfl
  | cons kv rest ih =>
    obtain ⟨k₀, v₀⟩ := kv
    simp only [List.map_cons, List.mem_cons] at h
    push_neg at h
    have hne : ¬ k₀ = k := fun he => h.1 he.symm
    simp [dictLookup, hne, ih h.2]

theorem dictLookup_erase {α β : Type} [DecidableEq α] (k k' : α)
    (m : List (α × β)) (hm : (m.map Prod.fst).Nodup) :
    dictLookup k' (dictErase k m) =
      if k = k' then none else dictLookup k' m := by
  induction m with
  | nil => by_cases h : k = k' <;> simp [dictErase, dictLookup, h]
  | cons kv rest ih =>
    obtain ⟨k₀, v₀⟩ := kv
    simp only [List.map_cons, List.nodup_cons] at hm
    by_cases h₀ : k₀ = k
    · subst h₀
      by_cases h : k₀ = k'
      · subst h
        simp only [dictErase, if_pos rfl, if_pos rfl]
        exact dictLookup_eq_none k₀ rest hm.1
      · simp [dictErase, dictLookup, h]
    · by_cases h : k₀ = k'
      · subst h
        have hne : ¬ k = k₀ := fun he => h₀ he.symm
        simp [dictErase, h₀, dictLookup, hne]
      · simp [dictErase, h₀, dictLookup, h, ih hm.2]

theorem dictLookup_adjust {α β : Type} [DecidableEq α] (k k' : α) (f : β → β)
    (m : List (α × β)) :
    dictLookup k' (dictAdjust k f m) =
      if k = k' then (dictLookup k' m).map f else dictLookup k' m := by
  induction m with
  | nil => by_cases h : k = k' <;> simp [dictAdjust, dictLookup, h]
  | cons kv rest ih =>
    obtain ⟨k₀, v₀⟩ := kv
    by_cases h₀ : k₀ = k
    · subst h₀
      by_cases h : k₀ = k' <;> simp [dictAdjust, dictLookup, h, ih]
    · by_cases h : k₀ = k'
      · subst h
        have hkk : ¬ k = k₀ := fun he => h₀ he.symm
        simp [dictAdjust, h₀, dictLookup, hkk, ih]
      · simp [dictAdjust, h₀, dictLookup, h, ih]

theorem dictGetD_mapSetAdd {α β : Type} [DecidableEq α] [DecidableEq β]
    (t t' : α) (x : β) (m : List (α × List β)) :
    dictGetD t [] (mapSetAdd t' x m) =
      if t' = t then
        (if x ∈ dictGetD t [] m then dictGetD t [] m
         else dictGetD t [] m ++ [x])
      else dictGetD t [] m := by
  induction m with
  | nil =>
    by_cases h : t' = t <;>
      simp [mapSetAdd, dictGetD, dictLookup, h]
  | cons kv rest ih =>
    obtain ⟨k₀, s₀⟩ := kv
    by_cases h₀ : k₀ = t'
    · subst h₀
      by_cases h : k₀ = t <;>
        simp [mapSetAdd, dictGetD, dictLookup, h, ih]
    · by_cases h : k₀ = t
      · subst h
        have hne : ¬ t' = k₀ := fun he => h₀ he.symm
        simp [mapSetAdd, h₀, dictGetD, dictLookup, hne, ih]
      · simp only [mapSetAdd, if_neg h₀, dictGetD, dictLookup, if_neg h]
        simpa [dictGetD] using ih

/-! ### Index-state invariant of `sync` -/

theorem src_ne_dst : _SOURCE ≠ _DESTINATION := by
  decide

/-- Relation between a `SyncState` and the per-side record lists already
indexed into it (all sources before any destination, the order `sync`
uses). -/
structure InvSt (accuracy : Accuracy) (srcs dsts : List DataPoint)
    (st : SyncState) : Prop where
  src_ids : st.ids_list_src = srcs.map (fun p => p.id)
  dst_ids : st.ids_list_dst = dsts.map (fun p => p.id)
  src_nodup : (srcs.map (fun p => p.id)).Nodup
  dst_nodup : (dsts.map (fun p => p.id)).Nodup
  src_pair : srcs.Pairwise (fun a b => collB accuracy a b = false)
  dst_pair : dsts.Pairwise (fun a b => collB accuracy a b = false)
  lookup_src : ∀ id, dictLookup (_SOURCE, id) st.id_map =
    srcs.find? (fun p => decide (p.id = id))
  lookup_dst : ∀ id, dictLookup (_DESTINATION, id) st.id_map =
    dsts.find? (fun p => decide (p.id = id))
  bucket : ∀ t, dictGetD t [] st.time_start_map =
    (srcs.filter (fun p => decide (round_datetime accuracy p.start = t))).map
      (fun p => (_SOURCE, p.id)) ++
    (dsts.filter (fun p => decide (round_datetime accuracy p.start = t))).map
      (fun p => (_DESTINATION, p.id))

theorem InvSt_initial (accuracy : Accuracy) :
    InvSt accuracy [] [] initialSyncState := by
  constructor <;> simp [initialSyncState, dictLookup, dictGetD]

theorem find?_id_self (pts : List DataPoint)
    (hn : (pts.map (fun p => p.id)).Nodup) (p : DataPoint) (hp : p ∈ pts) :
    pts.find? (fun q => decide (q.id = p.id)) = some p := by
  induction pts with
  | nil => cases hp
  | cons q rest ih =>
    simp only [List.map_cons, List.nodup_cons] at hn
    rcases List.mem_cons.mp hp with h | h
    · subst h
      simp [List.find?]
    · have hne : ¬ q.id = p.id := by
        intro he
        exact hn.1 (he ▸ (List.mem_map.mpr ⟨p, h, rfl⟩))
      rw [List.find?_cons_of_neg _ (by simp [hne])]
      exact ih hn.2 h

theorem find?_id_none (pts : List DataPoint) (id : String)
    (h : id ∉ pts.map (fun p => p.id)) :
    pts.find? (fun q => decide (q.id = id)) = none := by
  apply List.find?_eq_none.mpr
  intro q hq
  simp only [decide_eq_true_eq]
  intro he
  exact h (List.mem_map.mpr ⟨q, hq, he⟩)

/-- Successful source-side indexing step (`sync.py` lines 43-67), taken when
the id is fresh and no already-indexed source record has the same rounded
start and identical raw end. -/
theorem index_src_ok (accuracy : Accuracy) (srcs : List DataPoint)
    (st : SyncState) (p : DataPoint) (h : InvSt accuracy srcs [] st)
    (hid : p.id ∉ srcs.map (fun q => q.id))
    (hcoll : ∀ s ∈ srcs, collB accuracy s p = false) :
    ∃ st', index_data_point accuracy _SOURCE p st = .ok st' ∧
      InvSt accuracy (srcs ++ [p]) [] st' := by
  have hdup : dictLookup (_SOURCE, p.id) st.id_map = none := by
    rw [h.lookup_src]
    exact find?_id_none srcs p.id hid
  have hbucket := h.bucket (round_datetime accuracy p.start)
  simp only [List.filter_nil, List.map_nil, List.append_nil] at hbucket
  have hfind : ((dictGetD (round_datetime accuracy p.start) []
      st.time_start_map).find? (fun q =>
        decide (q.1 = _SOURCE) &&
        (match dictLookup q
            (dictInsert (_SOURCE, p.id) p st.id_map) with
         | some data_point2 => decide (data_point2.end_ = p.end_)
         | none => false))) = none := by
    rw [hbucket]
    apply List.find?_eq_none.mpr
    intro q hq
    rcases List.mem_map.mp hq with ⟨s, hs, rfl⟩
    have hsmem : s ∈ srcs := (List.filter_sublist srcs).subset hs
    have hrs : round_datetime accuracy s.start =
        round_datetime accuracy p.start := by
      have := List.of_mem_filter hs
      simpa using this
    have hsid : ¬ s.id = p.id := by
      intro he
      exact hid (List.mem_map.mpr ⟨s, hsmem, he⟩)
    have hlk : dictLookup (_SOURCE, s.id)
        (dictInsert (_SOURCE, p.id) p st.id_map) = some s := by
      rw [dictLookup_insert]
      have hne : ¬ ((_SOURCE, p.id) = (_SOURCE, s.id)) := by
        intro he
        exact hsid (by injection he with h₁ h₂; exact h₂.symm)
      rw [if_neg hne, h.lookup_src]
      exact find?_id_self srcs h.src_nodup s hsmem
    have hend : ¬ s.end_ = p.end_ := by
      have := hcoll s hsmem
      unfold collB at this
      simp only [Bool.and_eq_false_iff, decide_eq_false_iff_not] at this
      rcases this with h₁ | h₂
      · exact absurd hrs h₁
      · exact h₂
    rw [hlk]
    simp [hend]
  refine ⟨{ st with
    id_map := dictInsert (_SOURCE, p.id) p st.id_map,
    time_start_map := mapSetAdd (round_datetime accuracy p.start)
      (_SOURCE, p.id) st.time_start_map,
    time_end_map := mapSetAdd (round_datetime accuracy p.end_)
      (_SOURCE, p.id) st.time_end_map,
    ids_list_src := st.ids_list_src ++ [p.id],
    ids_list_dst := st.ids_list_dst }, ?_, ?_⟩
  · unfold index_data_point
    rw [hdup]
    simp only [Option.isSome_none, Bool.false_eq_true, if_false]
    rw [hfind]
    simp [_SOURCE, _DESTINATION]
  · constructor
    · simp [h.src_ids, _SOURCE]
    · simp [h.dst_ids, _SOURCE, _DESTINATION]
    · simp only [List.map_append, List.map_cons, List.map_nil]
      rw [List.nodup_append]
      refine ⟨h.src_nodup, List.nodup_singleton _, ?_⟩
      intro a ha hb
      simp only [List.mem_singleton] at hb
      subst hb
      exact hid ha
    · exact h.dst_nodup
    · rw [List.pairwise_append]
      exact ⟨h.src_pair, List.pairwise_singleton _ _,
        fun a ha b hb => by
          simp only [List.mem_singleton] at hb
          subst hb
          exact hcoll a ha⟩
    · exact h.dst_pair
    · intro i
      rw [dictLookup_insert, List.find?_append]
      by_cases he : i = p.id
      · subst he
        rw [if_pos rfl, find?_id_none srcs p.id hid]
        simp [List.find?]
      · have hne : ¬ ((_SOURCE, p.id) = (_SOURCE, i)) := by
          intro hx
          exact he (by injection hx with h₁ h₂; exact h₂.symm)
        rw [if_neg hne, h.lookup_src]
        have hps : ¬ p.id = i := fun hx => he hx.symm
        have hone : [p].find? (fun q => decide (q.id = i)) = none := by
          simp [List.find?, hps]
        rw [hone]
        cases srcs.find? (fun q => decide (q.id = i)) <;> rfl
    · intro i
      rw [dictLookup_insert]
      have hne : ¬ ((_SOURCE, p.id) = (_DESTINATION, i)) := by
        intro hx
        exact src_ne_dst (congrArg Prod.fst hx)
      rw [if_neg hne, h.lookup_dst]
    · intro t
      rw [dictGetD_mapSetAdd, h.bucket t]
      simp only [List.filter_nil, List.map_nil, List.append_nil]
      by_cases ht : round_datetime accuracy p.start = t
      · rw [if_pos ht]
        have hnotmem : (_SOURCE, p.id) ∉
            (srcs.filter (fun q =>
              decide (round_datetime accuracy q.start = t))).map
              (fun q => (_SOURCE, q.id)) := by
          intro hx
          rcases List.mem_map.mp hx with ⟨s, hs, he⟩
          have : s.id = p.id := congrArg Prod.snd he
          exact hid (List.mem_map.mpr
            ⟨s, (List.filter_sublist srcs).subset hs, this⟩)
        rw [if_neg hnotmem]
        rw [List.filter_append, List.map_append]
        simp [List.filter, ht]
      · rw [if_neg ht]
        rw [List.filter_append, List.map_append]
        simp [List.filter, ht]

/-- Successful destination-side indexing step (`sync.py` lines 43-67),
taken when the id is fresh on the destination side and no already-indexed
destination record has the same rounded start and identical raw end. -/
theorem index_dst_ok (accuracy : Accuracy) (srcs dsts : List DataPoint)
    (st : SyncState) (p : DataPoint) (h : InvSt accuracy srcs dsts st)
    (hid : p.id ∉ dsts.map (fun q => q.id))
    (hcoll : ∀ d ∈ dsts, collB accuracy d p = false) :
    ∃ st', index_data_point accuracy _DESTINATION p st = .ok st' ∧
      InvSt accuracy srcs (dsts ++ [p]) st' := by
  have hdup : dictLookup (_DESTINATION, p.id) st.id_map = none := by
    rw [h.lookup_dst]
    exact find?_id_none dsts p.id hid
  have hfind : ((dictGetD (round_datetime accuracy p.start) []
      st.time_start_map).find? (fun q =>
        decide (q.1 = _DESTINATION) &&
        (match dictLookup q
            (dictInsert (_DESTINATION, p.id) p st.id_map) with
         | some data_point2 => decide (data_point2.end_ = p.end_)
         | none => false))) = none := by
    rw [h.bucket]
    rw [List.find?_append]
    have hsrcpart : ((srcs.filter (fun q =>
        decide (round_datetime accuracy q.start =
          round_datetime accuracy p.start))).map
        (fun q => (_SOURCE, q.id))).find? (fun q =>
          decide (q.1 = _DESTINATION) &&
          (match dictLookup q
              (dictInsert (_DESTINATION, p.id) p st.id_map) with
           | some data_point2 => decide (data_point2.end_ = p.end_)
           | none => false)) = none := by
      apply List.find?_eq_none.mpr
      intro q hq
      rcases List.mem_map.mp hq with ⟨s, _, rfl⟩
      simp [src_ne_dst]
    have hdstpart : ((dsts.filter (fun q =>
        decide (round_datetime accuracy q.start =
          round_datetime accuracy p.start))).map
        (fun q => (_DESTINATION, q.id))).find? (fun q =>
          decide (q.1 = _DESTINATION) &&
          (match dictLookup q
              (dictInsert (_DESTINATION, p.id) p st.id_map) with
           | some data_point2 => decide (data_point2.end_ = p.end_)
           | none => false)) = none := by
      apply List.find?_eq_none.mpr
      intro q hq
      rcases List.mem_map.mp hq with ⟨d, hd, rfl⟩
      have hdmem : d ∈ dsts := (List.filter_sublist dsts).subset hd
      have hrs : round_datetime accuracy d.start =
          round_datetime accuracy p.start := by
        have := List.of_mem_filter hd
        simpa using this
      have hdid : ¬ d.id = p.id := by
        intro he
        exact hid (List.mem_map.mpr ⟨d, hdmem, he⟩)
      have hlk : dictLookup (_DESTINATION, d.id)
          (dictInsert (_DESTINATION, p.id) p st.id_map) = some d := by
        rw [dictLookup_insert]
        have hne : ¬ ((_DESTINATION, p.id) = (_DESTINATION, d.id)) := by
          intro he
          exact hdid (congrArg Prod.snd he).symm
        rw [if_neg hne, h.lookup_dst]
        exact find?_id_self dsts h.dst_nodup d hdmem
      have hend : ¬ d.end_ = p.end_ := by
        have := hcoll d hdmem
        unfold collB at this
        simp only [Bool.and_eq_false_iff, decide_eq_false_iff_not] at this
        rcases this with h₁ | h₂
        · exact absurd hrs h₁
        · exact h₂
      rw [hlk]
      simp [hend]
    rw [hsrcpart, hdstpart]
    rfl
  refine ⟨{ st with
    id_map := dictInsert (_DESTINATION, p.id) p st.id_map,
    time_start_map := mapSetAdd (round_datetime accuracy p.start)
      (_DESTINATION, p.id) st.time_start_map,
    time_end_map := mapSetAdd (round_datetime accuracy p.end_)
      (_DESTINATION, p.id) st.time_end_map,
    ids_list_src := st.ids_list_src,
    ids_list_dst := st.ids_list_dst ++ [p.id] }, ?_, ?_⟩
  · unfold index_data_point
    rw [hdup]
    simp only [Option.isSome_none, Bool.false_eq_true, if_false]
    rw [hfind]
    simp [_SOURCE, _DESTINATION]
  · constructor
    · simp [h.src_ids, _SOURCE, _DESTINATION]
    · simp [h.dst_ids, _DESTINATION]
    · exact h.src_nodup
    · simp only [List.map_append, List.map_cons, List.map_nil]
      rw [List.nodup_append]
      refine ⟨h.dst_nodup, List.nodup_singleton _, ?_⟩
      intro a ha hb
      simp only [List.mem_singleton] at hb
      subst hb
      exact hid ha
    · exact h.src_pair
    · rw [List.pairwise_append]
      refine ⟨h.dst_pair, List.pairwise_singleton _ _, ?_⟩
      intro a ha b hb
      simp only [List.mem_singleton] at hb
      subst hb
      exact hcoll a ha
    · intro i
      rw [dictLookup_insert]
      have hne : ¬ ((_DESTINATION, p.id) = (_SOURCE, i)) := by
        intro hx
        exact src_ne_dst (congrArg Prod.fst hx).symm
      rw [if_neg hne, h.lookup_src]
    · intro i
      rw [dictLookup_insert, List.find?_append]
      by_cases he : i = p.id
      · subst he
        rw [if_pos rfl, find?_id_none dsts p.id hid]
        simp [List.find?]
      · have hne : ¬ ((_DESTINATION, p.id) = (_DESTINATION, i)) := by
          intro hx
          exact he (congrArg Prod.snd hx).symm
        rw [if_neg hne, h.lookup_dst]
        have hps : ¬ p.id = i := fun hx => he hx.symm
        have hone : [p].find? (fun q => decide (q.id = i)) = none := by
          simp [List.find?, hps]
        rw [hone]
        cases dsts.find? (fun q => decide (q.id = i)) <;> rfl
    · intro t
      rw [dictGetD_mapSetAdd, h.bucket t]
      by_cases ht : round_datetime accuracy p.start = t
      · rw [if_pos ht]
        have hnotmem : (_DESTINATION, p.id) ∉
            (srcs.filter (fun q =>
              decide (round_datetime accuracy q.start = t))).map
              (fun q => (_SOURCE, q.id)) ++
            (dsts.filter (fun q =>
              decide (round_datetime accuracy q.start = t))).map
              (fun q => (_DESTINATION, q.id)) := by
          intro hx
          rcases List.mem_append.mp hx with hx | hx
          · rcases List.mem_map.mp hx with ⟨s, _, he⟩
            exact src_ne_dst (congrArg Prod.fst he)
          · rcases List.mem_map.mp hx with ⟨d, hd, he⟩
            have : d.id = p.id := congrArg Prod.snd he
            exact hid (List.mem_map.mpr
              ⟨d, (List.filter_sublist dsts).subset hd, this⟩)
        rw [if_neg hnotmem]
        rw [List.filter_append, List.map_append, List.append_assoc]
        congr 1
        simp [List.filter, ht]
      · rw [if_neg ht]
        rw [List.filter_append, List.map_append]
        have : ([p].filter (fun q =>
            decide (round_datetime accuracy q.start = t))).map
            (fun q => (_DESTINATION, q.id)) = [] := by
          simp [List.filter, ht]
        rw [this, List.append_nil]

/-- Indexing a record whose id is already present on its side aborts
(`sync.py` lines 44-45). -/
theorem index_src_err_of_dup (accuracy : Accuracy) (srcs dsts : List DataPoint)
    (st : SyncState) (p : DataPoint) (h : InvSt accuracy srcs dsts st)
    (hid : p.id ∈ srcs.map (fun q => q.id)) :
    ∃ e, index_data_point accuracy _SOURCE p st = .error e := by
  rcases List.mem_map.mp hid with ⟨s, hs, he⟩
  cases hf : srcs.find? (fun q => decide (q.id = p.id)) with
  | none =>
    exact absurd (by simp [he]) (List.find?_eq_none.mp hf s hs)
  | some v =>
    refine ⟨"Duplicate data point id: " ++ p.id, ?_⟩
    unfold index_data_point
    rw [h.lookup_src, hf]
    simp

theorem index_dst_err_of_dup (accuracy : Accuracy) (srcs dsts : List DataPoint)
    (st : SyncState) (p : DataPoint) (h : InvSt accuracy srcs dsts st)
    (hid : p.id ∈ dsts.map (fun q => q.id)) :
    ∃ e, index_data_point accuracy _DESTINATION p st = .error e := by
  rcases List.mem_map.mp hid with ⟨d, hd, he⟩
  cases hf : dsts.find? (fun q => decide (q.id = p.id)) with
  | none =>
    exact absurd (by simp [he]) (List.find?_eq_none.mp hf d hd)
  | some v =>
    refine ⟨"Duplicate data point id: " ++ p.id, ?_⟩
    unfold index_data_point
    rw [h.lookup_dst, hf]
    simp

/-- Indexing a source record colliding with an already-indexed source record
(same rounded start, identical raw end) aborts (`sync.py` lines 50-62). -/
theorem index_src_err_of_coll (accuracy : Accuracy) (srcs : List DataPoint)
    (st : SyncState) (p : DataPoint) (h : InvSt accuracy srcs [] st)
    (hid : p.id ∉ srcs.map (fun q => q.id)) (s : DataPoint) (hs : s ∈ srcs)
    (hcb : collB accuracy s p = true) :
    ∃ e, index_data_point accuracy _SOURCE p st = .error e := by
  have hdup : dictLookup (_SOURCE, p.id) st.id_map = none := by
    rw [h.lookup_src]
    exact find?_id_none srcs p.id hid
  unfold collB at hcb
  simp only [Bool.and_eq_true, decide_eq_true_eq] at hcb
  cases hf : ((dictGetD (round_datetime accuracy p.start) []
      st.time_start_map).find? (fun q =>
        decide (q.1 = _SOURCE) &&
        (match dictLookup q
            (dictInsert (_SOURCE, p.id) p st.id_map) with
         | some data_point2 => decide (data_point2.end_ = p.end_)
         | none => false))) with
  | none =>
    exfalso
    have hmem : (_SOURCE, s.id) ∈ dictGetD (round_datetime accuracy p.start)
        [] st.time_start_map := by
      rw [h.bucket]
      apply List.mem_append.mpr
      left
      exact List.mem_map.mpr ⟨s, List.mem_filter.mpr ⟨hs, by simp [hcb.1]⟩, rfl⟩
    have hsid : ¬ s.id = p.id := by
      intro he
      exact hid (List.mem_map.mpr ⟨s, hs, he⟩)
    have hlk : dictLookup (_SOURCE, s.id)
        (dictInsert (_SOURCE, p.id) p st.id_map) = some s := by
      rw [dictLookup_insert]
      have hne : ¬ ((_SOURCE, p.id) = (_SOURCE, s.id)) := by
        intro he
        exact hsid (congrArg Prod.snd he).symm
      rw [if_neg hne, h.lookup_src]
      exact find?_id_self srcs h.src_nodup s hs
    have := List.find?_eq_none.mp hf (_SOURCE, s.id) hmem
    apply this
    rw [hlk]
    simp [hcb.2]
  | some q =>
    refine ⟨"Duplicate data point (both data points have the same " ++
      "rounded start and end time, this is not supported as the " ++
      "algorithm uses rounded start and end time as data point " ++
      "fingerprint for matching): " ++ p.id ++ " and " ++ q.2, ?_⟩
    unfold index_data_point
    rw [hdup]
    simp only [Option.isSome_none, Bool.false_eq_true, if_false]
    rw [hf]

theorem index_dst_err_of_coll (accuracy : Accuracy)
    (srcs dsts : List DataPoint) (st : SyncState) (p : DataPoint)
    (h : InvSt accuracy srcs dsts st)
    (hid : p.id ∉ dsts.map (fun q => q.id)) (d : DataPoint) (hd : d ∈ dsts)
    (hcb : collB accuracy d p = true) :
    ∃ e, index_data_point accuracy _DESTINATION p st = .error e := by
  have hdup : dictLookup (_DESTINATION, p.id) st.id_map = none := by
    rw [h.lookup_dst]
    exact find?_id_none dsts p.id hid
  unfold collB at hcb
  simp only [Bool.and_eq_true, decide_eq_true_eq] at hcb
  cases hf : ((dictGetD (round_datetime accuracy p.start) []
      st.time_start_map).find? (fun q =>
        decide (q.1 = _DESTINATION) &&
        (match dictLookup q
            (dictInsert (_DESTINATION, p.id) p st.id_map) with
         | some data_point2 => decide (data_point2.end_ = p.end_)
         | none => false))) with
  | none =>
    exfalso
    have hmem : (_DESTINATION, d.id) ∈
        dictGetD (round_datetime accuracy p.start) [] st.time_start_map := by
      rw [h.bucket]
      apply List.mem_append.mpr
      right
      exact List.mem_map.mpr ⟨d, List.mem_filter.mpr ⟨hd, by simp [hcb.1]⟩, rfl⟩
    have hdid : ¬ d.id = p.id := by
      intro he
      exact hid (List.mem_map.mpr ⟨d, hd, he⟩)
    have hlk : dictLookup (_DESTINATION, d.id)
        (dictInsert (_DESTINATION, p.id) p st.id_map) = some d := by
      rw [dictLookup_insert]
      have hne : ¬ ((_DESTINATION, p.id) = (_DESTINATION, d.id)) := by
        intro he
        exact hdid (congrArg Prod.snd he).symm
      rw [if_neg hne, h.lookup_dst]
      exact find?_id_self dsts h.dst_nodup d hd
    have := List.find?_eq_none.mp hf (_DESTINATION, d.id) hmem
    apply this
    rw [hlk]
    simp [hcb.2]
  | some q =>
    refine ⟨"Duplicate data point (both data points have the same " ++
      "rounded start and end time, this is not supported as the " ++
      "algorithm uses rounded start and end time as data point " ++
      "fingerprint for matching): " ++ p.id ++ " and " ++ q.2, ?_⟩
    unfold index_data_point
    rw [hdup]
    simp only [Option.isSome_none, Bool.false_eq_true, if_false]
    rw [hf]

/-! ### Indexing a whole side -/

theorem indexAll_src_ok (accuracy : Accuracy) :
    ∀ (pts srcs : List DataPoint) (st : SyncState),
    InvSt accuracy srcs [] st →
    ((srcs ++ pts).map (fun p => p.id)).Nodup →
    (srcs ++ pts).Pairwise (fun a b => collB accuracy a b = false) →
    ∃ st', indexAll accuracy _SOURCE pts st = .ok st' ∧
      InvSt accuracy (srcs ++ pts) [] st' := by
  intro pts
  induction pts with
  | nil =>
    intro srcs st h _ _
    exact ⟨st, rfl, by simpa using h⟩
  | cons p rest ih =>
    intro srcs st h hn hp
    have hassoc : srcs ++ p :: rest = (srcs ++ [p]) ++ rest := by
      rw [List.append_cons]
    have hid : p.id ∉ srcs.map (fun q => q.id) := by
      rw [List.map_append] at hn
      rcases List.nodup_append.mp hn with ⟨_, _, hdisj⟩
      intro hmem
      exact (List.disjoint_left.mp hdisj hmem) (by simp)
    have hcoll : ∀ s ∈ srcs, collB accuracy s p = false := by
      intro s hs
      rcases List.pairwise_append.mp hp with ⟨_, _, hcross⟩
      exact hcross s hs p (by simp)
    obtain ⟨st', heq, hinv⟩ := index_src_ok accuracy srcs st p h hid hcoll
    rw [hassoc] at hn hp
    obtain ⟨st'', heq', hinv'⟩ := ih (srcs ++ [p]) st' hinv hn hp
    refine ⟨st'', ?_, by rwa [hassoc]⟩
    unfold indexAll
    rw [heq]
    exact heq'

theorem indexAll_dst_ok (accuracy : Accuracy) (srcs : List DataPoint) :
    ∀ (pts dsts : List DataPoint) (st : SyncState),
    InvSt accuracy srcs dsts st →
    ((dsts ++ pts).map (fun p => p.id)).Nodup →
    (dsts ++ pts).Pairwise (fun a b => collB accuracy a b = false) →
    ∃ st', indexAll accuracy _DESTINATION pts st = .ok st' ∧
      InvSt accuracy srcs (dsts ++ pts) st' := by
  intro pts
  induction pts with
  | nil =>
    intro dsts st h _ _
    exact ⟨st, rfl, by simpa using h⟩
  | cons p rest ih =>
    intro dsts st h hn hp
    have hassoc : dsts ++ p :: rest = (dsts ++ [p]) ++ rest := by
      rw [List.append_cons]
    have hid : p.id ∉ dsts.map (fun q => q.id) := by
      rw [List.map_append] at hn
      rcases List.nodup_append.mp hn with ⟨_, _, hdisj⟩
      intro hmem
      exact (List.disjoint_left.mp hdisj hmem) (by simp)
    have hcoll : ∀ d ∈ dsts, collB accuracy d p = false := by
      intro d hd
      rcases List.pairwise_append.mp hp with ⟨_, _, hcross⟩
      exact hcross d hd p (by simp)
    obtain ⟨st', heq, hinv⟩ := index_dst_ok accuracy srcs dsts st p h hid hcoll
    rw [hassoc] at hn hp
    obtain ⟨st'', heq', hinv'⟩ := ih (dsts ++ [p]) st' hinv hn hp
    refine ⟨st'', ?_, by rwa [hassoc]⟩
    unfold indexAll
    rw [heq]
    exact heq'

theorem indexAll_src_inv (accuracy : Accuracy) :
    ∀ (pts srcs : List DataPoint) (st st' : SyncState),
    InvSt accuracy srcs [] st →
    indexAll accuracy _SOURCE pts st = .ok st' →
    InvSt accuracy (srcs ++ pts) [] st' := by
  intro pts
  induction pts with
  | nil =>
    intro srcs st st' h heq
    cases heq
    simpa using h
  | cons p rest ih =>
    intro srcs st st' h heq
    unfold indexAll at heq
    cases hix : index_data_point accuracy _SOURCE p st with
    | error e => rw [hix] at heq; cases heq
    | ok st₀ =>
      rw [hix] at heq
      have hid : p.id ∉ srcs.map (fun q => q.id) := by
        intro hmem
        obtain ⟨e, he⟩ :=
          index_src_err_of_dup accuracy srcs [] st p h hmem
        rw [he] at hix
        cases hix
      have hcoll : ∀ s ∈ srcs, collB accuracy s p = false := by
        intro s hs
        cases hcb : collB accuracy s p with
        | false => rfl
        | true =>
          obtain ⟨e, he⟩ :=
            index_src_err_of_coll accuracy srcs st p h hid s hs hcb
          rw [he] at hix
          cases hix
      obtain ⟨st₁, heq₁, hinv₁⟩ := index_src_ok accuracy srcs st p h hid hcoll
      rw [heq₁] at hix
      cases hix
      have := ih (srcs ++ [p]) st₀ st' hinv₁ heq
      rwa [List.append_cons]

theorem indexAll_dst_inv (accuracy : Accuracy) (srcs : List DataPoint) :
    ∀ (pts dsts : List DataPoint) (st st' : SyncState),
    InvSt accuracy srcs dsts st →
    indexAll accuracy _DESTINATION pts st = .ok st' →
    InvSt accuracy srcs (dsts ++ pts) st' := by
  intro pts
  induction pts with
  | nil =>
    intro dsts st st' h heq
    cases heq
    simpa using h
  | cons p rest ih =>
    intro dsts st st' h heq
    unfold indexAll at heq
    cases hix : index_data_point accuracy _DESTINATION p st with
    | error e => rw [hix] at heq; cases heq
    | ok st₀ =>
      rw [hix] at heq
      have hid : p.id ∉ dsts.map (fun q => q.id) := by
        intro hmem
        obtain ⟨e, he⟩ :=
          index_dst_err_of_dup accuracy srcs dsts st p h hmem
        rw [he] at hix
        cases hix
      have hcoll : ∀ d ∈ dsts, collB accuracy d p = false := by
        intro d hd
        cases hcb : collB accuracy d p with
        | false => rfl
        | true =>
          obtain ⟨e, he⟩ :=
            index_dst_err_of_coll accuracy srcs dsts st p h hid d hd hcb
          rw [he] at hix
          cases hix
      obtain ⟨st₁, heq₁, hinv₁⟩ :=
        index_dst_ok accuracy srcs dsts st p h hid hcoll
      rw [heq₁] at hix
      cases hix
      have := ih (dsts ++ [p]) st₀ st' hinv₁ heq
      rwa [List.append_cons]

/-! ### Small list helpers -/

theorem any_map' {α β : Type} (f : α → β) (l : List α) (p : β → Bool) :
    (l.map f).any p = l.any (fun a => p (f a)) := by
  induction l with
  | nil => rfl
  | cons x xs ih => simp [List.any, ih]

theorem any_congr_mem {α : Type} (l : List α) (p q : α → Bool)
    (h : ∀ a ∈ l, p a = q a) : l.any p = l.any q := by
  induction l with
  | nil => rfl
  | cons x xs ih =>
    simp only [List.any]
    rw [h x (by simp), ih (fun a ha => h a (by simp [ha]))]

theorem find?_congr_mem {α : Type} (l : List α) (p q : α → Bool)
    (h : ∀ a ∈ l, p a = q a) : l.find? p = l.find? q := by
  induction l with
  | nil => rfl
  | cons x xs ih =>
    cases hq : q x with
    | true =>
      rw [List.find?_cons_of_pos _ (by rw [h x (by simp)]; exact hq),
        List.find?_cons_of_pos _ hq]
    | false =>
      rw [List.find?_cons_of_neg _ (by rw [h x (by simp)]; simp [hq]),
        List.find?_cons_of_neg _ (by simp [hq])]
      exact ih (fun a ha => h a (by simp [ha]))

/-! ### Matching-phase characterization -/

theorem destMatchExists_spec (accuracy : Accuracy)
    (srcs dsts : List DataPoint) (st : SyncState)
    (h : InvSt accuracy srcs dsts st) (s : DataPoint) :
    destMatchExists accuracy st s =
      dsts.any (fun d => fpMatches accuracy s d) := by
  show ((dictGetD (round_datetime accuracy s.start) []
      st.time_start_map).any fun p =>
        decide (p.1 = _DESTINATION) &&
        match dictLookup p st.id_map with
        | some dp2 => decide (round_datetime accuracy dp2.end_ =
            round_datetime accuracy s.end_)
        | none => false) = _
  rw [h.bucket, List.any_append]
  have hsrc : ((srcs.filter (fun p =>
      decide (round_datetime accuracy p.start =
        round_datetime accuracy s.start))).map
      (fun p => (_SOURCE, p.id))).any (fun p =>
        decide (p.1 = _DESTINATION) &&
        (match dictLookup p st.id_map with
         | some dp2 => decide (round_datetime accuracy dp2.end_ =
             round_datetime accuracy s.end_)
         | none => false)) = false := by
    rw [any_map']
    apply List.any_eq_false.mpr
    intro q _
    simp [src_ne_dst]
  rw [hsrc, any_map']
  simp only [Bool.false_or]
  rw [Bool.eq_iff_iff]
  constructor
  · intro hx
    rcases List.any_eq_true.mp hx with ⟨d, hd, hp⟩
    have hdmem : d ∈ dsts := (List.filter_sublist dsts).subset hd
    have hrs : round_datetime accuracy d.start =
        round_datetime accuracy s.start := by
      have := List.of_mem_filter hd
      simpa using this
    rw [h.lookup_dst, find?_id_self dsts h.dst_nodup d hdmem] at hp
    simp only [decide_eq_true_eq, Bool.and_eq_true] at hp
    apply List.any_eq_true.mpr
    refine ⟨d, hdmem, ?_⟩
    unfold fpMatches
    simp [hrs.symm, hp.2]
  · intro hx
    rcases List.any_eq_true.mp hx with ⟨d, hd, hp⟩
    unfold fpMatches at hp
    simp only [Bool.and_eq_true, decide_eq_true_eq] at hp
    apply List.any_eq_true.mpr
    refine ⟨d, List.mem_filter.mpr ⟨hd, by simp [hp.1.symm]⟩, ?_⟩
    rw [h.lookup_dst, find?_id_self dsts h.dst_nodup d hd]
    simp [hp.2.symm]

theorem computeMissing_spec (accuracy : Accuracy)
    (srcs dsts : List DataPoint) (st : SyncState)
    (h : InvSt accuracy srcs dsts st) :
    computeMissing accuracy st =
      (missingDecl accuracy srcs dsts).map (fun p => p.id) := by
  unfold computeMissing missingDecl
  rw [h.src_ids, List.filter_map]
  congr 1
  apply List.filter_congr
  intro s hs
  show (match dictLookup (_SOURCE, s.id) st.id_map with
    | none => false
    | some dp => ! destMatchExists accuracy st dp) = _
  rw [h.lookup_src, find?_id_self srcs h.src_nodup s hs]
  show (! destMatchExists accuracy st s) = _
  rw [destMatchExists_spec accuracy srcs dsts st h s]

theorem sourceMatch_spec (accuracy : Accuracy)
    (srcs dsts : List DataPoint) (st : SyncState)
    (h : InvSt accuracy srcs dsts st) (d : DataPoint) :
    sourceMatch accuracy st d = matchDecl accuracy srcs d := by
  unfold matchDecl
  show (match (dictGetD (round_datetime accuracy d.start) []
      st.time_start_map).find? (fun p =>
        decide (p.1 = _SOURCE) &&
        match dictLookup p st.id_map with
        | some dp2 => decide (round_datetime accuracy dp2.end_ =
            round_datetime accuracy d.end_)
        | none => false) with
    | some p => dictLookup p st.id_map
    | none => none) = _
  rw [h.bucket, List.find?_append]
  have hdst : ((dsts.filter (fun p =>
      decide (round_datetime accuracy p.start =
        round_datetime accuracy d.start))).map
      (fun p => (_DESTINATION, p.id))).find? (fun p =>
        decide (p.1 = _SOURCE) &&
        (match dictLookup p st.id_map with
         | some dp2 => decide (round_datetime accuracy dp2.end_ =
             round_datetime accuracy d.end_)
         | none => false)) = none := by
    apply List.find?_eq_none.mpr
    intro q hq
    rcases List.mem_map.mp hq with ⟨x, _, rfl⟩
    have hne : ¬ (_DESTINATION = _SOURCE) := fun he => src_ne_dst he.symm
    simp [hne]
  rw [hdst]
  rw [List.find?_map]
  have hpred : ∀ s ∈ srcs.filter (fun p =>
      decide (round_datetime accuracy p.start =
        round_datetime accuracy d.start)),
      ((fun p => decide (p.1 = _SOURCE) &&
        (match dictLookup p st.id_map with
         | some dp2 => decide (round_datetime accuracy dp2.end_ =
             round_datetime accuracy d.end_)
         | none => false)) ∘ (fun p => (_SOURCE, p.id))) s =
      decide (round_datetime accuracy s.end_ =
        round_datetime accuracy d.end_) := by
    intro s hs
    have hsmem : s ∈ srcs := (List.filter_sublist srcs).subset hs
    show (decide (_SOURCE = _SOURCE) && _) = _
    rw [h.lookup_src, find?_id_self srcs h.src_nodup s hsmem]
    simp
  rw [find?_congr_mem _ _ _ hpred, List.find?_filter]
  cases hfind : srcs.find? (fun s => fpMatches accuracy s d) with
  | none =>
    have : srcs.find? (fun a => decide ((decide (round_datetime accuracy
        a.start = round_datetime accuracy d.start)) = true ∧
        (decide (round_datetime accuracy a.end_ =
          round_datetime accuracy d.end_)) = true)) = none := by
      apply List.find?_eq_none.mpr
      intro s hsm
      have := List.find?_eq_none.mp hfind s hsm
      unfold fpMatches at this
      simp only [Bool.and_eq_true, decide_eq_true_eq] at this
      simp only [decide_eq_true_eq]
      intro hc
      exact this ⟨by simp [hc.1], by simp [hc.2]⟩
    rw [this]
    rfl
  | some s =>
    have hconj : srcs.find? (fun a => decide ((decide (round_datetime accuracy
        a.start = round_datetime accuracy d.start)) = true ∧
        (decide (round_datetime accuracy a.end_ =
          round_datetime accuracy d.end_)) = true)) = some s := by
      rw [find?_congr_mem srcs _ (fun s => fpMatches accuracy s d)]
      · exact hfind
      · intro a _
        unfold fpMatches
        rw [Bool.eq_iff_iff]
        simp
    rw [hconj]
    show dictLookup (_SOURCE, s.id) st.id_map = some s
    rw [h.lookup_src]
    exact find?_id_self srcs h.src_nodup s (List.mem_of_find?_eq_some hfind)

theorem find?_none_iff_any_false {α : Type} (l : List α) (p : α → Bool) :
    l.find? p = none ↔ l.any p = false := by
  rw [List.find?_eq_none, List.any_eq_false]

theorem processDest_go (accuracy : Accuracy) (srcs dsts : List DataPoint)
    (st : SyncState) (h : InvSt accuracy srcs dsts st) :
    ∀ (ds : List DataPoint) (mids : List String)
      (macc : List (DataPoint × DataPoint)) (aacc : List String),
    (∀ d ∈ ds, d ∈ dsts) →
    (ds.map (fun p => p.id)).Nodup →
    (∀ d ∈ ds, d.id ∉ mids) →
    processDest accuracy st (ds.map (fun p => p.id)) mids macc aacc =
      .ok (macc ++ modifiedDecl accuracy srcs ds,
        aacc ++ (additionalDecl accuracy srcs ds).map (fun p => p.id)) := by
  intro ds
  induction ds with
  | nil =>
    intro mids macc aacc _ _ _
    simp [processDest, modifiedDecl, additionalDecl]
  | cons d rest ih =>
    intro mids macc aacc hsub hnodup hmids
    have hdmem : d ∈ dsts := hsub d (by simp)
    have hlk : dictLookup (_DESTINATION, d.id) st.id_map = some d := by
      rw [h.lookup_dst]
      exact find?_id_self dsts h.dst_nodup d hdmem
    show processDest accuracy st (d.id :: rest.map (fun p => p.id))
      mids macc aacc = _
    unfold processDest
    rw [hlk]
    dsimp only
    rw [sourceMatch_spec accuracy srcs dsts st h d]
    simp only [List.map_cons, List.nodup_cons] at hnodup
    have hsub' : ∀ x ∈ rest, x ∈ dsts := fun x hx => hsub x (by simp [hx])
    cases hmd : matchDecl accuracy srcs d with
    | none =>
      dsimp only
      have hany : srcs.any (fun s => fpMatches accuracy s d) = false :=
        (find?_none_iff_any_false _ _).mp hmd
      rw [ih mids macc (aacc ++ [d.id]) hsub' hnodup.2
        (fun x hx => hmids x (by simp [hx]))]
      have hmod : modifiedDecl accuracy srcs (d :: rest) =
          modifiedDecl accuracy srcs rest := by
        unfold modifiedDecl
        simp [List.filterMap_cons, hmd]
      have hadd : additionalDecl accuracy srcs (d :: rest) =
          d :: additionalDecl accuracy srcs rest := by
        unfold additionalDecl
        simp [List.filter_cons, hany]
      rw [hmod, hadd]
      simp
    | some s =>
      dsimp only
      have hmd' : srcs.find? (fun s => fpMatches accuracy s d) = some s := hmd
      have hany : srcs.any (fun s => fpMatches accuracy s d) = true := by
        apply List.any_eq_true.mpr
        refine ⟨s, List.mem_of_find?_eq_some hmd', ?_⟩
        have := List.find?_some hmd'
        simpa using this
      have hadd : additionalDecl accuracy srcs (d :: rest) =
          additionalDecl accuracy srcs rest := by
        unfold additionalDecl
        simp [List.filter_cons, hany]
      by_cases hdiff : d.name ≠ s.name ∨ d.description ≠ s.description
      · rw [if_pos hdiff]
        have hdiffb : differs d s = true := by
          unfold differs
          exact decide_eq_true hdiff
        have hnotmem : d.id ∉ mids := hmids d (by simp)
        rw [if_neg hnotmem]
        have hm : ∀ x ∈ rest, x.id ∉ mids ++ [d.id] := by
          intro x hx hmem
          rcases List.mem_append.mp hmem with hm | hm
          · exact hmids x (by simp [hx]) hm
          · simp only [List.mem_singleton] at hm
            exact hnodup.1 (hm ▸ List.mem_map.mpr ⟨x, hx, rfl⟩)
        have hmod : modifiedDecl accuracy srcs (d :: rest) =
            (d, updatedRecord d s) :: modifiedDecl accuracy srcs rest := by
          unfold modifiedDecl
          simp [List.filterMap_cons, hmd, hdiffb]
        rw [hmod, hadd]
        show processDest accuracy st (rest.map (fun p => p.id))
          (mids ++ [d.id]) (macc ++ [(d, updatedRecord d s)]) aacc = _
        rw [ih (mids ++ [d.id]) (macc ++ [(d, updatedRecord d s)]) aacc
          hsub' hnodup.2 hm]
        simp
      · rw [if_neg hdiff]
        have hdiffb : differs d s = false := by
          unfold differs
          exact decide_eq_false hdiff
        rw [ih mids macc aacc hsub' hnodup.2
          (fun x hx => hmids x (by simp [hx]))]
        have hmod : modifiedDecl accuracy srcs (d :: rest) =
            modifiedDecl accuracy srcs rest := by
          unfold modifiedDecl
          simp [List.filterMap_cons, hmd, hdiffb]
        rw [hmod, hadd]

theorem processDest_spec (accuracy : Accuracy) (srcs dsts : List DataPoint)
    (st : SyncState) (h : InvSt accuracy srcs dsts st) :
    processDest accuracy st st.ids_list_dst [] [] [] =
      .ok (modifiedDecl accuracy srcs dsts,
        (additionalDecl accuracy srcs dsts).map (fun p => p.id)) := by
  rw [h.dst_ids]
  rw [processDest_go accuracy srcs dsts st h dsts [] [] []
    (fun d hd => hd) h.dst_nodup (fun d _ hm => by cases hm)]
  simp

/-! ### Freshness of the synthetic-id generator -/

theorem newIdString_injective :
    Function.Injective (fun k => "new-" ++ natStr k) := by
  intro a b h
  apply natStr_injective
  have hd := congrArg String.data h
  simp only [String.data_append] at hd
  exact String.ext (List.append_cancel_left hd)

theorem dictLookupIsSome_mem_keys {α β : Type} [DecidableEq α] (k : α)
    (m : List (α × β)) (h : (dictLookup k m).isSome = true) :
    k ∈ m.map Prod.fst := by
  induction m with
  | nil => simp [dictLookup] at h
  | cons kv rest ih =>
    obtain ⟨k₀, v₀⟩ := kv
    by_cases he : k₀ = k
    · simp [he]
    · simp only [dictLookup, if_neg he] at h
      simp [ih h]

theorem inIdMap_mem_ids (m : List ((Nat × String) × DataPoint)) (s : String)
    (h : inIdMap m s = true) : s ∈ m.map (fun kv => kv.1.2) := by
  unfold inIdMap at h
  rcases Bool.or_eq_true_iff.mp h with h | h
  · have := dictLookupIsSome_mem_keys (_SOURCE, s) m h
    rcases List.mem_map.mp this with ⟨kv, hkv, he⟩
    exact List.mem_map.mpr ⟨kv, hkv, congrArg Prod.snd he⟩
  · have := dictLookupIsSome_mem_keys (_DESTINATION, s) m h
    rcases List.mem_map.mp this with ⟨kv, hkv, he⟩
    exact List.mem_map.mpr ⟨kv, hkv, congrArg Prod.snd he⟩

/-- Among `m.length + 1` consecutive probe candidates at least one id is
unused: pigeonhole via injectivity of decimal rendering. -/
theorem exists_free_probe (m : List ((Nat × String) × DataPoint)) (n : Nat) :
    ∃ j, j < m.length + 1 ∧
      inIdMap m ("new-" ++ natStr (n + j)) = false := by
  by_contra hc
  push_neg at hc
  have hall : ∀ j < m.length + 1, inIdMap m ("new-" ++ natStr (n + j)) = true := by
    intro j hj
    have := hc j hj
    cases hx : inIdMap m ("new-" ++ natStr (n + j)) with
    | false => exact absurd hx this
    | true => rfl
  have hsub : ((List.range (m.length + 1)).map
      (fun j => "new-" ++ natStr (n + j))).toFinset ⊆
      (m.map (fun kv => kv.1.2)).toFinset := by
    intro s hs
    rw [List.mem_toFinset] at hs
    rcases List.mem_map.mp hs with ⟨j, hj, rfl⟩
    rw [List.mem_toFinset]
    exact inIdMap_mem_ids m _ (hall j (List.mem_range.mp hj))
  have hnodup : ((List.range (m.length + 1)).map
      (fun j => "new-" ++ natStr (n + j))).Nodup := by
    apply List.Nodup.map _ (List.nodup_range _)
    intro a b hab
    have := newIdString_injective hab
    omega
  have hcard₁ : ((List.range (m.length + 1)).map
      (fun j => "new-" ++ natStr (n + j))).toFinset.card = m.length + 1 := by
    rw [List.toFinset_card_of_nodup hnodup]
    simp
  have hcard₂ := Finset.card_le_card hsub
  rw [hcard₁] at hcard₂
  have := List.toFinset_card_le (m.map (fun kv => kv.1.2))
  simp only [List.length_map] at this
  omega

theorem next_id_core_free (m : List ((Nat × String) × DataPoint)) :
    ∀ (fuel n : Nat),
    (∃ j, j < fuel ∧ inIdMap m ("new-" ++ natStr (n + j)) = false) →
    inIdMap m ("new-" ++ natStr (next_id_core m fuel n)) = false := by
  intro fuel
  induction fuel with
  | zero =>
    intro n h
    rcases h with ⟨j, hj, _⟩
    omega
  | succ fuel ih =>
    intro n h
    unfold next_id_core
    cases hx : inIdMap m ("new-" ++ natStr n) with
    | false => simpa using hx
    | true =>
      simp only [if_pos rfl]
      apply ih
      rcases h with ⟨j, hj, hfree⟩
      match j, hj with
      | 0, _ => rw [Nat.add_zero] at hfree; rw [hfree] at hx; cases hx
      | j + 1, hj =>
        exact ⟨j, by omega, by rw [show n + 1 + j = n + (j + 1) by omega]; exact hfree⟩

/-- The id returned by `next_id` is absent from both sides of `id_map` at
the moment of generation (`sync.py` lines 31-41). -/
theorem next_id_fresh (st : SyncState) :
    inIdMap st.id_map (next_id st).1 = false := by
  unfold next_id
  apply next_id_core_free
  rcases exists_free_probe st.id_map st.next_generated_id with ⟨j, hj, hfree⟩
  exact ⟨j, hj, hfree⟩

theorem next_id_state (st : SyncState) :
    ∃ k, (next_id st).1 = "new-" ++ natStr k ∧
      (next_id st).2 = { st with next_generated_id := k + 1 } := by
  exact ⟨next_id_core st.id_map (st.id_map.length + 1) st.next_generated_id,
    rfl, rfl⟩

/-! ### Update application (`sync.py` lines 139-144) -/

/-- The record a destination record becomes after the update phase: name and
description overwritten from its first fingerprint-matching source record
when they differ, unchanged otherwise. -/
def reconciledDst (accuracy : Accuracy) (srcs : List DataPoint)
    (d : DataPoint) : DataPoint :=
  match matchDecl accuracy srcs d with
  | some s => if differs d s then updatedRecord d s else d
  | none => d

theorem reconciledDst_id (accuracy : Accuracy) (srcs : List DataPoint)
    (d : DataPoint) : (reconciledDst accuracy srcs d).id = d.id := by
  unfold reconciledDst
  cases matchDecl accuracy srcs d with
  | none => rfl
  | some s =>
    by_cases hd : differs d s = true
    · simp [hd, updatedRecord]
    · simp [Bool.eq_false_iff.mpr hd]

theorem reconciledDst_start (accuracy : Accuracy) (srcs : List DataPoint)
    (d : DataPoint) : (reconciledDst accuracy srcs d).start = d.start := by
  unfold reconciledDst
  cases matchDecl accuracy srcs d with
  | none => rfl
  | some s =>
    by_cases hd : differs d s = true
    · simp [hd, updatedRecord]
    · simp [Bool.eq_false_iff.mpr hd]

theorem reconciledDst_end (accuracy : Accuracy) (srcs : List DataPoint)
    (d : DataPoint) : (reconciledDst accuracy srcs d).end_ = d.end_ := by
  unfold reconciledDst
  cases matchDecl accuracy srcs d with
  | none => rfl
  | some s =>
    by_cases hd : differs d s = true
    · simp [hd, updatedRecord]
    · simp [Bool.eq_false_iff.mpr hd]

theorem modifiedDecl_mem (accuracy : Accuracy) (srcs dsts : List DataPoint)
    (pn : DataPoint × DataPoint)
    (h : pn ∈ modifiedDecl accuracy srcs dsts) :
    pn.1 ∈ dsts ∧ pn.2.id = pn.1.id ∧
      pn.2 = reconciledDst accuracy srcs pn.1 := by
  unfold modifiedDecl at h
  rcases List.mem_filterMap.mp h with ⟨d, hd, hg⟩
  cases hmd : matchDecl accuracy srcs d with
  | none => rw [hmd] at hg; cases hg
  | some s =>
    rw [hmd] at hg
    simp only [Option.some_bind] at hg
    by_cases hdiff : differs d s = true
    · rw [if_pos hdiff] at hg
      cases hg
      refine ⟨hd, by simp [updatedRecord], ?_⟩
      unfold reconciledDst
      rw [hmd]
      dsimp only
      rw [if_pos hdiff]
    · rw [if_neg hdiff] at hg
      cases hg

theorem applyUpdates_acts : ∀ (pairs : List (DataPoint × DataPoint))
    (st : SyncState),
    (applyUpdates pairs st).1 =
      pairs.map (fun pn => ⟨some pn.1, some pn.2⟩) := by
  intro pairs
  induction pairs with
  | nil => intro st; rfl
  | cons pn rest ih =>
    intro st
    obtain ⟨p, n⟩ := pn
    show ((⟨some p, some n⟩ : DataPointAction) ::
      (applyUpdates rest _).1, _).1 = _
    simp [ih]

theorem applyUpdates_state_misc : ∀ (pairs : List (DataPoint × DataPoint))
    (st : SyncState),
    (applyUpdates pairs st).2.time_start_map = st.time_start_map ∧
    (applyUpdates pairs st).2.ids_list_src = st.ids_list_src ∧
    (applyUpdates pairs st).2.ids_list_dst = st.ids_list_dst := by
  intro pairs
  induction pairs with
  | nil => intro st; exact ⟨rfl, rfl, rfl⟩
  | cons pn rest ih =>
    intro st
    obtain ⟨p, n⟩ := pn
    exact ih _

theorem applyUpdates_lookup : ∀ (pairs : List (DataPoint × DataPoint))
    (st : SyncState) (k : Nat × String),
    (pairs.map (fun pn => pn.2.id)).Nodup →
    dictLookup k (applyUpdates pairs st).2.id_map =
      (match pairs.find? (fun pn =>
          decide ((_DESTINATION, pn.2.id) = k)) with
       | some pn => some pn.2
       | none => dictLookup k st.id_map) := by
  intro pairs
  induction pairs with
  | nil => intro st k _; rfl
  | cons pn rest ih =>
    intro st k hnodup
    obtain ⟨p, n⟩ := pn
    simp only [List.map_cons, List.nodup_cons] at hnodup
    show dictLookup k (applyUpdates rest _).2.id_map = _
    rw [ih _ k hnodup.2]
    by_cases hk : (_DESTINATION, n.id) = k
    · rw [List.find?_cons_of_pos _ (by simp [hk])]
      have hrest : rest.find? (fun pn =>
          decide ((_DESTINATION, pn.2.id) = k)) = none := by
        apply List.find?_eq_none.mpr
        intro pn hpn
        simp only [decide_eq_true_eq]
        intro he
        apply hnodup.1
        have : pn.2.id = n.id := by
          have h₁ := congrArg Prod.snd he
          have h₂ := congrArg Prod.snd hk
          simp at h₁ h₂
          rw [h₁, h₂]
        exact this ▸ List.mem_map.mpr ⟨pn, hpn, rfl⟩
      rw [hrest]
      rw [dictLookup_insert, if_pos hk]
    · rw [List.find?_cons_of_neg _ (by simp [hk])]
      cases hrest : rest.find? (fun pn =>
          decide ((_DESTINATION, pn.2.id) = k)) with
      | some pn => rfl
      | none =>
        rw [dictLookup_insert, if_neg hk]

theorem collB_reconciled (accuracy : Accuracy) (srcs : List DataPoint)
    (a b : DataPoint) :
    collB accuracy (reconciledDst accuracy srcs a)
      (reconciledDst accuracy srcs b) = collB accuracy a b := by
  unfold collB
  rw [reconciledDst_start, reconciledDst_start,
    reconciledDst_end, reconciledDst_end]

theorem fpMatches_reconciled (accuracy : Accuracy) (srcs : List DataPoint)
    (s d : DataPoint) :
    fpMatches accuracy s (reconciledDst accuracy srcs d) =
      fpMatches accuracy s d := by
  unfold fpMatches
  rw [reconciledDst_start, reconciledDst_end]

theorem modifiedDecl_ids_sublist (accuracy : Accuracy)
    (srcs : List DataPoint) : ∀ (dsts : List DataPoint),
    ((modifiedDecl accuracy srcs dsts).map (fun pn => pn.2.id)).Sublist
      (dsts.map (fun p => p.id)) := by
  intro dsts
  induction dsts with
  | nil => simp [modifiedDecl]
  | cons d rest ih =>
    unfold modifiedDecl
    rw [List.filterMap_cons]
    cases hmd : matchDecl accuracy srcs d with
    | none =>
      simp only [Option.none_bind]
      exact (ih).trans (List.sublist_cons_self _ _)
    | some s =>
      simp only [Option.some_bind]
      by_cases hdiff : differs d s = true
      · rw [if_pos hdiff]
        simp only [List.map_cons]
        have : (d, updatedRecord d s).2.id = d.id := by simp [updatedRecord]
        rw [this]
        exact List.Sublist.cons₂ _ ih
      · rw [if_neg hdiff]
        exact (ih).trans (List.sublist_cons_self _ _)

theorem modified_lookup (accuracy : Accuracy) (srcs : List DataPoint) :
    ∀ (dsts : List DataPoint), (dsts.map (fun p => p.id)).Nodup →
    ∀ i : String,
    (match (modifiedDecl accuracy srcs dsts).find? (fun pn =>
        decide ((_DESTINATION, pn.2.id) = ((_DESTINATION : Nat), i))) with
     | some pn => some pn.2
     | none => dsts.find? (fun q => decide (q.id = i))) =
      (dsts.map (reconciledDst accuracy srcs)).find?
        (fun q => decide (q.id = i)) := by
  intro dsts
  induction dsts with
  | nil => intro _ i; rfl
  | cons d rest ih =>
    intro hnodup i
    simp only [List.map_cons, List.nodup_cons] at hnodup
    have hufid : (reconciledDst accuracy srcs d).id = d.id :=
      reconciledDst_id accuracy srcs d
    by_cases hi : d.id = i
    · -- head is the record with this id
      have hrestnone : ∀ pn ∈ modifiedDecl accuracy srcs rest,
          ¬ ((_DESTINATION, pn.2.id) = ((_DESTINATION : Nat), i)) := by
        intro pn hpn he
        rcases modifiedDecl_mem accuracy srcs rest pn hpn with ⟨hmem, hid, _⟩
        apply hnodup.1
        have : pn.1.id = i := by rw [← hid]; exact congrArg Prod.snd he
        rw [← hi] at this
        exact this ▸ List.mem_map.mpr ⟨pn.1, hmem, rfl⟩
      have hrhs : (List.map (reconciledDst accuracy srcs) (d :: rest)).find?
          (fun q => decide (q.id = i)) =
          some (reconciledDst accuracy srcs d) := by
        rw [List.map_cons]
        exact List.find?_cons_of_pos _ (by simp [hufid, hi])
      rw [hrhs]
      unfold modifiedDecl
      rw [List.filterMap_cons]
      cases hmd : matchDecl accuracy srcs d with
      | none =>
        simp only [Option.none_bind]
        have hfr : (modifiedDecl accuracy srcs rest).find? (fun pn =>
            decide ((_DESTINATION, pn.2.id) = ((_DESTINATION : Nat), i))) =
            none := by
          apply List.find?_eq_none.mpr
          intro pn hpn
          simp only [decide_eq_true_eq]
          exact hrestnone pn hpn
        show (match (modifiedDecl accuracy srcs rest).find? _ with
          | some pn => some pn.2
          | none => (d :: rest).find? (fun q => decide (q.id = i))) = _
        rw [hfr]
        rw [List.find?_cons_of_pos _ (by simp [hi])]
        unfold reconciledDst
        rw [hmd]
      | some s =>
        simp only [Option.some_bind]
        by_cases hdiff : differs d s = true
        · rw [if_pos hdiff]
          have hhead : ((_DESTINATION, (d, updatedRecord d s).2.id) =
              ((_DESTINATION : Nat), i)) := by
            simp [updatedRecord, hi]
          rw [List.find?_cons_of_pos _ (by simp [updatedRecord, hi])]
          show some (updatedRecord d s) = _
          unfold reconciledDst
          rw [hmd]
          dsimp only
          rw [if_pos hdiff]
        · rw [if_neg hdiff]
          have hfr : (modifiedDecl accuracy srcs rest).find? (fun pn =>
              decide ((_DESTINATION, pn.2.id) = ((_DESTINATION : Nat), i))) =
              none := by
            apply List.find?_eq_none.mpr
            intro pn hpn
            simp only [decide_eq_true_eq]
            exact hrestnone pn hpn
          show (match (modifiedDecl accuracy srcs rest).find? _ with
            | some pn => some pn.2
            | none => (d :: rest).find? (fun q => decide (q.id = i))) = _
          rw [hfr]
          rw [List.find?_cons_of_pos _ (by simp [hi])]
          unfold reconciledDst
          rw [hmd]
          dsimp only
          rw [if_neg hdiff]
    · -- head id differs
      have hrhs : (List.map (reconciledDst accuracy srcs) (d :: rest)).find?
          (fun q => decide (q.id = i)) =
          (List.map (reconciledDst accuracy srcs) rest).find?
            (fun q => decide (q.id = i)) := by
        rw [List.map_cons]
        exact List.find?_cons_of_neg _ (by simp [hufid, hi])
      rw [hrhs, ← ih hnodup.2 i]
      unfold modifiedDecl
      rw [List.filterMap_cons]
      have hfallback : (d :: rest).find? (fun q => decide (q.id = i)) =
          rest.find? (fun q => decide (q.id = i)) :=
        List.find?_cons_of_neg _ (by simp [hi])
      cases hmd : matchDecl accuracy srcs d with
      | none =>
        simp only [Option.none_bind]
        show (match (modifiedDecl accuracy srcs rest).find? _ with
          | some pn => some pn.2
          | none => (d :: rest).find? (fun q => decide (q.id = i))) = _
        rw [hfallback]
        rfl
      | some s =>
        simp only [Option.some_bind]
        by_cases hdiff : differs d s = true
        · rw [if_pos hdiff]
          rw [List.find?_cons_of_neg _ (by simp [updatedRecord, hi])]
          show (match (modifiedDecl accuracy srcs rest).find? _ with
            | some pn => some pn.2
            | none => (d :: rest).find? (fun q => decide (q.id = i))) = _
          rw [hfallback]
          rfl
        · rw [if_neg hdiff]
          show (match (modifiedDecl accuracy srcs rest).find? _ with
            | some pn => some pn.2
            | none => (d :: rest).find? (fun q => decide (q.id = i))) = _
          rw [hfallback]
          rfl

theorem reconciled_map_ids (accuracy : Accuracy) (srcs dsts : List DataPoint) :
    (dsts.map (reconciledDst accuracy srcs)).map (fun p => p.id) =
      dsts.map (fun p => p.id) := by
  rw [List.map_map]
  apply List.map_congr_left
  intro d _
  exact reconciledDst_id accuracy srcs d

theorem reconciled_bucket (accuracy : Accuracy) (srcs dsts : List DataPoint)
    (t : DateTime) :
    ((dsts.map (reconciledDst accuracy srcs)).filter (fun p =>
      decide (round_datetime accuracy p.start = t))).map
      (fun p => (_DESTINATION, p.id)) =
    (dsts.filter (fun p =>
      decide (round_datetime accuracy p.start = t))).map
      (fun p => (_DESTINATION, p.id)) := by
  rw [List.filter_map, List.map_map]
  have hfc : dsts.filter ((fun p =>
      decide (round_datetime accuracy p.start = t)) ∘
      (reconciledDst accuracy srcs)) = dsts.filter (fun p =>
      decide (round_datetime accuracy p.start = t)) := by
    apply List.filter_congr
    intro d _
    show decide (round_datetime accuracy
      (reconciledDst accuracy srcs d).start = t) = _
    rw [reconciledDst_start]
  rw [hfc]
  apply List.map_congr_left
  intro d _
  show (_DESTINATION, (reconciledDst accuracy srcs d).id) = _
  rw [reconciledDst_id]

theorem applyUpdates_inv (accuracy : Accuracy) (srcs dsts : List DataPoint)
    (st : SyncState) (h : InvSt accuracy srcs dsts st) :
    InvSt accuracy srcs (dsts.map (reconciledDst accuracy srcs))
      (applyUpdates (modifiedDecl accuracy srcs dsts) st).2 := by
  have hmisc := applyUpdates_state_misc (modifiedDecl accuracy srcs dsts) st
  have hnp : ((modifiedDecl accuracy srcs dsts).map
      (fun pn => pn.2.id)).Nodup :=
    (modifiedDecl_ids_sublist accuracy srcs dsts).nodup h.dst_nodup
  constructor
  · rw [hmisc.2.1, h.src_ids]
  · rw [hmisc.2.2, h.dst_ids, reconciled_map_ids]
  · exact h.src_nodup
  · rw [reconciled_map_ids]
    exact h.dst_nodup
  · exact h.src_pair
  · rw [List.pairwise_map]
    apply List.Pairwise.imp _ h.dst_pair
    intro a b hab
    rw [collB_reconciled]
    exact hab
  · intro i
    rw [applyUpdates_lookup _ _ _ hnp]
    have hnone : (modifiedDecl accuracy srcs dsts).find? (fun pn =>
        decide ((_DESTINATION, pn.2.id) = ((_SOURCE : Nat), i))) = none := by
      apply List.find?_eq_none.mpr
      intro pn _
      simp only [decide_eq_true_eq]
      intro he
      exact src_ne_dst (congrArg Prod.fst he).symm
    rw [hnone, h.lookup_src]
  · intro i
    rw [applyUpdates_lookup _ _ _ hnp]
    have := modified_lookup accuracy srcs dsts h.dst_nodup i
    rw [← this]
    cases (modifiedDecl accuracy srcs dsts).find? (fun pn =>
        decide ((_DESTINATION, pn.2.id) = ((_DESTINATION : Nat), i))) with
    | some pn => rfl
    | none => rw [h.lookup_dst]
  · intro t
    rw [hmisc.1, h.bucket, reconciled_bucket]

theorem not_mem_ids_of_find?_none (pts : List DataPoint) (i : String)
    (h : pts.find? (fun q => decide (q.id = i)) = none) :
    i ∉ pts.map (fun p => p.id) := by
  intro hmem
  rcases List.mem_map.mp hmem with ⟨q, hq, he⟩
  exact absurd (by simp [he]) (List.find?_eq_none.mp h q hq)

theorem collB_set_id (accuracy : Accuracy) (a m : DataPoint) (i : String) :
    collB accuracy a { m with id := i } = collB accuracy a m := rfl

theorem synthesizeCreates_spec (accuracy : Accuracy) (srcs : List DataPoint) :
    ∀ (ms dsts : List DataPoint) (st : SyncState),
    InvSt accuracy srcs dsts st →
    (∀ m ∈ ms, m ∈ srcs) →
    ms.Pairwise (fun a b => collB accuracy a b = false) →
    (∀ m ∈ ms, ∀ d ∈ dsts, collB accuracy d m = false) →
    ∃ (ids : List String) (st' : SyncState),
      ids.length = ms.length ∧ ids.Nodup ∧
      (∀ i ∈ ids, i ∉ srcs.map (fun p => p.id) ∧
        i ∉ dsts.map (fun p => p.id)) ∧
      synthesizeCreates accuracy (ms.map (fun p => p.id)) st =
        .ok ((ms.zip ids).map (fun si =>
          ⟨none, some { si.1 with id := si.2 }⟩), st') ∧
      InvSt accuracy srcs
        (dsts ++ (ms.zip ids).map (fun si => { si.1 with id := si.2 })) st' := by
  intro ms
  induction ms with
  | nil =>
    intro dsts st h _ _ _
    exact ⟨[], st, rfl, List.nodup_nil, by simp, rfl, by simpa using h⟩
  | cons m rest ih =>
    intro dsts st h hmem hpair hcoll
    have hm : m ∈ srcs := hmem m (by simp)
    have hlk : dictLookup (_SOURCE, m.id) st.id_map = some m := by
      rw [h.lookup_src]
      exact find?_id_self srcs h.src_nodup m hm
    obtain ⟨k, hk1, hk2⟩ := next_id_state st
    have hfree := next_id_fresh st
    rw [hk1] at hfree
    unfold inIdMap at hfree
    rw [Bool.or_eq_false_iff] at hfree
    have hlks : dictLookup (_SOURCE, "new-" ++ natStr k) st.id_map = none := by
      cases hx : dictLookup (_SOURCE, "new-" ++ natStr k) st.id_map with
      | none => rfl
      | some v => rw [hx] at hfree; simp at hfree
    have hlkd : dictLookup (_DESTINATION, "new-" ++ natStr k)
        st.id_map = none := by
      cases hx : dictLookup (_DESTINATION, "new-" ++ natStr k) st.id_map with
      | none => rfl
      | some v => rw [hx] at hfree; simp at hfree
    have hfs : "new-" ++ natStr k ∉ srcs.map (fun p => p.id) := by
      apply not_mem_ids_of_find?_none
      rw [← h.lookup_src]
      exact hlks
    have hfd : "new-" ++ natStr k ∉ dsts.map (fun p => p.id) := by
      apply not_mem_ids_of_find?_none
      rw [← h.lookup_dst]
      exact hlkd
    have hpairst : next_id st =
        ("new-" ++ natStr k, { st with next_generated_id := k + 1 }) :=
      Prod.ext hk1 hk2
    have hinv₁ : InvSt accuracy srcs dsts
        { st with next_generated_id := k + 1 } :=
      ⟨h.src_ids, h.dst_ids, h.src_nodup, h.dst_nodup, h.src_pair,
        h.dst_pair, h.lookup_src, h.lookup_dst, h.bucket⟩
    have hidfresh : ({ m with id := "new-" ++ natStr k } : DataPoint).id ∉
        dsts.map (fun q => q.id) := hfd
    have hcoll₁ : ∀ d ∈ dsts, collB accuracy d
        { m with id := "new-" ++ natStr k } = false := by
      intro d hd
      rw [collB_set_id]
      exact hcoll m (by simp) d hd
    obtain ⟨st₂, heq₂, hinv₂⟩ := index_dst_ok accuracy srcs dsts
      { st with next_generated_id := k + 1 }
      { m with id := "new-" ++ natStr k } hinv₁ hidfresh hcoll₁
    have hmem' : ∀ x ∈ rest, x ∈ srcs := fun x hx => hmem x (by simp [hx])
    have hpair' : rest.Pairwise (fun a b => collB accuracy a b = false) :=
      hpair.of_cons
    have hcoll' : ∀ x ∈ rest,
        ∀ d ∈ dsts ++ [{ m with id := "new-" ++ natStr k }],
        collB accuracy d x = false := by
      intro x hx d hd
      rcases List.mem_append.mp hd with hd | hd
      · exact hcoll x (by simp [hx]) d hd
      · simp only [List.mem_singleton] at hd
        subst hd
        show collB accuracy { m with id := "new-" ++ natStr k } x = false
        have : collB accuracy m x = false :=
          (List.pairwise_cons.mp hpair).1 x hx
        rw [← this]
        rfl
    obtain ⟨ids', st₃, hlen, hnd, hfr, heq₃, hinv₃⟩ :=
      ih (dsts ++ [{ m with id := "new-" ++ natStr k }]) st₂ hinv₂
        hmem' hpair' hcoll'
    refine ⟨("new-" ++ natStr k) :: ids', st₃, by simp [hlen], ?_, ?_, ?_, ?_⟩
    · rw [List.nodup_cons]
      refine ⟨?_, hnd⟩
      intro hmem₀
      have := (hfr _ hmem₀).2
      apply this
      rw [List.map_append]
      apply List.mem_append.mpr
      right
      simp
    · intro i hi
      rcases List.mem_cons.mp hi with hi | hi
      · subst hi
        exact ⟨hfs, hfd⟩
      · refine ⟨(hfr i hi).1, ?_⟩
        intro hmem₀
        apply (hfr i hi).2
        rw [List.map_append]
        exact List.mem_append.mpr (Or.inl hmem₀)
    · show synthesizeCreates accuracy (m.id :: rest.map (fun p => p.id)) st = _
      unfold synthesizeCreates
      rw [hlk]
      dsimp only
      rw [hpairst]
      dsimp only
      rw [heq₂]
      dsimp only
      rw [heq₃]
      dsimp only
      rw [List.zip_cons_cons, List.map_cons]
    · have : (dsts ++ [{ m with id := "new-" ++ natStr k }]) ++
          (rest.zip ids').map (fun si => { si.1 with id := si.2 }) =
          dsts ++ ((m :: rest).zip (("new-" ++ natStr k) :: ids')).map
            (fun si => { si.1 with id := si.2 }) := by
        rw [List.append_assoc]
        rfl
      rw [← this]
      exact hinv₃

theorem computeDeletes_spec (st₄ : SyncState) : ∀ (adds : List DataPoint),
    (∀ a ∈ adds, dictLookup (_DESTINATION, a.id) st₄.id_map = some a) →
    computeDeletes st₄ (adds.map (fun p => p.id)) =
      adds.map (fun a => ⟨some a, none⟩) := by
  intro adds
  induction adds with
  | nil => intro _; rfl
  | cons a rest ih =>
    intro hlk
    show computeDeletes st₄ (a.id :: rest.map (fun p => p.id)) = _
    unfold computeDeletes
    rw [List.filterMap_cons]
    rw [hlk a (by simp)]
    show (⟨some a, none⟩ : DataPointAction) ::
      computeDeletes st₄ (rest.map (fun p => p.id)) = _
    rw [ih (fun x hx => hlk x (by simp [hx]))]
    rfl

/-- A successful `sync` run certifies that each side had distinct ids and no
same-side (rounded start, raw end) duplicate. -/
theorem sync_ok_sideOk (accuracy : Accuracy) (src dst : List DataPoint)
    (ch : List DataPointAction) (h : sync accuracy src dst = .ok ch) :
    sideOk accuracy src ∧ sideOk accuracy dst := by
  unfold sync at h
  cases h₁ : indexAll accuracy _SOURCE src initialSyncState with
  | error e => rw [h₁] at h; cases h
  | ok st₁ =>
    rw [h₁] at h
    dsimp only at h
    have hinv₁ : InvSt accuracy src [] st₁ := by
      have := indexAll_src_inv accuracy src [] initialSyncState st₁
        (InvSt_initial accuracy) h₁
      simpa using this
    cases h₂ : indexAll accuracy _DESTINATION dst st₁ with
    | error e => rw [h₂] at h; cases h
    | ok st₂ =>
      have hinv₂ : InvSt accuracy src dst st₂ := by
        have := indexAll_dst_inv accuracy src dst [] st₁ st₂ hinv₁ h₂
        simpa using this
      exact ⟨⟨hinv₁.src_nodup, hinv₁.src_pair⟩,
        ⟨hinv₂.dst_nodup, hinv₂.dst_pair⟩⟩

/-- Full declarative characterization of a `sync` run on accepted inputs:
the emitted change list is the declarative updates, one create per missing
source record carrying a fresh synthetic id, and one delete per additional
destination record, in that order. -/
theorem sync_spec (accuracy : Accuracy) (src dst : List DataPoint)
    (hsrc : sideOk accuracy src) (hdst : sideOk accuracy dst) :
    ∃ ids : List String,
      ids.length = (missingDecl accuracy src dst).length ∧ ids.Nodup ∧
      (∀ i ∈ ids, i ∉ src.map (fun p => p.id) ∧
        i ∉ dst.map (fun p => p.id)) ∧
      sync accuracy src dst = .ok (
        updatesDecl accuracy src dst ++
        ((missingDecl accuracy src dst).zip ids).map (fun si =>
          (⟨none, some { si.1 with id := si.2 }⟩ : DataPointAction)) ++
        deletesDecl accuracy src dst) := by
  obtain ⟨st₁, heq₁, hinv₁'⟩ := indexAll_src_ok accuracy src [] initialSyncState
    (InvSt_initial accuracy) (by simpa using hsrc.1) (by simpa using hsrc.2)
  have hinv₁ : InvSt accuracy src [] st₁ := by simpa using hinv₁'
  obtain ⟨st₂, heq₂, hinv₂'⟩ := indexAll_dst_ok accuracy src dst [] st₁ hinv₁
    (by simpa using hdst.1) (by simpa using hdst.2)
  have hinv₂ : InvSt accuracy src dst st₂ := by simpa using hinv₂'
  have hacts := applyUpdates_acts (modifiedDecl accuracy src dst) st₂
  have hinv₃ : InvSt accuracy src (dst.map (reconciledDst accuracy src))
      (applyUpdates (modifiedDecl accuracy src dst) st₂).2 :=
    applyUpdates_inv accuracy src dst st₂ hinv₂
  have happly : applyUpdates (modifiedDecl accuracy src dst) st₂ =
      (updatesDecl accuracy src dst,
        (applyUpdates (modifiedDecl accuracy src dst) st₂).2) := by
    apply Prod.ext
    · rw [hacts]; rfl
    · rfl
  have hmsub : (missingDecl accuracy src dst).Sublist src :=
    List.filter_sublist src
  have hmmem : ∀ m ∈ missingDecl accuracy src dst, m ∈ src :=
    fun m hm => hmsub.subset hm
  have hmpair : (missingDecl accuracy src dst).Pairwise
      (fun a b => collB accuracy a b = false) :=
    List.Pairwise.sublist hmsub hsrc.2
  have hmcoll : ∀ m ∈ missingDecl accuracy src dst,
      ∀ d ∈ dst.map (reconciledDst accuracy src),
      collB accuracy d m = false := by
    intro m hm d' hd'
    rcases List.mem_map.mp hd' with ⟨d, hd, rfl⟩
    have hany : dst.any (fun x => fpMatches accuracy m x) = false := by
      have := List.of_mem_filter hm
      simpa using this
    cases hcb : collB accuracy (reconciledDst accuracy src d) m with
    | false => rfl
    | true =>
      exfalso
      unfold collB at hcb
      rw [reconciledDst_start, reconciledDst_end] at hcb
      simp only [Bool.and_eq_true, decide_eq_true_eq] at hcb
      have hfp : fpMatches accuracy m d = true := by
        unfold fpMatches
        have hre : round_datetime accuracy m.end_ =
            round_datetime accuracy d.end_ :=
          (congrArg (round_datetime accuracy) hcb.2).symm
        simp [hcb.1.symm, hre.symm]
      have := List.any_eq_true.mpr ⟨d, hd, hfp⟩
      rw [hany] at this
      cases this
  obtain ⟨ids, st₄, hlen, hnodup, hfresh, heq₄, hinv₄⟩ :=
    synthesizeCreates_spec accuracy src (missingDecl accuracy src dst)
      (dst.map (reconciledDst accuracy src))
      (applyUpdates (modifiedDecl accuracy src dst) st₂).2
      hinv₃ hmmem hmpair hmcoll
  have hfresh' : ∀ i ∈ ids, i ∉ src.map (fun p => p.id) ∧
      i ∉ dst.map (fun p => p.id) := by
    intro i hi
    refine ⟨(hfresh i hi).1, ?_⟩
    have := (hfresh i hi).2
    rwa [reconciled_map_ids] at this
  have hdellook : ∀ a ∈ additionalDecl accuracy src dst,
      dictLookup (_DESTINATION, a.id) st₄.id_map = some a := by
    intro a ha
    rw [hinv₄.lookup_dst, List.find?_append]
    have hamem : a ∈ dst := (List.filter_sublist dst).subset ha
    have hufa : reconciledDst accuracy src a = a := by
      unfold reconciledDst
      have hany : src.any (fun s => fpMatches accuracy s a) = false := by
        have := List.of_mem_filter ha
        simpa using this
      have hnone : matchDecl accuracy src a = none :=
        (find?_none_iff_any_false _ _).mpr hany
      rw [hnone]
    have h1 : (dst.map (reconciledDst accuracy src)).find?
        (fun q => decide (q.id = a.id)) = some a := by
      rw [List.find?_map]
      have hcong : src = src := rfl
      rw [find?_congr_mem dst ((fun q => decide (q.id = a.id)) ∘
          (reconciledDst accuracy src)) (fun q => decide (q.id = a.id))
        (by
          intro x _
          show decide ((reconciledDst accuracy src x).id = a.id) = _
          rw [reconciledDst_id])]
      rw [find?_id_self dst hinv₂.dst_nodup a hamem]
      simp [hufa]
    rw [h1]
    rfl
  have hdel := computeDeletes_spec st₄ (additionalDecl accuracy src dst)
    hdellook
  refine ⟨ids, hlen, hnodup, hfresh', ?_⟩
  unfold sync
  rw [heq₁]
  dsimp only
  rw [heq₂]
  dsimp only
  rw [processDest_spec accuracy src dst st₂ hinv₂]
  dsimp only
  rw [happly]
  dsimp only
  rw [computeMissing_spec accuracy src dst st₂ hinv₂]
  rw [heq₄]
  dsimp only
  rw [hdel]
  rfl

/-! ### Indexed-collection invariant lemmas (`provider/base.py`) -/

theorem dictLookup_erase_ne {α β : Type} [DecidableEq α] (k k' : α)
    (m : List (α × β)) (h : ¬ k = k') :
    dictLookup k' (dictErase k m) = dictLookup k' m := by
  induction m with
  | nil => rfl
  | cons kv rest ih =>
    obtain ⟨k₀, v₀⟩ := kv
    by_cases h₀ : k₀ = k
    · subst h₀
      have : ¬ k₀ = k' := h
      simp [dictErase, dictLookup, this]
    · by_cases h₁ : k₀ = k'
      · subst h₁
        simp [dictErase, h₀, dictLookup]
      · simp [dictErase, h₀, dictLookup, h₁, ih]

theorem mem_dictInsert {α β : Type} [DecidableEq α] (k : α) (v : β) :
    ∀ (m : List (α × β)) (x : α × β), x ∈ dictInsert k v m →
    x = (k, v) ∨ x ∈ m := by
  intro m
  induction m with
  | nil => intro x h; simpa [dictInsert] using h
  | cons kv rest ih =>
    intro x h
    obtain ⟨k₀, v₀⟩ := kv
    by_cases h₀ : k₀ = k
    · subst h₀
      have h' : x = (k₀, v) ∨ x ∈ rest := by
        simpa [dictInsert] using h
      rcases h' with h' | h'
      · exact Or.inl h'
      · exact Or.inr (by simp [h'])
    · have h' : x = (k₀, v₀) ∨ x ∈ dictInsert k v rest := by
        simpa [dictInsert, h₀] using h
      rcases h' with h' | h'
      · exact Or.inr (by simp [h'])
      · rcases ih x h' with h'' | h''
        · exact Or.inl h''
        · exact Or.inr (by simp [h''])

theorem mem_dictErase {α β : Type} [DecidableEq α] (k : α)
    (m : List (α × β)) (x : α × β) (h : x ∈ dictErase k m) : x ∈ m := by
  induction m with
  | nil => simpa [dictErase] using h
  | cons kv rest ih =>
    obtain ⟨k₀, v₀⟩ := kv
    by_cases h₀ : k₀ = k
    · subst h₀
      simp only [dictErase, if_pos rfl] at h
      exact List.mem_cons.mpr (Or.inr h)
    · simp only [dictErase, if_neg h₀, List.mem_cons] at h
      rcases h with h | h
      · simp [h]
      · exact List.mem_cons.mpr (Or.inr (ih h))

theorem mem_dictErase_key_ne {α β : Type} [DecidableEq α] (k : α)
    (m : List (α × β)) (hn : (m.map Prod.fst).Nodup) (x : α × β)
    (h : x ∈ dictErase k m) : ¬ x.1 = k := by
  induction m with
  | nil => simp [dictErase] at h
  | cons kv rest ih =>
    obtain ⟨k₀, v₀⟩ := kv
    simp only [List.map_cons, List.nodup_cons] at hn
    by_cases h₀ : k₀ = k
    · subst h₀
      simp only [dictErase, if_pos rfl] at h
      intro he
      exact hn.1 (he ▸ List.mem_map.mpr ⟨x, h, rfl⟩)
    · simp only [dictErase, if_neg h₀, List.mem_cons] at h
      rcases h with h | h
      · subst h
        exact h₀
      · exact ih hn.2 h

theorem dictInsert_keys_nodup {α β : Type} [DecidableEq α] (k : α) (v : β)
    (m : List (α × β)) (hn : (m.map Prod.fst).Nodup) :
    ((dictInsert k v m).map Prod.fst).Nodup := by
  induction m with
  | nil => simp [dictInsert]
  | cons kv rest ih =>
    obtain ⟨k₀, v₀⟩ := kv
    simp only [List.map_cons, List.nodup_cons] at hn
    by_cases h₀ : k₀ = k
    · subst h₀
      have : dictInsert k₀ v ((k₀, v₀) :: rest) = (k₀, v) :: rest := by
        simp [dictInsert]
      rw [this]
      simp only [List.map_cons, List.nodup_cons]
      exact hn
    · have : dictInsert k v ((k₀, v₀) :: rest) =
          (k₀, v₀) :: dictInsert k v rest := by
        simp [dictInsert, h₀]
      rw [this]
      simp only [List.map_cons, List.nodup_cons]
      constructor
      · intro hmem
        rcases List.mem_map.mp hmem with ⟨x, hx, he⟩
        rcases mem_dictInsert k v rest x hx with h | h
        · subst h
          exact h₀ he.symm
        · exact hn.1 (he ▸ List.mem_map.mpr ⟨x, h, rfl⟩)
      · exact ih hn.2

theorem dictErase_keys_nodup {α β : Type} [DecidableEq α] (k : α)
    (m : List (α × β)) (hn : (m.map Prod.fst).Nodup) :
    ((dictErase k m).map Prod.fst).Nodup := by
  induction m with
  | nil => simp [dictErase]
  | cons kv rest ih =>
    obtain ⟨k₀, v₀⟩ := kv
    simp only [List.map_cons, List.nodup_cons] at hn
    by_cases h₀ : k₀ = k
    · subst h₀
      simp only [dictErase, if_pos rfl]
      exact hn.2
    · simp only [dictErase, if_neg h₀, List.map_cons, List.nodup_cons]
      constructor
      · intro hmem
        rcases List.mem_map.mp hmem with ⟨x, hx, he⟩
        exact hn.1 (he ▸ List.mem_map.mpr ⟨x, mem_dictErase k rest x hx, rfl⟩)
      · exact ih hn.2

theorem dictAdjust_keys {α β : Type} [DecidableEq α] (k : α) (f : β → β)
    (m : List (α × β)) :
    (dictAdjust k f m).map Prod.fst = m.map Prod.fst := by
  induction m with
  | nil => rfl
  | cons kv rest ih =>
    obtain ⟨k₀, v₀⟩ := kv
    by_cases h₀ : k₀ = k <;> simp [dictAdjust, h₀, ih]

theorem adjustFold_keys (ids : List String) (m : List (String × Nat)) :
    ((ids.foldl (fun acc id => dictAdjust id (fun v => v - 1) acc) m).map
      Prod.fst) = m.map Prod.fst := by
  induction ids generalizing m with
  | nil => rfl
  | cons i rest ih =>
    show ((rest.foldl _ (dictAdjust i _ m)).map Prod.fst) = _
    rw [ih, dictAdjust_keys]

theorem dictLookup_adjustFold (ids : List String) (m : List (String × Nat))
    (y : String) (hn : ids.Nodup) :
    dictLookup y (ids.foldl (fun acc id =>
      dictAdjust id (fun v => v - 1) acc) m) =
      if y ∈ ids then (dictLookup y m).map (fun v => v - 1)
      else dictLookup y m := by
  induction ids generalizing m with
  | nil => simp
  | cons i rest ih =>
    simp only [List.nodup_cons] at hn
    show dictLookup y (rest.foldl _ (dictAdjust i _ m)) = _
    rw [ih _ hn.2]
    by_cases hy : y ∈ rest
    · have hyi : ¬ i = y := by
        intro he
        exact hn.1 (he ▸ hy)
      rw [if_pos hy, if_pos (by simp [hy]), dictLookup_adjust, if_neg hyi]
    · by_cases hyi : y = i
      · subst hyi
        rw [if_neg hy, if_pos (by simp), dictLookup_adjust, if_pos rfl]
      · rw [if_neg hy, if_neg (by simp [hy, hyi]), dictLookup_adjust,
          if_neg (fun he => hyi he.symm)]

theorem seqIndexesOk_append (indexes : List (String × Nat)) :
    ∀ (l₁ l₂ : List String) (j : Nat),
    seqIndexesOk indexes j (l₁ ++ l₂) =
      (seqIndexesOk indexes j l₁ &&
        seqIndexesOk indexes (j + l₁.length) l₂) := by
  intro l₁
  induction l₁ with
  | nil => intro l₂ j; simp [seqIndexesOk]
  | cons x xs ih =>
    intro l₂ j
    show (decide _ && seqIndexesOk indexes (j + 1) (xs ++ l₂)) = _
    rw [ih l₂ (j + 1)]
    simp only [seqIndexesOk, List.length_cons]
    rw [Bool.and_assoc]
    have : j + 1 + xs.length = j + (xs.length + 1) := by omega
    rw [this]

theorem seqIndexesOk_congr (indexes indexes' : List (String × Nat)) :
    ∀ (l : List String) (j : Nat),
    (∀ y ∈ l, dictLookup y indexes' = dictLookup y indexes) →
    seqIndexesOk indexes j l = seqIndexesOk indexes' j l := by
  intro l
  induction l with
  | nil => intro j _; rfl
  | cons x xs ih =>
    intro j hl
    simp only [seqIndexesOk]
    rw [hl x (by simp), ih (j + 1) (fun y hy => hl y (by simp [hy]))]

theorem eraseIdx_append_cons {α : Type} (l₁ l₂ : List α) (a : α) :
    (l₁ ++ a :: l₂).eraseIdx l₁.length = l₁ ++ l₂ := by
  induction l₁ with
  | nil => rfl
  | cons x xs ih => simp [List.eraseIdx, ih]

theorem seqIndexesOk_shift (idxs new : List (String × Nat)) :
    ∀ (l : List String) (j : Nat), seqIndexesOk idxs (j + 1) l = true →
    (∀ y ∈ l, dictLookup y new = (dictLookup y idxs).map (fun v => v - 1)) →
    seqIndexesOk new j l = true := by
  intro l
  induction l with
  | nil => intro j _ _; rfl
  | cons y rest ih =>
    intro j h hl
    simp only [seqIndexesOk, Bool.and_eq_true, decide_eq_true_eq] at h ⊢
    refine ⟨?_, ih (j + 1) h.2 (fun z hz => hl z (by simp [hz]))⟩
    rw [hl y (by simp), h.1]
    simp

theorem consistentB_components (st : BaseProviderState)
    (h : consistentB st = true) :
    st.data_sequence.Nodup ∧
    seqIndexesOk st.data_indexes 0 st.data_sequence = true ∧
    (∀ kv ∈ st.data_map, kv.1 ∈ st.data_sequence) ∧
    (∀ y ∈ st.data_sequence, (dictLookup y st.data_map).isSome = true) := by
  unfold consistentB at h
  simp only [Bool.and_eq_true, decide_eq_true_eq, List.all_eq_true] at h
  exact ⟨h.1.1.1, h.1.1.2, fun kv hkv => by simpa using h.1.2 kv hkv,
    fun y hy => h.2 y hy⟩

theorem consistentB_intro (st : BaseProviderState)
    (h₁ : st.data_sequence.Nodup)
    (h₂ : seqIndexesOk st.data_indexes 0 st.data_sequence = true)
    (h₃ : ∀ kv ∈ st.data_map, kv.1 ∈ st.data_sequence)
    (h₄ : ∀ y ∈ st.data_sequence, (dictLookup y st.data_map).isSome = true) :
    consistentB st = true := by
  unfold consistentB
  simp only [Bool.and_eq_true, decide_eq_true_eq, List.all_eq_true]
  exact ⟨⟨⟨h₁, h₂⟩, fun kv hkv => by simpa using h₃ kv hkv⟩, h₄⟩

/-- Appending one fresh record to a consistent collection, updating all
three containers together, preserves consistency and well-formedness (the
shared shape of `index_data_point` and the create branch of
`add_changes`). -/
theorem bp_insert_preserves (st : BaseProviderState) (nid : String)
    (dp : DataPoint) (hwf : wfDicts st) (hc : consistentB st = true)
    (hfresh : (dictLookup nid st.data_map).isSome = false) :
    wfDicts { st with
      data_sequence := st.data_sequence ++ [nid],
      data_indexes := dictInsert nid st.data_sequence.length st.data_indexes,
      data_map := dictInsert nid dp st.data_map } ∧
    consistentB { st with
      data_sequence := st.data_sequence ++ [nid],
      data_indexes := dictInsert nid st.data_sequence.length st.data_indexes,
      data_map := dictInsert nid dp st.data_map } = true := by
  obtain ⟨hnd, hidx, hkeys, hall⟩ := consistentB_components st hc
  have hnotin : nid ∉ st.data_sequence := by
    intro hmem
    rw [hall nid hmem] at hfresh
    cases hfresh
  constructor
  · exact ⟨dictInsert_keys_nodup _ _ _ hwf.1, dictInsert_keys_nodup _ _ _ hwf.2⟩
  · apply consistentB_intro
    · show (st.data_sequence ++ [nid]).Nodup
      rw [List.nodup_append]
      refine ⟨hnd, List.nodup_singleton _, ?_⟩
      intro a ha hb
      simp only [List.mem_singleton] at hb
      subst hb
      exact hnotin ha
    · show seqIndexesOk _ 0 (st.data_sequence ++ [nid]) = true
      rw [seqIndexesOk_append, Bool.and_eq_true]
      constructor
      · rw [← seqIndexesOk_congr st.data_indexes _ st.data_sequence 0]
        · exact hidx
        · intro y hy
          rw [dictLookup_insert]
          have : ¬ nid = y := fun he => hnotin (he ▸ hy)
          rw [if_neg this]
      · show (decide (dictLookup nid
          (dictInsert nid st.data_sequence.length st.data_indexes) =
            some (0 + st.data_sequence.length)) && true) = true
        rw [dictLookup_insert, if_pos rfl]
        simp
    · intro kv hkv
      rcases mem_dictInsert _ _ _ kv hkv with h | h
      · subst h
        simp
      · show kv.1 ∈ st.data_sequence ++ [nid]
        exact List.mem_append.mpr (Or.inl (hkeys kv h))
    · intro y hy
      rcases List.mem_append.mp hy with hy | hy
      · rw [dictLookup_insert]
        have : ¬ nid = y := fun he => hnotin (he ▸ hy)
        rw [if_neg this]
        exact hall y hy
      · simp only [List.mem_singleton] at hy
        subst hy
        rw [dictLookup_insert, if_pos rfl]
        rfl

/-- The delete branch of `add_changes` (`base.py` lines 184-192) preserves
consistency and well-formedness. -/
theorem bp_delete_preserves (st : BaseProviderState) (x : String)
    (hwf : wfDicts st) (hc : consistentB st = true)
    (hpresent : (dictLookup x st.data_map).isSome = true) :
    wfDicts { st with
      data_sequence := st.data_sequence.eraseIdx (dictGetD x 0 st.data_indexes),
      data_indexes := dictErase x
        (((st.data_sequence.eraseIdx (dictGetD x 0 st.data_indexes)).drop
          (dictGetD x 0 st.data_indexes)).foldl
          (fun m id => dictAdjust id (fun v => v - 1) m) st.data_indexes),
      data_map := dictErase x st.data_map } ∧
    consistentB { st with
      data_sequence := st.data_sequence.eraseIdx (dictGetD x 0 st.data_indexes),
      data_indexes := dictErase x
        (((st.data_sequence.eraseIdx (dictGetD x 0 st.data_indexes)).drop
          (dictGetD x 0 st.data_indexes)).foldl
          (fun m id => dictAdjust id (fun v => v - 1) m) st.data_indexes),
      data_map := dictErase x st.data_map } = true := by
  obtain ⟨hnd, hidx, hkeys, hall⟩ := consistentB_components st hc
  have hxseq : x ∈ st.data_sequence := by
    have := dictLookupIsSome_mem_keys x st.data_map hpresent
    rcases List.mem_map.mp this with ⟨kv, hkv, he⟩
    exact he ▸ hkeys kv hkv
  obtain ⟨seq₁, seq₂, hsplit⟩ := List.append_of_mem hxseq
  have hnd' : (seq₁ ++ x :: seq₂).Nodup := hsplit ▸ hnd
  have hxn₁ : x ∉ seq₁ := by
    rcases List.nodup_append.mp hnd' with ⟨_, _, hdisj⟩
    intro hmem
    exact List.disjoint_left.mp hdisj hmem (by simp)
  have hxn₂ : x ∉ seq₂ := by
    rcases List.nodup_append.mp hnd' with ⟨_, hcons, _⟩
    rw [List.nodup_cons] at hcons
    exact hcons.1
  have hdisj₁₂ : ∀ y ∈ seq₁, y ∉ seq₂ := by
    rcases List.nodup_append.mp hnd' with ⟨_, _, hdisj⟩
    intro y hy hmem
    exact List.disjoint_left.mp hdisj hy (by simp [hmem])
  have hnd₁₂ : (seq₁ ++ seq₂).Nodup := by
    rw [List.nodup_append]
    rcases List.nodup_append.mp hnd' with ⟨h₁, hcons, hdisj⟩
    rw [List.nodup_cons] at hcons
    exact ⟨h₁, hcons.2, fun y hy => hdisj₁₂ y hy⟩
  have hidxsplit := hidx
  rw [hsplit, seqIndexesOk_append, Bool.and_eq_true] at hidxsplit
  have hidx₁ : seqIndexesOk st.data_indexes 0 seq₁ = true := hidxsplit.1
  have hidx₂ : seqIndexesOk st.data_indexes (0 + seq₁.length) (x :: seq₂)
      = true := hidxsplit.2
  simp only [seqIndexesOk, Bool.and_eq_true, decide_eq_true_eq,
    Nat.zero_add] at hidx₂
  have hlkx : dictLookup x st.data_indexes = some seq₁.length := hidx₂.1
  have hgetd : dictGetD x 0 st.data_indexes = seq₁.length := by
    unfold dictGetD
    rw [hlkx]
    rfl
  have herase : st.data_sequence.eraseIdx (dictGetD x 0 st.data_indexes) =
      seq₁ ++ seq₂ := by
    rw [hgetd, hsplit]
    exact eraseIdx_append_cons seq₁ seq₂ x
  have hdrop : (seq₁ ++ seq₂).drop seq₁.length = seq₂ :=
    List.drop_left seq₁ seq₂
  have hnd₂ : seq₂.Nodup := (List.nodup_append.mp hnd₁₂).2.1
  rw [herase, hgetd, hdrop]
  have hfold : ∀ y, dictLookup y (seq₂.foldl
      (fun m id => dictAdjust id (fun v => v - 1) m) st.data_indexes) =
      if y ∈ seq₂ then (dictLookup y st.data_indexes).map (fun v => v - 1)
      else dictLookup y st.data_indexes :=
    fun y => dictLookup_adjustFold seq₂ st.data_indexes y hnd₂
  constructor
  · constructor
    · apply dictErase_keys_nodup
      rw [adjustFold_keys]
      exact hwf.1
    · exact dictErase_keys_nodup _ _ hwf.2
  · apply consistentB_intro
    · exact hnd₁₂
    · show seqIndexesOk _ 0 (seq₁ ++ seq₂) = true
      rw [seqIndexesOk_append, Bool.and_eq_true]
      constructor
      · rw [← seqIndexesOk_congr st.data_indexes _ seq₁ 0]
        · exact hidx₁
        · intro y hy
          have hyx : ¬ x = y := fun he => hxn₁ (he ▸ hy)
          rw [dictLookup_erase_ne _ _ _ hyx, hfold y,
            if_neg (hdisj₁₂ y hy)]
      · rw [Nat.zero_add]
        apply seqIndexesOk_shift st.data_indexes _ seq₂ seq₁.length
        · exact hidx₂.2
        · intro y hy
          have hyx : ¬ x = y := fun he => hxn₂ (he ▸ hy)
          rw [dictLookup_erase_ne _ _ _ hyx, hfold y, if_pos hy]
    · intro kv hkv
      have hmem := mem_dictErase x st.data_map kv hkv
      have hne := mem_dictErase_key_ne x st.data_map hwf.2 kv hkv
      have : kv.1 ∈ st.data_sequence := hkeys kv hmem
      rw [hsplit] at this
      show kv.1 ∈ seq₁ ++ seq₂
      rcases List.mem_append.mp this with h | h
      · exact List.mem_append.mpr (Or.inl h)
      · rcases List.mem_cons.mp h with h | h
        · exact absurd h hne
        · exact List.mem_append.mpr (Or.inr h)
    · intro y hy
      have hyx : ¬ x = y := by
        intro he
        subst he
        rcases List.mem_append.mp hy with h | h
        · exact hxn₁ h
        · exact hxn₂ h
      rw [dictLookup_erase_ne _ _ _ hyx]
      apply hall
      rw [hsplit]
      rcases List.mem_append.mp hy with h | h
      · exact List.mem_append.mpr (Or.inl h)
      · exact List.mem_append.mpr (Or.inr (by simp [h]))

theorem bp_update_preserves (st : BaseProviderState) (n : DataPoint)
    (hwf : wfDicts st) (hc : consistentB st = true)
    (hpresent : (dictLookup n.id st.data_map).isSome = true) :
    wfDicts { st with data_map := dictInsert n.id n st.data_map } ∧
    consistentB { st with data_map := dictInsert n.id n st.data_map }
      = true := by
  obtain ⟨hnd, hidx, hkeys, hall⟩ := consistentB_components st hc
  have hnseq : n.id ∈ st.data_sequence := by
    have := dictLookupIsSome_mem_keys n.id st.data_map hpresent
    rcases List.mem_map.mp this with ⟨kv, hkv, he⟩
    exact he ▸ hkeys kv hkv
  constructor
  · exact ⟨hwf.1, dictInsert_keys_nodup _ _ _ hwf.2⟩
  · apply consistentB_intro
    · exact hnd
    · exact hidx
    · intro kv hkv
      rcases mem_dictInsert _ _ _ kv hkv with h | h
      · subst h
        exact hnseq
      · exact hkeys kv h
    · intro y hy
      rw [dictLookup_insert]
      by_cases he : n.id = y
      · rw [if_pos he]
        rfl
      · rw [if_neg he]
        exact hall y hy

theorem bp_index_preserves (st : BaseProviderState) (dp : DataPoint)
    (st' : BaseProviderState) (hwf : wfDicts st) (hc : consistentB st = true)
    (h : st.index_data_point dp = .ok st') :
    wfDicts st' ∧ consistentB st' = true := by
  unfold BaseProviderState.index_data_point at h
  split at h
  · cases h
    exact ⟨hwf, hc⟩
  · split at h
    · cases h
      exact ⟨hwf, hc⟩
    · split at h
      · cases h
      · cases h
        exact bp_insert_preserves st dp.id dp hwf hc
          (by rename_i hx; cases hfr : (dictLookup dp.id st.data_map).isSome
              with
            | false => rfl
            | true => exact absurd hfr hx)

theorem bp_processChange_create (st : BaseProviderState)
    (a : DataPointAction) (st' : BaseProviderState) (hwf : wfDicts st)
    (hc : consistentB st = true) (hcr : a.is_create = true)
    (h : st.processChange a = .ok st') :
    wfDicts st' ∧ consistentB st' = true := by
  unfold BaseProviderState.processChange at h
  rw [if_pos hcr] at h
  cases hnext : a.next with
  | none =>
    unfold DataPointAction.is_create at hcr
    rw [hnext] at hcr
    simp at hcr
  | some nxt =>
    rw [hnext] at h
    dsimp only at h
    cases hdup : (dictLookup nxt.id st.data_map).isSome with
    | true =>
      rw [if_pos hdup] at h
      cases h
    | false =>
      rw [if_neg (by rw [hdup]; simp)] at h
      cases h
      exact bp_insert_preserves st nxt.id nxt hwf hc hdup

theorem bp_processChange_delete (st : BaseProviderState)
    (a : DataPointAction) (st' : BaseProviderState) (hwf : wfDicts st)
    (hc : consistentB st = true) (hdl : a.is_delete = true)
    (h : st.processChange a = .ok st') :
    wfDicts st' ∧ consistentB st' = true := by
  have hncr : a.is_create = false := by
    unfold DataPointAction.is_create
    unfold DataPointAction.is_delete at hdl
    simp only [Bool.and_eq_true] at hdl
    rcases Option.isSome_iff_exists.mp hdl.1 with ⟨p, hp⟩
    simp [hp]
  unfold BaseProviderState.processChange at h
  rw [if_neg (by rw [hncr]; simp), if_pos hdl] at h
  cases hprev : a.prev with
  | none =>
    unfold DataPointAction.is_delete at hdl
    rw [hprev] at hdl
    simp at hdl
  | some prv =>
    rw [hprev] at h
    dsimp only at h
    cases hdup : (dictLookup prv.id st.data_map).isSome with
    | true =>
      rw [if_pos hdup] at h
      cases h
      exact bp_delete_preserves st prv.id hwf hc hdup
    | false =>
      rw [if_neg (by rw [hdup]; simp)] at h
      cases h
      exact ⟨hwf, hc⟩

theorem bp_processChange_update (st : BaseProviderState)
    (a : DataPointAction) (st' : BaseProviderState) (hwf : wfDicts st)
    (hc : consistentB st = true) (hup : a.is_update = true)
    (hpres : ∀ n, a.next = some n →
      (dictLookup n.id st.data_map).isSome = true)
    (h : st.processChange a = .ok st') :
    wfDicts st' ∧ consistentB st' = true := by
  have hncr : a.is_create = false := by
    unfold DataPointAction.is_create
    have hup' := hup
    unfold DataPointAction.is_update at hup'
    simp only [Bool.and_eq_true] at hup'
    rcases Option.isSome_iff_exists.mp hup'.1 with ⟨p, hp⟩
    simp [hp]
  have hndl : a.is_delete = false := by
    unfold DataPointAction.is_delete
    have hup' := hup
    unfold DataPointAction.is_update at hup'
    simp only [Bool.and_eq_true] at hup'
    rcases Option.isSome_iff_exists.mp hup'.2 with ⟨n, hn⟩
    simp [hn]
  unfold BaseProviderState.processChange at h
  rw [if_neg (by rw [hncr]; simp), if_neg (by rw [hndl]; simp),
    if_pos hup] at h
  cases hnext : a.next with
  | none =>
    unfold DataPointAction.is_update at hup
    rw [hnext] at hup
    simp at hup
  | some nxt =>
    rw [hnext] at h
    dsimp only at h
    cases h
    exact bp_update_preserves st nxt hwf hc (hpres nxt hnext)

/-! ### Internal corollaries of the sync characterization -/

theorem sync_ok_char (accuracy : Accuracy) (src dst : List DataPoint)
    (ch : List DataPointAction) (h : sync accuracy src dst = .ok ch) :
    ∃ ids : List String,
      ids.length = (missingDecl accuracy src dst).length ∧ ids.Nodup ∧
      (∀ i ∈ ids, i ∉ src.map (fun p => p.id) ∧
        i ∉ dst.map (fun p => p.id)) ∧
      ch = updatesDecl accuracy src dst ++
        ((missingDecl accuracy src dst).zip ids).map (fun si =>
          (⟨none, some { si.1 with id := si.2 }⟩ : DataPointAction)) ++
        deletesDecl accuracy src dst := by
  obtain ⟨hs, hd⟩ := sync_ok_sideOk accuracy src dst ch h
  obtain ⟨ids, h1, h2, h3, heq⟩ := sync_spec accuracy src dst hs hd
  rw [h] at heq
  exact ⟨ids, h1, h2, h3, Except.ok.inj heq⟩

theorem updates_not_create (accuracy : Accuracy) (src dst : List DataPoint)
    (c : DataPointAction) (h : c ∈ updatesDecl accuracy src dst) :
    c.is_create = false ∧ c.is_delete = false ∧ c.is_update = true := by
  unfold updatesDecl at h
  rcases List.mem_map.mp h with ⟨pn, _, rfl⟩
  exact ⟨rfl, rfl, rfl⟩

theorem creates_shape (l : List (DataPoint × String)) (c : DataPointAction)
    (h : c ∈ l.map (fun si =>
      (⟨none, some { si.1 with id := si.2 }⟩ : DataPointAction))) :
    c.is_create = true ∧ c.is_delete = false ∧ c.is_update = false := by
  rcases List.mem_map.mp h with ⟨si, _, rfl⟩
  exact ⟨rfl, rfl, rfl⟩

theorem deletes_shape (accuracy : Accuracy) (src dst : List DataPoint)
    (c : DataPointAction) (h : c ∈ deletesDecl accuracy src dst) :
    c.is_create = false ∧ c.is_delete = true ∧ c.is_update = false := by
  unfold deletesDecl at h
  rcases List.mem_map.mp h with ⟨d, _, rfl⟩
  exact ⟨rfl, rfl, rfl⟩

theorem sync_filter_create (accuracy : Accuracy) (src dst : List DataPoint)
    (ch : List DataPointAction) (h : sync accuracy src dst = .ok ch) :
    ∃ ids : List String,
      ids.length = (missingDecl accuracy src dst).length ∧ ids.Nodup ∧
      (∀ i ∈ ids, i ∉ src.map (fun p => p.id) ∧
        i ∉ dst.map (fun p => p.id)) ∧
      ch.filter (fun c => c.is_create) =
        ((missingDecl accuracy src dst).zip ids).map (fun si =>
          (⟨none, some { si.1 with id := si.2 }⟩ : DataPointAction)) ∧
      ch.filter (fun c => c.is_delete) = deletesDecl accuracy src dst ∧
      ch.filter (fun c => c.is_update) = updatesDecl accuracy src dst := by
  obtain ⟨ids, h1, h2, h3, heq⟩ := sync_ok_char accuracy src dst ch h
  refine ⟨ids, h1, h2, h3, ?_, ?_, ?_⟩
  · rw [heq, List.filter_append, List.filter_append]
    have hu : (updatesDecl accuracy src dst).filter
        (fun c => c.is_create) = [] := by
      rw [List.filter_eq_nil_iff]
      intro c hc
      rw [(updates_not_create accuracy src dst c hc).1]
      simp
    have hd : (deletesDecl accuracy src dst).filter
        (fun c => c.is_create) = [] := by
      rw [List.filter_eq_nil_iff]
      intro c hc
      rw [(deletes_shape accuracy src dst c hc).1]
      simp
    have hcr : (((missingDecl accuracy src dst).zip ids).map (fun si =>
        (⟨none, some { si.1 with id := si.2 }⟩ : DataPointAction))).filter
        (fun c => c.is_create) = ((missingDecl accuracy src dst).zip ids).map
        (fun si => (⟨none, some { si.1 with id := si.2 }⟩ :
          DataPointAction)) := by
      rw [List.filter_eq_self]
      intro c hc
      rw [(creates_shape _ c hc).1]
    rw [hu, hd, hcr]
    simp
  · rw [heq, List.filter_append, List.filter_append]
    have hu : (updatesDecl accuracy src dst).filter
        (fun c => c.is_delete) = [] := by
      rw [List.filter_eq_nil_iff]
      intro c hc
      rw [(updates_not_create accuracy src dst c hc).2.1]
      simp
    have hcr : (((missingDecl accuracy src dst).zip ids).map (fun si =>
        (⟨none, some { si.1 with id := si.2 }⟩ : DataPointAction))).filter
        (fun c => c.is_delete) = [] := by
      rw [List.filter_eq_nil_iff]
      intro c hc
      rw [(creates_shape _ c hc).2.1]
      simp
    have hd : (deletesDecl accuracy src dst).filter
        (fun c => c.is_delete) = deletesDecl accuracy src dst := by
      rw [List.filter_eq_self]
      intro c hc
      rw [(deletes_shape accuracy src dst c hc).2.1]
    rw [hu, hd, hcr]
    simp
  · rw [heq, List.filter_append, List.filter_append]
    have hu : (updatesDecl accuracy src dst).filter
        (fun c => c.is_update) = updatesDecl accuracy src dst := by
      rw [List.filter_eq_self]
      intro c hc
      rw [(updates_not_create accuracy src dst c hc).2.2]
    have hcr : (((missingDecl accuracy src dst).zip ids).map (fun si =>
        (⟨none, some { si.1 with id := si.2 }⟩ : DataPointAction))).filter
        (fun c => c.is_update) = [] := by
      rw [List.filter_eq_nil_iff]
      intro c hc
      rw [(creates_shape _ c hc).2.2]
      simp
    have hd : (deletesDecl accuracy src dst).filter
        (fun c => c.is_update) = [] := by
      rw [List.filter_eq_nil_iff]
      intro c hc
      rw [(deletes_shape accuracy src dst c hc).2.2]
      simp
    rw [hu, hd, hcr]
    simp

/-! ### Concrete records used by witnesses and counterexamples -/

def cs1 : DataPoint := ⟨"s1", "A", none, ⟨540, 1, 0⟩, ⟨600, 1, 0⟩⟩

def cs2 : DataPoint := ⟨"s2", "B", none, ⟨540, 2, 0⟩, ⟨600, 2, 0⟩⟩

def cd1 : DataPoint := ⟨"d1", "A", none, ⟨540, 3, 0⟩, ⟨600, 3, 0⟩⟩

/-! ### Claim theorems -/

/-- Claim C9: constructing an interval record with `end < start` fails the
validator with an error, a record that passes is stored with every field
unchanged (never silently corrected), and `end = start` is accepted. -/
theorem C9_end_validation (id name : String) (description : Option String)
    (s e : DateTime) :
    (DateTime.lt e s = true →
      mkDataPoint id name description s e = .error "end must be after start") ∧
    (DateTime.lt e s = false →
      mkDataPoint id name description s e =
        .ok ⟨id, name, description, s, e⟩) ∧
    mkDataPoint id name description s s =
      .ok ⟨id, name, description, s, s⟩ := by
  refine ⟨?_, ?_, ?_⟩
  · intro h
    unfold mkDataPoint
    rw [h]
    simp
  · intro h
    unfold mkDataPoint
    rw [h]
    simp
  · unfold mkDataPoint
    have hlt : DateTime.lt s s = false := by
      unfold DateTime.lt
      simp
    rw [hlt]
    simp

theorem C9_witness :
    mkDataPoint "x" "n" none ⟨1, 0, 0⟩ ⟨0, 0, 0⟩ =
      .error "end must be after start" ∧
    mkDataPoint "x" "n" none ⟨1, 0, 0⟩ ⟨1, 0, 0⟩ =
      .ok ⟨"x", "n", none, ⟨1, 0, 0⟩, ⟨1, 0, 0⟩⟩ :=
  ⟨(C9_end_validation "x" "n" none ⟨1, 0, 0⟩ ⟨0, 0, 0⟩).1 (by decide),
   (C9_end_validation "x" "n" none ⟨1, 0, 0⟩ ⟨1, 0, 0⟩).2.2⟩

/-- Claim C1 (evaluation at the failing input): `cs1` and `cs2` have the
same rounded fingerprint at minute accuracy but different raw end
timestamps, and indexing them on the same side succeeds — no
duplicate-fingerprint error is raised, because `index_data_point` compares
the raw `end` values (`sync.py` line 54). A pair with the same rounded
start and an identical raw end does abort. -/
theorem C1_failing_input :
    fp .minute cs1 = fp .minute cs2 ∧
    cs1.end_ ≠ cs2.end_ ∧
    exceptIsOk (indexAll .minute _SOURCE [cs1, cs2] initialSyncState) =
      true ∧
    exceptIsOk (indexAll .minute _SOURCE
      [cs1, ⟨"s3", "C", none, ⟨540, 5, 0⟩, ⟨600, 1, 0⟩⟩]
      initialSyncState) = false := by
  refine ⟨by decide, by decide, by rfl, by rfl⟩

/-- Claim C8: a change with neither `prev` nor `next` is rejected by the
`DataPointAction` validator; every validated change and every change
emitted by `sync` is exactly one of create, update, delete; and for such
changes the unknown-action branch of `add_changes` is never taken. -/
theorem C8_no_none_actions (accuracy : Accuracy)
    (src dst : List DataPoint) (ch : List DataPointAction) :
    mkDataPointAction none none =
      .error "prev and next cannot both be None" ∧
    (∀ (p n : Option DataPoint) (a : DataPointAction),
      mkDataPointAction p n = .ok a →
      (a.is_create = true ∨ a.is_update = true ∨ a.is_delete = true)) ∧
    (sync accuracy src dst = .ok ch → ∀ c ∈ ch,
      ((c.is_create = true ∨ c.is_update = true ∨ c.is_delete = true) ∧
       ¬(c.is_create = true ∧ c.is_update = true) ∧
       ¬(c.is_create = true ∧ c.is_delete = true) ∧
       ¬(c.is_update = true ∧ c.is_delete = true))) ∧
    (∀ (st : BaseProviderState) (c : DataPointAction),
      (c.is_create = true ∨ c.is_update = true ∨ c.is_delete = true) →
      st.processChange c ≠ .error "Unknown action") := by
  have hexcl : ∀ c : DataPointAction,
      ¬(c.is_create = true ∧ c.is_update = true) ∧
      ¬(c.is_create = true ∧ c.is_delete = true) ∧
      ¬(c.is_update = true ∧ c.is_delete = true) := by
    intro c
    obtain ⟨p, n⟩ := c
    cases p <;> cases n <;> simp [DataPointAction.is_create,
      DataPointAction.is_update, DataPointAction.is_delete]
  refine ⟨rfl, ?_, ?_, ?_⟩
  · intro p n a h
    match p, n with
    | none, none => exact absurd h (by simp [mkDataPointAction])
    | none, some v =>
      have hinj := Except.ok.inj h
      subst hinj
      exact Or.inl rfl
    | some v, some w =>
      have hinj := Except.ok.inj h
      subst hinj
      exact Or.inr (Or.inl rfl)
    | some v, none =>
      have hinj := Except.ok.inj h
      subst hinj
      exact Or.inr (Or.inr rfl)
  · intro h c hc
    obtain ⟨ids, _, _, _, heq⟩ := sync_ok_char accuracy src dst ch h
    rw [heq] at hc
    refine ⟨?_, hexcl c⟩
    rcases List.mem_append.mp hc with hc | hc
    · rcases List.mem_append.mp hc with hc | hc
      · exact Or.inr (Or.inl (updates_not_create accuracy src dst c hc).2.2)
      · exact Or.inl (creates_shape _ c hc).1
    · exact Or.inr (Or.inr (deletes_shape accuracy src dst c hc).2.1)
  · intro st c hone h
    unfold BaseProviderState.processChange at h
    rcases hone with h₁ | h₁ | h₁
    · rw [if_pos h₁] at h
      cases hn : c.next with
      | none =>
        rw [hn] at h
        dsimp only at h
        have := Except.error.inj h
        have hchars := congrArg String.data this
        simp [String.data] at hchars
      | some nxt =>
        rw [hn] at h
        dsimp only at h
        cases hdup : (dictLookup nxt.id st.data_map).isSome with
        | true =>
          rw [if_pos hdup] at h
          have := Except.error.inj h
          have hchars := congrArg String.data this
          simp [String.data, String.data_append] at hchars
        | false =>
          rw [if_neg (by rw [hdup]; simp)] at h
          cases h
    · have hncr : c.is_create = false := by
        cases hx : c.is_create with
        | false => rfl
        | true => exact absurd ⟨hx, h₁⟩ (hexcl c).1
      have hndl : c.is_delete = false := by
        cases hx : c.is_delete with
        | false => rfl
        | true => exact absurd ⟨h₁, hx⟩ (hexcl c).2.2
      rw [if_neg (by rw [hncr]; simp), if_neg (by rw [hndl]; simp),
        if_pos h₁] at h
      cases hn : c.next with
      | none =>
        rw [hn] at h
        dsimp only at h
        have := Except.error.inj h
        have hchars := congrArg String.data this
        simp [String.data] at hchars
      | some nxt =>
        rw [hn] at h
        dsimp only at h
        cases h
    · have hncr : c.is_create = false := by
        cases hx : c.is_create with
        | false => rfl
        | true => exact absurd ⟨hx, h₁⟩ (hexcl c).2.1
      rw [if_neg (by rw [hncr]; simp), if_pos h₁] at h
      cases hp : c.prev with
      | none =>
        rw [hp] at h
        dsimp only at h
        have := Except.error.inj h
        have hchars := congrArg String.data this
        simp [String.data] at hchars
      | some prv =>
        rw [hp] at h
        dsimp only at h
        cases hdup : (dictLookup prv.id st.data_map).isSome with
        | true =>
          rw [if_pos hdup] at h
          cases h
        | false =>
          rw [if_neg (by rw [hdup]; simp)] at h
          cases h

def cn1 : DataPoint := ⟨"new-0", "A", none, ⟨540, 1, 0⟩, ⟨600, 1, 0⟩⟩

def cn2 : DataPoint := ⟨"new-1", "B", none, ⟨540, 2, 0⟩, ⟨600, 2, 0⟩⟩

theorem C8_witness :
    ((⟨none, some cn1⟩ : DataPointAction).is_create = true ∨
     (⟨none, some cn1⟩ : DataPointAction).is_update = true ∨
     (⟨none, some cn1⟩ : DataPointAction).is_delete = true) ∧
    mkDataPointAction none none =
      .error "prev and next cannot both be None" := by
  have h := (C8_no_none_actions Accuracy.minute [cs1] []
    [⟨none, some cn1⟩]).2.2.1 (by rfl) ⟨none, some cn1⟩ (by simp)
  exact ⟨h.1, (C8_no_none_actions Accuracy.minute [cs1] []
    [⟨none, some cn1⟩]).1⟩

/-- Claim C7: deletes are always computed and included in the change list
handed to the destination (the reconciler takes no `allow_delete` input at
all); with `allow_delete` false the Toggl and meTasking apply steps perform
no delete operation against the backing store, and with it true every
emitted delete is applied. -/
theorem C7_allow_delete_apply (accuracy : Accuracy)
    (src dst : List DataPoint) (ch changes : List DataPointAction) :
    (sync accuracy src dst = .ok ch →
      ch.filter (fun c => c.is_delete) = deletesDecl accuracy src dst) ∧
    (∀ op ∈ toggl_apply_changes false changes, ∀ i, op ≠ .deleteOp i) ∧
    (∀ op ∈ metasking_apply_changes false changes, ∀ i, op ≠ .deleteOp i) ∧
    (∀ c ∈ changes, c.is_delete = true → ∀ p, c.prev = some p →
      StoreOp.deleteOp p.id ∈ toggl_apply_changes true changes) ∧
    (∀ c ∈ changes, c.is_delete = true → ∀ p, c.prev = some p →
      StoreOp.deleteOp p.id ∈ metasking_apply_changes true changes) := by
  refine ⟨?_, ?_, ?_, ?_, ?_⟩
  · intro h
    obtain ⟨ids, _, _, _, _, hdel, _⟩ :=
      sync_filter_create accuracy src dst ch h
    exact hdel
  · intro op hop i
    rcases List.mem_filterMap.mp hop with ⟨c, _, hf⟩
    by_cases hdl : c.is_delete = true
    · rw [if_pos hdl] at hf
      cases hp : c.prev with
      | none => rw [hp] at hf; cases hf
      | some prv =>
        rw [hp] at hf
        simp at hf
    · rw [if_neg hdl] at hf
      by_cases hup : c.is_update = true
      · rw [if_pos hup] at hf
        cases hn : c.next with
        | none => rw [hn] at hf; cases hf
        | some nxt =>
          rw [hn] at hf
          dsimp only at hf
          cases hf
          simp
      · rw [if_neg hup] at hf
        by_cases hcr : c.is_create = true
        · rw [if_pos hcr] at hf
          cases hn : c.next with
          | none => rw [hn] at hf; cases hf
          | some nxt =>
            rw [hn] at hf
            dsimp only at hf
            cases hf
            simp
        · rw [if_neg hcr] at hf
          cases hf
  · intro op hop i
    rcases List.mem_flatMap.mp hop with ⟨c, _, hin⟩
    unfold metasking_apply_change at hin
    by_cases hdl : c.is_delete = true
    · rw [if_pos hdl] at hin
      cases hp : c.prev with
      | none => rw [hp] at hin; cases hin
      | some prv =>
        rw [hp] at hin
        simp at hin
    · rw [if_neg hdl] at hin
      by_cases hcr : c.is_create = true
      · rw [if_pos hcr] at hin
        cases hn : c.next with
        | none => rw [hn] at hin; cases hin
        | some nxt =>
          rw [hn] at hin
          dsimp only at hin
          simp only [List.mem_singleton] at hin
          subst hin
          simp
      · rw [if_neg hcr] at hin
        by_cases hup : c.is_update = true
        · rw [if_pos hup] at hin
          cases hn : c.next with
          | none => rw [hn] at hin; cases hin
          | some nxt =>
            rw [hn] at hin
            dsimp only at hin
            simp only [List.mem_singleton] at hin
            subst hin
            simp
        · rw [if_neg hup] at hin
          cases hin
  · intro c hc hdl p hp
    apply List.mem_filterMap.mpr
    refine ⟨c, hc, ?_⟩
    show (if c.is_delete = true then
        match c.prev with
        | none => none
        | some prv => if (!true) = true then none
          else some (StoreOp.deleteOp prv.id)
      else if c.is_update = true then
        match c.next with
        | none => none
        | some nxt => some (StoreOp.updateOp nxt)
      else if c.is_create = true then
        match c.next with
        | none => none
        | some nxt => some (StoreOp.createOp nxt)
      else none) = some (StoreOp.deleteOp p.id)
    rw [if_pos hdl, hp]
    dsimp only
    rw [if_neg (by simp)]
  · intro c hc hdl p hp
    apply List.mem_flatMap.mpr
    refine ⟨c, hc, ?_⟩
    unfold metasking_apply_change
    rw [if_pos hdl, hp]
    dsimp only
    simp

theorem C7_witness :
    StoreOp.deleteOp "d1" ∈
      toggl_apply_changes true [(⟨some cd1, none⟩ : DataPointAction)] ∧
    (∀ op ∈ toggl_apply_changes false
      [(⟨some cd1, none⟩ : DataPointAction)], ∀ i, op ≠ .deleteOp i) := by
  refine ⟨?_, ?_⟩
  · exact (C7_allow_delete_apply Accuracy.minute [] [] []
      [(⟨some cd1, none⟩ : DataPointAction)]).2.2.2.1
      ⟨some cd1, none⟩ (by simp) rfl cd1 rfl
  · exact (C7_allow_delete_apply Accuracy.minute [] [] []
      [(⟨some cd1, none⟩ : DataPointAction)]).2.1

def cdpx : DataPoint := ⟨"x", "N", none, ⟨0, 0, 0⟩, ⟨1, 0, 0⟩⟩

def emptyBP : BaseProviderState :=
  ⟨none, none, false, true, [], [], [], [], []⟩

/-- Claim C6 (counterexample): processing an update change whose `next` id
is not in the collection inserts a key into `data_map` that is absent from
the id sequence, breaking the consistency invariant — the claim as stated
(every create/update/delete processed by `add_changes` preserves the
invariant) is false. -/
theorem C6_counterexample :
    (⟨some cdpx, some cdpx⟩ : DataPointAction).is_update = true ∧
    consistentB emptyBP = true ∧
    emptyBP.processChange ⟨some cdpx, some cdpx⟩ =
      .ok { emptyBP with data_map := [("x", cdpx)] } ∧
    consistentB { emptyBP with data_map := [("x", cdpx)] } = false := by
  refine ⟨rfl, rfl, rfl, rfl⟩

/-- Claim C6 (amended): indexing a dumped record and processing a create or
delete change preserve the consistency invariant unconditionally, and
processing an update change preserves it provided the update's next id is
already present in the collection; well-formedness of the association-list
dictionaries (no duplicate keys, which Python's `dict` guarantees by
construction) is threaded alongside. -/
theorem C6_invariant_preserved (st : BaseProviderState) (dp : DataPoint)
    (a : DataPointAction) (st' : BaseProviderState) :
    (wfDicts st → consistentB st = true →
      st.index_data_point dp = .ok st' →
      wfDicts st' ∧ consistentB st' = true) ∧
    (wfDicts st → consistentB st = true → a.is_create = true →
      st.processChange a = .ok st' →
      wfDicts st' ∧ consistentB st' = true) ∧
    (wfDicts st → consistentB st = true → a.is_delete = true →
      st.processChange a = .ok st' →
      wfDicts st' ∧ consistentB st' = true) ∧
    (wfDicts st → consistentB st = true → a.is_update = true →
      (∀ n, a.next = some n → (dictLookup n.id st.data_map).isSome = true) →
      st.processChange a = .ok st' →
      wfDicts st' ∧ consistentB st' = true) := by
  refine ⟨?_, ?_, ?_, ?_⟩
  · intro hwf hc h
    exact bp_index_preserves st dp st' hwf hc h
  · intro hwf hc hcr h
    exact bp_processChange_create st a st' hwf hc hcr h
  · intro hwf hc hdl h
    exact bp_processChange_delete st a st' hwf hc hdl h
  · intro hwf hc hup hpres h
    exact bp_processChange_update st a st' hwf hc hup hpres h

theorem C6_witness :
    wfDicts { emptyBP with
      data_sequence := ["x"],
      data_indexes := [("x", 0)],
      data_map := [("x", cdpx)] } ∧
    consistentB { emptyBP with
      data_sequence := ["x"],
      data_indexes := [("x", 0)],
      data_map := [("x", cdpx)] } = true := by
  have h := (C6_invariant_preserved emptyBP cdpx
    ⟨none, some cdpx⟩ { emptyBP with
      data_sequence := ["x"],
      data_indexes := [("x", 0)],
      data_map := [("x", cdpx)] }).2.1
    (by constructor <;> simp [emptyBP]) (by rfl) (by rfl) (by rfl)
  exact h

theorem DateTime.lt_irrefl (t : DateTime) : DateTime.lt t t = false := by
  unfold DateTime.lt
  simp

theorem bp_index_bounds (st : BaseProviderState) (dp : DataPoint)
    (st' : BaseProviderState) (h : st.index_data_point dp = .ok st') :
    st'.since = st.since ∧ st'.until_ = st.until_ ∧
    ∀ kv ∈ st'.data_map, kv ∈ st.data_map ∨
      (kv.2 = dp ∧ inBounds st.since st.until_ dp = true) := by
  unfold BaseProviderState.index_data_point at h
  split at h
  · cases h
    exact ⟨rfl, rfl, fun kv hkv => Or.inl hkv⟩
  · split at h
    · cases h
      exact ⟨rfl, rfl, fun kv hkv => Or.inl hkv⟩
    · split at h
      · cases h
      · cases h
        refine ⟨rfl, rfl, ?_⟩
        intro kv hkv
        rcases mem_dictInsert _ _ _ kv hkv with hkv | hkv
        · subst hkv
          refine Or.inr ⟨rfl, ?_⟩
          unfold inBounds
          rename_i hg₁ hg₂ _
          rw [Bool.and_eq_true]
          constructor
          · cases hs : st.since with
            | none => rfl
            | some s =>
              rw [hs] at hg₁
              simp only [Bool.not_eq_true]
              cases hlt : DateTime.lt dp.end_ s with
              | false => rfl
              | true => exact absurd hlt hg₁
          · cases hu : st.until_ with
            | none => rfl
            | some u =>
              rw [hu] at hg₂
              simp only [Bool.not_eq_true]
              cases hlt : DateTime.lt u dp.start with
              | false => rfl
              | true => exact absurd hlt hg₂
        · exact Or.inl hkv

/-- Claim C10: a record ending strictly before `since` or starting strictly
after `until` is silently skipped by `BaseProvider.index_data_point` (the
state is returned unchanged, no error); populating a provider through
`open` therefore only ever holds records satisfying the bounds; and a
record exactly touching either bound (its end equal to `since`, or its
start equal to `until`) is retained and indexed, since the strict order
is irreflexive. -/
theorem C10_bounds (st : BaseProviderState) (dp : DataPoint)
    (s u : DateTime) :
    (st.since = some s → DateTime.lt dp.end_ s = true →
      st.index_data_point dp = .ok st) ∧
    (st.until_ = some u → DateTime.lt u dp.start = true →
      st.index_data_point dp = .ok st) ∧
    (∀ (pts : List DataPoint) (st' : BaseProviderState),
      (∀ kv ∈ st.data_map, inBounds st.since st.until_ kv.2 = true) →
      st.openAll pts = .ok st' →
      st'.since = st.since ∧ st'.until_ = st.until_ ∧
      ∀ kv ∈ st'.data_map, inBounds st.since st.until_ kv.2 = true) ∧
    (st.since = some s → dp.end_ = s →
      (match st.until_ with
       | some u' => DateTime.lt u' dp.start
       | none => false) = false →
      (dictLookup dp.id st.data_map).isSome = false →
      ∃ st', st.index_data_point dp = .ok st' ∧
        dictLookup dp.id st'.data_map = some dp) ∧
    (st.until_ = some u → dp.start = u →
      (match st.since with
       | some s' => DateTime.lt dp.end_ s'
       | none => false) = false →
      (dictLookup dp.id st.data_map).isSome = false →
      ∃ st', st.index_data_point dp = .ok st' ∧
        dictLookup dp.id st'.data_map = some dp) := by
  refine ⟨?_, ?_, ?_, ?_, ?_⟩
  · intro hs hlt
    unfold BaseProviderState.index_data_point
    rw [hs]
    dsimp only
    rw [if_pos hlt]
  · intro hu hlt
    unfold BaseProviderState.index_data_point
    rw [hu]
    cases hs : st.since with
    | none =>
      dsimp only
      rw [if_neg (by simp), if_pos hlt]
    | some s' =>
      dsimp only
      cases hlo : DateTime.lt dp.end_ s' with
      | true => rw [if_pos rfl]
      | false =>
        rw [if_neg (by simp), if_pos hlt]
  · intro pts
    induction pts generalizing st with
    | nil =>
      intro st' hinb h
      cases h
      exact ⟨rfl, rfl, hinb⟩
    | cons p rest ih =>
      intro st' hinb h
      unfold BaseProviderState.openAll at h
      cases hix : st.index_data_point p with
      | error e => rw [hix] at h; simp at h
      | ok st₀ =>
        rw [hix] at h
        dsimp only at h
        obtain ⟨hsince, huntil, hmem⟩ := bp_index_bounds st p st₀ hix
        have hinb₀ : ∀ kv ∈ st₀.data_map,
            inBounds st₀.since st₀.until_ kv.2 = true := by
          intro kv hkv
          rw [hsince, huntil]
          rcases hmem kv hkv with hkv' | hkv'
          · exact hinb kv hkv'
          · rw [hkv'.1]
            exact hkv'.2
        obtain ⟨h₁, h₂, h₃⟩ := ih st₀ st' hinb₀ h
        refine ⟨h₁.trans hsince, h₂.trans huntil, ?_⟩
        intro kv hkv
        have h₄ := h₃ kv hkv
        rwa [hsince, huntil] at h₄
  · intro hs hend huntil hfresh
    refine ⟨{ st with
      data_sequence := st.data_sequence ++ [dp.id],
      data_indexes :=
        dictInsert dp.id st.data_sequence.length st.data_indexes,
      data_map := dictInsert dp.id dp st.data_map }, ?_, ?_⟩
    · unfold BaseProviderState.index_data_point
      rw [hs]
      dsimp only
      have hlt : DateTime.lt dp.end_ s = false := by
        rw [hend]
        exact DateTime.lt_irrefl s
      rw [if_neg (by rw [hlt]; simp), if_neg (by rw [huntil]; simp),
        if_neg (by rw [hfresh]; simp)]
    · show dictLookup dp.id (dictInsert dp.id dp st.data_map) = some dp
      rw [dictLookup_insert, if_pos rfl]
  · intro hu hstart hsince hfresh
    refine ⟨{ st with
      data_sequence := st.data_sequence ++ [dp.id],
      data_indexes :=
        dictInsert dp.id st.data_sequence.length st.data_indexes,
      data_map := dictInsert dp.id dp st.data_map }, ?_, ?_⟩
    · unfold BaseProviderState.index_data_point
      rw [hu]
      dsimp only
      have hlt : DateTime.lt u dp.start = false := by
        rw [hstart]
        exact DateTime.lt_irrefl u
      rw [if_neg (by rw [hsince]; simp), if_neg (by rw [hlt]; simp),
        if_neg (by rw [hfresh]; simp)]
    · show dictLookup dp.id (dictInsert dp.id dp st.data_map) = some dp
      rw [dictLookup_insert, if_pos rfl]

theorem C10_witness :
    (∃ st', ({ emptyBP with since := some ⟨5, 0, 0⟩ } :
        BaseProviderState).index_data_point
        ⟨"b", "B", none, ⟨1, 0, 0⟩, ⟨5, 0, 0⟩⟩ = .ok st' ∧
      dictLookup "b" st'.data_map =
        some ⟨"b", "B", none, ⟨1, 0, 0⟩, ⟨5, 0, 0⟩⟩) ∧
    (∃ st', ({ emptyBP with until_ := some ⟨5, 0, 0⟩ } :
        BaseProviderState).index_data_point
        ⟨"d", "D", none, ⟨5, 0, 0⟩, ⟨9, 0, 0⟩⟩ = .ok st' ∧
      dictLookup "d" st'.data_map =
        some ⟨"d", "D", none, ⟨5, 0, 0⟩, ⟨9, 0, 0⟩⟩) ∧
    ({ emptyBP with since := some ⟨5, 0, 0⟩ } :
        BaseProviderState).index_data_point
        ⟨"c", "C", none, ⟨1, 0, 0⟩, ⟨4, 0, 0⟩⟩ =
      .ok { emptyBP with since := some ⟨5, 0, 0⟩ } := by
  refine ⟨?_, ?_, ?_⟩
  · exact (C10_bounds { emptyBP with since := some ⟨5, 0, 0⟩ }
      ⟨"b", "B", none, ⟨1, 0, 0⟩, ⟨5, 0, 0⟩⟩ ⟨5, 0, 0⟩ ⟨0, 0, 0⟩).2.2.2.1
      rfl rfl (by rfl) (by rfl)
  · exact (C10_bounds { emptyBP with until_ := some ⟨5, 0, 0⟩ }
      ⟨"d", "D", none, ⟨5, 0, 0⟩, ⟨9, 0, 0⟩⟩ ⟨0, 0, 0⟩ ⟨5, 0, 0⟩).2.2.2.2
      rfl rfl (by rfl) (by rfl)
  · exact (C10_bounds { emptyBP with since := some ⟨5, 0, 0⟩ }
      ⟨"c", "C", none, ⟨1, 0, 0⟩, ⟨4, 0, 0⟩⟩ ⟨5, 0, 0⟩ ⟨0, 0, 0⟩).1
      rfl (by decide)

/-- Claim C2: on every successful run of `sync`, the creates of the change
list are exactly one per source record with no fingerprint-matching
destination record (name, description, start and end copied from that
record), the deletes are exactly one per destination record with no
fingerprint-matching source record, there are no other creates or deletes,
and two empty sides produce an empty change list. -/
theorem C2_creates_deletes (accuracy : Accuracy) (src dst : List DataPoint)
    (ch : List DataPointAction) (h : sync accuracy src dst = .ok ch) :
    (ch.filter (fun c => c.is_create)).map (fun c => c.next.map
        (fun n => (n.name, n.description, n.start, n.end_))) =
      (missingDecl accuracy src dst).map (fun s =>
        some (s.name, s.description, s.start, s.end_)) ∧
    ch.filter (fun c => c.is_delete) = deletesDecl accuracy src dst ∧
    sync accuracy [] [] = .ok [] := by
  obtain ⟨ids, h1, h2, h3, hcr, hdl, hup⟩ :=
    sync_filter_create accuracy src dst ch h
  refine ⟨?_, hdl, rfl⟩
  rw [hcr, List.map_map]
  conv_rhs => rw [← List.map_fst_zip (missingDecl accuracy src dst) ids h1.ge,
    List.map_map]
  rfl

theorem C2_witness :
    (([(⟨none, some cn1⟩ : DataPointAction)].filter
        (fun c => c.is_create)).map (fun c => c.next.map
        (fun n => (n.name, n.description, n.start, n.end_))) =
      (missingDecl .minute [cs1] []).map (fun s =>
        some (s.name, s.description, s.start, s.end_))) ∧
    ([(⟨none, some cn1⟩ : DataPointAction)].filter
        (fun c => c.is_delete)) = deletesDecl .minute [cs1] [] ∧
    sync .minute [] [] = .ok [] :=
  C2_creates_deletes .minute [cs1] [] [⟨none, some cn1⟩] (by rfl)

theorem updatesDecl_filter_prev (accuracy : Accuracy) (src : List DataPoint)
    (d s : DataPoint) (hm : matchDecl accuracy src d = some s)
    (hdiff : differs d s = true) :
    ∀ dst : List DataPoint, dst.Nodup → d ∈ dst →
    (updatesDecl accuracy src dst).filter (fun c => c.prev = some d) =
      [⟨some d, some (updatedRecord d s)⟩] := by
  intro dst
  induction dst with
  | nil => intro _ hd; cases hd
  | cons x rest ih =>
    intro hnd hd
    have hnd' : rest.Nodup := (List.nodup_cons.mp hnd).2
    have hnx : x ∉ rest := (List.nodup_cons.mp hnd).1
    unfold updatesDecl modifiedDecl
    rw [List.filterMap_cons]
    rcases List.mem_cons.mp hd with hdx | hdr
    · subst hdx
      rw [hm]
      dsimp only [Option.some_bind]
      rw [if_pos hdiff]
      rw [List.map_cons]
      rw [List.filter_cons_of_pos (by simp)]
      have hrest : ((List.filterMap (fun d' =>
          (matchDecl accuracy src d').bind (fun s' =>
            if differs d' s' then some (d', updatedRecord d' s') else none))
          rest).map (fun pn =>
            (⟨some pn.1, some pn.2⟩ : DataPointAction))).filter
          (fun c => c.prev = some d) = [] := by
        rw [List.filter_eq_nil_iff]
        intro c hc
        rcases List.mem_map.mp hc with ⟨pn, hpn, rfl⟩
        rcases List.mem_filterMap.mp hpn with ⟨d', hd', hfd'⟩
        have hp1 : pn.1 = d' := by
          cases hmx : matchDecl accuracy src d' with
          | none => rw [hmx] at hfd'; cases hfd'
          | some s' =>
            rw [hmx] at hfd'
            dsimp only [Option.some_bind] at hfd'
            cases hdm : differs d' s' with
            | false => rw [if_neg (by rw [hdm]; simp)] at hfd'; cases hfd'
            | true =>
              rw [if_pos hdm] at hfd'
              cases hfd'
              rfl
        intro he
        have he' : pn.1 = d := Option.some.inj (of_decide_eq_true he)
        rw [hp1] at he'
        subst he'
        exact hnx hd'
      rw [hrest]
    · have hxd : x ≠ d := fun he => hnx (he ▸ hdr)
      cases hmx : matchDecl accuracy src x with
      | none =>
        dsimp only [Option.none_bind]
        exact ih hnd' hdr
      | some s' =>
        dsimp only [Option.some_bind]
        cases hdm : differs x s' with
        | false =>
          rw [if_neg (by simp)]
          exact ih hnd' hdr
        | true =>
          rw [if_pos rfl]
          rw [List.map_cons]
          rw [List.filter_cons_of_neg (by simp [hxd])]
          exact ih hnd' hdr

/-- Claim C3 (corrected): for each destination record `d` whose first
fingerprint-matching source record `s` in dump order differs in name or
description, a successful `sync` emits exactly one change whose previous
record is `d`: the update to `updatedRecord d s`, which keeps `d`'s id,
start and end unchanged and takes name and description from `s`. The
original claim quantified over every matched pair; when several source
records share the fingerprint, only the first one in dump order is
consulted (see the counterexample). -/
theorem C3_update_semantics (accuracy : Accuracy) (src dst : List DataPoint)
    (ch : List DataPointAction) (d s : DataPoint)
    (h : sync accuracy src dst = .ok ch) (hd : d ∈ dst)
    (hm : matchDecl accuracy src d = some s) (hdiff : differs d s = true) :
    ch.filter (fun c => c.prev = some d) =
      [⟨some d, some (updatedRecord d s)⟩] ∧
    (updatedRecord d s).id = d.id ∧
    (updatedRecord d s).start = d.start ∧
    (updatedRecord d s).end_ = d.end_ ∧
    (updatedRecord d s).name = s.name ∧
    (updatedRecord d s).description = s.description := by
  refine ⟨?_, rfl, rfl, rfl, rfl, rfl⟩
  obtain ⟨hsok, hdok⟩ := sync_ok_sideOk accuracy src dst ch h
  obtain ⟨ids, h1, h2, h3, heq⟩ := sync_ok_char accuracy src dst ch h
  have hnd : dst.Nodup := List.Nodup.of_map _ hdok.1
  rw [heq, List.filter_append, List.filter_append]
  have hcr : (((missingDecl accuracy src dst).zip ids).map (fun si =>
      (⟨none, some { si.1 with id := si.2 }⟩ : DataPointAction))).filter
      (fun c => c.prev = some d) = [] := by
    rw [List.filter_eq_nil_iff]
    intro c hc
    rcases List.mem_map.mp hc with ⟨si, _, rfl⟩
    simp
  have hdel : (deletesDecl accuracy src dst).filter
      (fun c => c.prev = some d) = [] := by
    rw [List.filter_eq_nil_iff]
    intro c hc
    unfold deletesDecl at hc
    rcases List.mem_map.mp hc with ⟨d', hd', rfl⟩
    intro he
    have he' : d' = d := Option.some.inj (of_decide_eq_true he)
    subst he'
    unfold additionalDecl at hd'
    have hcond := List.of_mem_filter hd'
    have hany : src.any (fun s' => fpMatches accuracy s' d') = false := by
      simpa using hcond
    have hnone : matchDecl accuracy src d' = none :=
      (find?_none_iff_any_false _ _).mpr hany
    rw [hm] at hnone
    cases hnone
  rw [hcr, hdel, updatesDecl_filter_prev accuracy src d s hm hdiff dst hnd hd]
  simp

/-- Claim C3, counterexample: with minute accuracy, source records `cs1`
and `cs2` both share destination record `cd1`'s rounded fingerprint;
`cd1`'s name differs from `cs2`'s, yet `sync` emits no change at all,
because the destination loop only consults the first matching source
record (`cs1`, which agrees with `cd1` on name and description). -/
theorem C3_counterexample :
    sync .minute [cs1, cs2] [cd1] = .ok [] ∧
    fpMatches .minute cs2 cd1 = true ∧
    differs cd1 cs2 = true := by
  refine ⟨rfl, by decide, by decide⟩

theorem C3_witness :
    ([(⟨some cd1, some (updatedRecord cd1 cs2)⟩ : DataPointAction)].filter
        (fun c => c.prev = some cd1) =
      [⟨some cd1, some (updatedRecord cd1 cs2)⟩]) ∧
    (updatedRecord cd1 cs2).id = cd1.id ∧
    (updatedRecord cd1 cs2).start = cd1.start ∧
    (updatedRecord cd1 cs2).end_ = cd1.end_ ∧
    (updatedRecord cd1 cs2).name = cs2.name ∧
    (updatedRecord cd1 cs2).description = cs2.description :=
  C3_update_semantics .minute [cs2] [cd1]
    [⟨some cd1, some (updatedRecord cd1 cs2)⟩] cd1 cs2 (by rfl)
    (by decide) (by rfl) (by decide)

/-- Claim C5: the id returned by the generator is absent from both sides
of `id_map` at the moment of generation; and on every successful run the
synthetic ids attached to the creates are pairwise distinct (each create
is indexed into the destination side before the next id is generated) and
distinct from every source and destination id. -/
theorem C5_fresh_ids (st : SyncState) (accuracy : Accuracy)
    (src dst : List DataPoint) (ch : List DataPointAction)
    (h : sync accuracy src dst = .ok ch) :
    inIdMap st.id_map (next_id st).1 = false ∧
    ∃ ids : List String,
      ids.Nodup ∧
      (∀ i ∈ ids, i ∉ src.map (fun p => p.id) ∧
        i ∉ dst.map (fun p => p.id)) ∧
      ch.filter (fun c => c.is_create) =
        ((missingDecl accuracy src dst).zip ids).map (fun si =>
          (⟨none, some { si.1 with id := si.2 }⟩ : DataPointAction)) ∧
      ids.length = (missingDecl accuracy src dst).length := by
  obtain ⟨ids, h1, h2, h3, hcr, _, _⟩ :=
    sync_filter_create accuracy src dst ch h
  exact ⟨next_id_fresh st, ids, h2, h3, hcr, h1⟩

theorem C5_witness :
    inIdMap initialSyncState.id_map (next_id initialSyncState).1 = false ∧
    ∃ ids : List String,
      ids.Nodup ∧
      (∀ i ∈ ids, i ∉ [cs1].map (fun p => p.id) ∧
        i ∉ ([] : List DataPoint).map (fun p => p.id)) ∧
      ([(⟨none, some cn1⟩ : DataPointAction)].filter
        (fun c => c.is_create)) =
        ((missingDecl .minute [cs1] []).zip ids).map (fun si =>
          (⟨none, some { si.1 with id := si.2 }⟩ : DataPointAction)) ∧
      ids.length = (missingDecl .minute [cs1] []).length :=
  C5_fresh_ids initialSyncState .minute [cs1] []
    [⟨none, some cn1⟩] (by rfl)

/-! ### Applying an emitted change list back to a dumped collection -/

/-- Effect of one change on a dumped destination collection, following the
branches of `BaseProvider.add_changes` (`base.py` lines 172-197) as they
act on the record list produced by `dump` (`base.py` lines 165-167): a
create appends the new record and aborts on a duplicate id, a delete
removes the record carrying `prev`'s id (and does nothing when it is
absent), an update overwrites the record carrying `next`'s id in place (a
record with an unknown id lands in `data_map` but never in
`data_sequence`, so the dumped list is unchanged), and a change that is
neither aborts. -/
def applyChange (l : List DataPoint) (c : DataPointAction) :
    Except String (List DataPoint) :=
  if c.is_create then
    match c.next with
    | none => .error "assertion failed: next is not None"
    | some n =>
      if l.any (fun d => decide (d.id = n.id)) then
        .error ("Duplicate data point id: " ++ n.id)
      else .ok (l ++ [n])
  else if c.is_delete then
    match c.prev with
    | none => .error "assertion failed: prev is not None"
    | some p => .ok (l.filter (fun d => ! decide (d.id = p.id)))
  else if c.is_update then
    match c.next with
    | none => .error "assertion failed: next is not None"
    | some n => .ok (l.map (fun d => if d.id = n.id then n else d))
  else .error "Unknown action"

/-- The per-change loop of `BaseProvider.add_changes` over a whole change
list, threading the dumped collection. -/
def applyChangeList (l : List DataPoint) :
    List DataPointAction → Except String (List DataPoint)
  | [] => .ok l
  | c :: rest =>
    match applyChange l c with
    | .error e => .error e
    | .ok l' => applyChangeList l' rest

theorem applyChange_create (l : List DataPoint) (n : DataPoint)
    (h : l.any (fun d => decide (d.id = n.id)) = false) :
    applyChange l ⟨none, some n⟩ = .ok (l ++ [n]) := by
  show (if l.any (fun d => decide (d.id = n.id)) = true then
      (.error ("Duplicate data point id: " ++ n.id) :
        Except String (List DataPoint))
    else .ok (l ++ [n])) = .ok (l ++ [n])
  rw [if_neg (by rw [h]; simp)]

theorem applyChange_update (l : List DataPoint) (p n : DataPoint) :
    applyChange l ⟨some p, some n⟩ =
      .ok (l.map (fun d => if d.id = n.id then n else d)) := rfl

theorem applyChange_delete (l : List DataPoint) (p : DataPoint) :
    applyChange l ⟨some p, none⟩ =
      .ok (l.filter (fun d => ! decide (d.id = p.id))) := rfl

theorem applyChangeList_append (xs ys : List DataPointAction) :
    ∀ l, applyChangeList l (xs ++ ys) =
      match applyChangeList l xs with
      | .error e => .error e
      | .ok l' => applyChangeList l' ys := by
  induction xs with
  | nil => intro l; rfl
  | cons c rest ih =>
    intro l
    show (match applyChange l c with
      | .error e => Except.error e
      | .ok l' => applyChangeList l' (rest ++ ys)) =
      (match (match applyChange l c with
        | .error e => Except.error e
        | .ok l' => applyChangeList l' rest) with
      | .error e => Except.error e
      | .ok l' => applyChangeList l' ys)
    cases applyChange l c with
    | error e => rfl
    | ok l' => exact ih l'

theorem applyList_updates : ∀ (pns : List (DataPoint × DataPoint)),
    (∀ pn ∈ pns, pn.2.id = pn.1.id) →
    (pns.map (fun pn => pn.1.id)).Nodup →
    ∀ l : List DataPoint,
    applyChangeList l (pns.map (fun pn =>
      (⟨some pn.1, some pn.2⟩ : DataPointAction))) =
      .ok (l.map (fun d =>
        match pns.find? (fun pn => decide (pn.1.id = d.id)) with
        | some pn => pn.2
        | none => d)) := by
  intro pns
  induction pns with
  | nil =>
    intro _ _ l
    show Except.ok l = Except.ok (List.map id l)
    rw [List.map_id]
  | cons pn rest ih =>
    intro hids hnd l
    obtain ⟨p, n⟩ := pn
    have hn : n.id = p.id := hids (p, n) (List.mem_cons_self _ _)
    rw [List.map_cons] at hnd
    have hhead : p.id ∉ rest.map (fun pn => pn.1.id) :=
      (List.nodup_cons.mp hnd).1
    have htail : (rest.map (fun pn => pn.1.id)).Nodup :=
      (List.nodup_cons.mp hnd).2
    show (match applyChange l ⟨some p, some n⟩ with
      | .error e => Except.error e
      | .ok l' => applyChangeList l' (rest.map
          (fun pn : DataPoint × DataPoint =>
            (⟨some pn.1, some pn.2⟩ : DataPointAction)))) = _
    rw [applyChange_update]
    dsimp only
    rw [ih (fun q hq => hids q (List.mem_cons_of_mem _ hq)) htail]
    rw [List.map_map]
    congr 1
    apply List.map_congr_left
    intro d _
    dsimp only [Function.comp]
    by_cases hd : d.id = p.id
    · rw [if_pos (hd.trans hn.symm)]
      have hnone : rest.find? (fun pn => decide (pn.1.id = n.id)) = none := by
        apply List.find?_eq_none.mpr
        intro pn hpn
        simp only [decide_eq_true_eq]
        intro he
        have hm : pn.1.id ∈ rest.map (fun q => q.1.id) :=
          List.mem_map.mpr ⟨pn, hpn, rfl⟩
        rw [he, hn] at hm
        exact hhead hm
      rw [hnone, List.find?_cons_of_pos _
        (by simp only [decide_eq_true_eq]; exact hd.symm)]
    · rw [if_neg (fun he => hd (he.trans hn))]
      rw [List.find?_cons_of_neg _
        (by simp only [decide_eq_true_eq]; exact fun he => hd he.symm)]

theorem applyList_creates : ∀ (ns : List DataPoint),
    (ns.map (fun n => n.id)).Nodup →
    ∀ l : List DataPoint,
    (∀ n ∈ ns, ∀ d ∈ l, ¬ d.id = n.id) →
    applyChangeList l (ns.map (fun n =>
      (⟨none, some n⟩ : DataPointAction))) = .ok (l ++ ns) := by
  intro ns
  induction ns with
  | nil =>
    intro _ l _
    show Except.ok l = _
    rw [List.append_nil]
  | cons n rest ih =>
    intro hnd l hfresh
    rw [List.map_cons] at hnd
    have hhead : n.id ∉ rest.map (fun m => m.id) := (List.nodup_cons.mp hnd).1
    have htail : (rest.map (fun m => m.id)).Nodup := (List.nodup_cons.mp hnd).2
    have hany : l.any (fun d => decide (d.id = n.id)) = false := by
      rw [List.any_eq_false]
      intro d hd
      simp only [decide_eq_true_eq]
      exact hfresh n (List.mem_cons_self _ _) d hd
    show (match applyChange l ⟨none, some n⟩ with
      | .error e => Except.error e
      | .ok l' => applyChangeList l' (rest.map (fun m =>
          (⟨none, some m⟩ : DataPointAction)))) = _
    rw [applyChange_create l n hany]
    dsimp only
    rw [ih htail (l ++ [n]) ?_]
    · rw [List.append_assoc]
      rfl
    · intro m hm d hd
      rcases List.mem_append.mp hd with hdl | hdn
      · exact hfresh m (List.mem_cons_of_mem _ hm) d hdl
      · rcases List.mem_singleton.mp hdn with rfl
        intro he
        exact hhead (he ▸ List.mem_map.mpr ⟨m, hm, rfl⟩)

theorem applyList_deletes : ∀ (ps : List DataPoint) (l : List DataPoint),
    applyChangeList l (ps.map (fun p =>
      (⟨some p, none⟩ : DataPointAction))) =
      .ok (l.filter (fun d =>
        ! ps.any (fun p => decide (d.id = p.id)))) := by
  intro ps
  induction ps with
  | nil =>
    intro l
    show Except.ok l = _
    congr 1
    rw [List.filter_eq_self.mpr]
    intro a _
    rfl
  | cons p rest ih =>
    intro l
    show (match applyChange l ⟨some p, none⟩ with
      | .error e => Except.error e
      | .ok l' => applyChangeList l' (rest.map (fun q =>
          (⟨some q, none⟩ : DataPointAction)))) = _
    rw [applyChange_delete]
    dsimp only
    rw [ih, List.filter_filter]
    refine congrArg Except.ok ?_
    apply List.filter_congr
    intro d _
    rw [List.any_cons, Bool.not_or, Bool.and_comm]

theorem modifiedPairFirst (accuracy : Accuracy) (src : List DataPoint)
    (d' : DataPoint) (pn : DataPoint × DataPoint)
    (h : (matchDecl accuracy src d').bind (fun s' =>
      if differs d' s' then some (d', updatedRecord d' s') else none) =
      some pn) :
    pn.1 = d' := by
  cases hmx : matchDecl accuracy src d' with
  | none => rw [hmx] at h; cases h
  | some s' =>
    rw [hmx] at h
    dsimp only [Option.some_bind] at h
    cases hdm : differs d' s' with
    | false => rw [if_neg (by rw [hdm]; simp)] at h; cases h
    | true =>
      rw [if_pos hdm] at h
      cases h
      rfl

theorem modified_find_prev (accuracy : Accuracy) (src : List DataPoint) :
    ∀ (dst : List DataPoint), (dst.map (fun p => p.id)).Nodup →
    ∀ d ∈ dst,
    (match (modifiedDecl accuracy src dst).find?
        (fun pn => decide (pn.1.id = d.id)) with
     | some pn => pn.2
     | none => d) = reconciledDst accuracy src d := by
  intro dst
  induction dst with
  | nil => intro _ d hd; cases hd
  | cons x rest ih =>
    intro hnd d hd
    rw [List.map_cons] at hnd
    have hhead : x.id ∉ rest.map (fun p => p.id) := (List.nodup_cons.mp hnd).1
    have htail : (rest.map (fun p => p.id)).Nodup := (List.nodup_cons.mp hnd).2
    unfold modifiedDecl
    rw [List.filterMap_cons]
    rcases List.mem_cons.mp hd with hdx | hdr
    · subst hdx
      have hfr : (List.filterMap (fun d' =>
          (matchDecl accuracy src d').bind (fun s' =>
            if differs d' s' then some (d', updatedRecord d' s') else none))
          rest).find? (fun pn => decide (pn.1.id = d.id)) = none := by
        apply List.find?_eq_none.mpr
        intro pn hpn
        simp only [decide_eq_true_eq]
        intro he
        rcases List.mem_filterMap.mp hpn with ⟨d', hd', hfd'⟩
        have hp1 : pn.1 = d' := modifiedPairFirst accuracy src d' pn hfd'
        rw [hp1] at he
        have hm2 : d'.id ∈ rest.map (fun p => p.id) :=
          List.mem_map.mpr ⟨d', hd', rfl⟩
        rw [he] at hm2
        exact hhead hm2
      cases hmd : matchDecl accuracy src d with
      | none =>
        dsimp only [Option.none_bind]
        rw [hfr]
        unfold reconciledDst
        rw [hmd]
      | some s =>
        dsimp only [Option.some_bind]
        cases hdm : differs d s with
        | true =>
          rw [if_pos rfl]
          rw [List.find?_cons_of_pos _ (by simp)]
          unfold reconciledDst
          rw [hmd]
          dsimp only
          rw [if_pos hdm]
        | false =>
          rw [if_neg (by simp)]
          rw [hfr]
          unfold reconciledDst
          rw [hmd]
          dsimp only
          rw [if_neg (by rw [hdm]; simp)]
    · have hxd : ¬ x.id = d.id := by
        intro he
        apply hhead
        rw [he]
        exact List.mem_map.mpr ⟨d, hdr, rfl⟩
      cases hmx : matchDecl accuracy src x with
      | none =>
        dsimp only [Option.none_bind]
        exact ih htail d hdr
      | some s' =>
        dsimp only [Option.some_bind]
        cases hdm : differs x s' with
        | false =>
          rw [if_neg (by simp)]
          exact ih htail d hdr
        | true =>
          rw [if_pos rfl]
          rw [List.find?_cons_of_neg _
            (by simp only [decide_eq_true_eq]; exact hxd)]
          exact ih htail d hdr

theorem decide_comm_eq {α : Type} [DecidableEq α] (x y : α) :
    decide (x = y) = decide (y = x) :=
  decide_eq_decide.mpr ⟨Eq.symm, Eq.symm⟩

theorem fpMatches_symm (accuracy : Accuracy) (a b : DataPoint) :
    fpMatches accuracy a b = fpMatches accuracy b a := by
  unfold fpMatches
  rw [decide_comm_eq (round_datetime accuracy a.start)
      (round_datetime accuracy b.start),
    decide_comm_eq (round_datetime accuracy a.end_)
      (round_datetime accuracy b.end_)]

theorem collB_fpMatches (accuracy : Accuracy) (a b : DataPoint)
    (h : collB accuracy a b = true) : fpMatches accuracy a b = true := by
  unfold collB at h
  rw [Bool.and_eq_true] at h
  obtain ⟨h1, h2⟩ := h
  unfold fpMatches
  rw [Bool.and_eq_true]
  exact ⟨h1, decide_eq_true
    (congrArg (round_datetime accuracy) (of_decide_eq_true h2))⟩

theorem fpMatches_times (accuracy : Accuracy) (s a b : DataPoint)
    (hs : a.start = b.start) (he : a.end_ = b.end_) :
    fpMatches accuracy s a = fpMatches accuracy s b := by
  unfold fpMatches
  rw [hs, he]

theorem fpMatches_self (accuracy : Accuracy) (a : DataPoint) :
    fpMatches accuracy a a = true := by
  unfold fpMatches
  simp

theorem collB_times (accuracy : Accuracy) (a a' b b' : DataPoint)
    (hs : a'.start = a.start) (he : a'.end_ = a.end_)
    (hs' : b'.start = b.start) (he' : b'.end_ = b.end_) :
    collB accuracy a' b' = collB accuracy a b := by
  unfold collB
  rw [hs, he, hs', he']

theorem find?_unique {α : Type} (p : α → Bool) (a : α) :
    ∀ l : List α, a ∈ l → p a = true →
    (∀ b ∈ l, p b = true → b = a) → l.find? p = some a := by
  intro l
  induction l with
  | nil => intro h; cases h
  | cons x rest ih =>
    intro hmem hpa huniq
    cases hpx : p x with
    | true =>
      rw [List.find?_cons_of_pos _ hpx]
      rw [huniq x (List.mem_cons_self _ _) hpx]
    | false =>
      rw [List.find?_cons_of_neg _ (by rw [hpx]; simp)]
      have hax : ¬ a = x := by
        intro he
        rw [he, hpx] at hpa
        cases hpa
      have hmem' : a ∈ rest := by
        rcases List.mem_cons.mp hmem with h | h
        · exact absurd h hax
        · exact h
      exact ih hmem' hpa (fun b hb hpb => huniq b (List.mem_cons_of_mem _ hb) hpb)

theorem exists_zip_right {α β : Type} :
    ∀ (l : List α) (l' : List β), l.length = l'.length →
    ∀ a ∈ l, ∃ b, (a, b) ∈ l.zip l' := by
  intro l
  induction l with
  | nil => intro l' _ a ha; cases ha
  | cons x rest ih =>
    intro l' hlen a ha
    cases l' with
    | nil => simp at hlen
    | cons y rest' =>
      rcases List.mem_cons.mp ha with rfl | har
      · exact ⟨y, List.mem_cons_self _ _⟩
      · have hlen' : rest.length = rest'.length := by simpa using hlen
        rcases ih rest' hlen' a har with ⟨b, hb⟩
        exact ⟨b, List.mem_cons_of_mem _ hb⟩

theorem applyList_run (accuracy : Accuracy) (src dst : List DataPoint)
    (ids : List String)
    (hsd : (dst.map (fun p => p.id)).Nodup)
    (hlen : ids.length = (missingDecl accuracy src dst).length)
    (hidn : ids.Nodup)
    (hfresh : ∀ i ∈ ids, i ∉ src.map (fun p => p.id) ∧
      i ∉ dst.map (fun p => p.id)) :
    applyChangeList dst (updatesDecl accuracy src dst ++
      ((missingDecl accuracy src dst).zip ids).map (fun si =>
        (⟨none, some { si.1 with id := si.2 }⟩ : DataPointAction)) ++
      deletesDecl accuracy src dst) =
    .ok ((dst.filter (fun d =>
        src.any (fun s => fpMatches accuracy s d))).map
        (reconciledDst accuracy src) ++
      ((missingDecl accuracy src dst).zip ids).map
        (fun si => { si.1 with id := si.2 })) := by
  have hacts : ((missingDecl accuracy src dst).zip ids).map (fun si =>
      (⟨none, some { si.1 with id := si.2 }⟩ : DataPointAction)) =
      (((missingDecl accuracy src dst).zip ids).map
        (fun si => { si.1 with id := si.2 })).map
        (fun n => (⟨none, some n⟩ : DataPointAction)) := by
    rw [List.map_map]
    rfl
  have hids : ∀ pn ∈ modifiedDecl accuracy src dst, pn.2.id = pn.1.id :=
    fun pn hpn => (modifiedDecl_mem accuracy src dst pn hpn).2.1
  have hmn : ((modifiedDecl accuracy src dst).map
      (fun pn => pn.1.id)).Nodup := by
    have hsub := modifiedDecl_ids_sublist accuracy src dst
    have hequ : (modifiedDecl accuracy src dst).map (fun pn => pn.1.id) =
        (modifiedDecl accuracy src dst).map (fun pn => pn.2.id) :=
      List.map_congr_left (fun pn hpn => (hids pn hpn).symm)
    rw [hequ]
    exact List.Nodup.sublist hsub hsd
  have hA := applyList_updates (modifiedDecl accuracy src dst) hids hmn dst
  have hL0 : dst.map (fun d =>
      match (modifiedDecl accuracy src dst).find?
        (fun pn => decide (pn.1.id = d.id)) with
      | some pn => pn.2
      | none => d) = dst.map (reconciledDst accuracy src) :=
    List.map_congr_left (fun d hd => modified_find_prev accuracy src dst hsd d hd)
  have hnn : ((((missingDecl accuracy src dst).zip ids).map
      (fun si => { si.1 with id := si.2 })).map (fun n => n.id)).Nodup := by
    rw [List.map_map]
    show (((missingDecl accuracy src dst).zip ids).map Prod.snd).Nodup
    rw [List.map_snd_zip _ _ hlen.le]
    exact hidn
  have hfr : ∀ n ∈ ((missingDecl accuracy src dst).zip ids).map
      (fun si => { si.1 with id := si.2 }),
      ∀ d ∈ dst.map (reconciledDst accuracy src), ¬ d.id = n.id := by
    intro n hn d hd
    rcases List.mem_map.mp hn with ⟨si, hsi, rfl⟩
    rcases List.mem_map.mp hd with ⟨d₀, hd₀, rfl⟩
    rw [reconciledDst_id]
    intro he
    have hsi2 : si.2 ∈ ids := (List.of_mem_zip hsi).2
    have hm : d₀.id ∈ dst.map (fun p => p.id) :=
      List.mem_map.mpr ⟨d₀, hd₀, rfl⟩
    rw [he] at hm
    exact (hfresh si.2 hsi2).2 hm
  have hB := applyList_creates (((missingDecl accuracy src dst).zip ids).map
      (fun si => { si.1 with id := si.2 })) hnn
      (dst.map (reconciledDst accuracy src)) hfr
  have hC := applyList_deletes (additionalDecl accuracy src dst)
      (dst.map (reconciledDst accuracy src) ++
        ((missingDecl accuracy src dst).zip ids).map
          (fun si => { si.1 with id := si.2 }))
  have hkeep : (dst.map (reconciledDst accuracy src)).filter (fun d =>
      ! (additionalDecl accuracy src dst).any
        (fun p => decide (d.id = p.id))) =
      (dst.filter (fun d =>
        src.any (fun s => fpMatches accuracy s d))).map
        (reconciledDst accuracy src) := by
    rw [List.filter_map]
    congr 1
    apply List.filter_congr
    intro d hd
    dsimp only [Function.comp]
    rw [reconciledDst_id]
    cases hsrc : src.any (fun s => fpMatches accuracy s d) with
    | true =>
      have hnone : (additionalDecl accuracy src dst).any
          (fun p => decide (d.id = p.id)) = false := by
        rw [List.any_eq_false]
        intro p hp
        simp only [decide_eq_true_eq]
        intro he
        have hpd : d = p := List.inj_on_of_nodup_map hsd hd
          (List.mem_of_mem_filter hp) he
        have hcond := List.of_mem_filter hp
        rw [← hpd, hsrc] at hcond
        cases hcond
      rw [hnone]
      rfl
    | false =>
      have hd_add : d ∈ additionalDecl accuracy src dst :=
        List.mem_filter.mpr ⟨hd, by rw [hsrc]; rfl⟩
      have hany : (additionalDecl accuracy src dst).any
          (fun p => decide (d.id = p.id)) = true :=
        List.any_eq_true.mpr ⟨d, hd_add, by simp⟩
      rw [hany]
      rfl
  have hnews_keep : (((missingDecl accuracy src dst).zip ids).map
      (fun si => { si.1 with id := si.2 })).filter (fun d =>
      ! (additionalDecl accuracy src dst).any
        (fun p => decide (d.id = p.id))) =
      ((missingDecl accuracy src dst).zip ids).map
        (fun si => { si.1 with id := si.2 }) := by
    rw [List.filter_eq_self]
    intro n hn
    rcases List.mem_map.mp hn with ⟨si, hsi, rfl⟩
    have hsi2 : si.2 ∈ ids := (List.of_mem_zip hsi).2
    have hnd := (hfresh si.2 hsi2).2
    have hany : (additionalDecl accuracy src dst).any
        (fun p => decide (({ si.1 with id := si.2 } : DataPoint).id =
          p.id)) = false := by
      rw [List.any_eq_false]
      intro p hp
      simp only [decide_eq_true_eq]
      intro he
      have hm : p.id ∈ dst.map (fun q => q.id) :=
        List.mem_map.mpr ⟨p, List.mem_of_mem_filter hp, rfl⟩
      rw [← he] at hm
      exact hnd hm
    rw [hany]
    rfl
  unfold updatesDecl deletesDecl
  rw [hacts]
  rw [applyChangeList_append, applyChangeList_append]
  rw [hA]
  dsimp only
  rw [hL0]
  rw [hB]
  dsimp only
  rw [hC]
  rw [List.filter_append, hkeep, hnews_keep]

theorem news_match (accuracy : Accuracy) (src dst : List DataPoint)
    (ids : List String)
    (hfp : src.Pairwise (fun a b => fpMatches accuracy a b = false))
    (n : DataPoint)
    (hn : n ∈ ((missingDecl accuracy src dst).zip ids).map
      (fun si => { si.1 with id := si.2 })) :
    ∃ s ∈ src, matchDecl accuracy src n = some s ∧ differs n s = false := by
  rcases List.mem_map.mp hn with ⟨si, hsi, rfl⟩
  have hmm : si.1 ∈ src.filter (fun s =>
      ! dst.any (fun d' => fpMatches accuracy s d')) :=
    (List.of_mem_zip hsi).1
  have hs_src : si.1 ∈ src := List.mem_of_mem_filter hmm
  refine ⟨si.1, hs_src, ?_, ?_⟩
  · show src.find? (fun s =>
      fpMatches accuracy s { si.1 with id := si.2 }) = some si.1
    apply find?_unique _ si.1 src hs_src
    · rw [fpMatches_times accuracy si.1 { si.1 with id := si.2 } si.1 rfl rfl]
      exact fpMatches_self accuracy si.1
    · intro s' hs' hps'
      have hp2 : fpMatches accuracy s' si.1 = true := by
        rw [← fpMatches_times accuracy s' { si.1 with id := si.2 } si.1
          rfl rfl]
        exact hps'
      by_contra hne
      have hsym : Symmetric (fun a b : DataPoint =>
          fpMatches accuracy a b = false) := by
        intro a b hab
        rw [fpMatches_symm]
        exact hab
      have hff := List.Pairwise.forall hsym hfp hs' hs_src hne
      rw [hff] at hp2
      cases hp2
  · show differs { si.1 with id := si.2 } si.1 = false
    unfold differs
    simp

theorem kept_not_modified (accuracy : Accuracy) (src : List DataPoint)
    (d s₁ : DataPoint) (hmd : matchDecl accuracy src d = some s₁) :
    differs (reconciledDst accuracy src d) s₁ = false := by
  unfold reconciledDst
  rw [hmd]
  dsimp only
  cases hdm : differs d s₁ with
  | true =>
    rw [if_pos rfl]
    unfold differs updatedRecord
    simp
  | false =>
    rw [if_neg (by simp)]
    exact hdm

theorem rerun_missing_nil (accuracy : Accuracy) (src dst : List DataPoint)
    (ids : List String)
    (hlen : ids.length = (missingDecl accuracy src dst).length) :
    missingDecl accuracy src
      ((dst.filter (fun d =>
          src.any (fun s => fpMatches accuracy s d))).map
          (reconciledDst accuracy src) ++
        ((missingDecl accuracy src dst).zip ids).map
          (fun si => { si.1 with id := si.2 })) = [] := by
  apply List.filter_eq_nil_iff.mpr
  intro s hs
  intro hcon
  have hany : ((dst.filter (fun d =>
      src.any (fun s' => fpMatches accuracy s' d))).map
      (reconciledDst accuracy src) ++
      ((missingDecl accuracy src dst).zip ids).map
        (fun si => ({ si.1 with id := si.2 } : DataPoint))).any
      (fun d => fpMatches accuracy s d) = true := by
    cases hsany : dst.any (fun d => fpMatches accuracy s d) with
    | true =>
      rcases List.any_eq_true.mp hsany with ⟨d, hd, hfd⟩
      apply List.any_eq_true.mpr
      refine ⟨reconciledDst accuracy src d, ?_, ?_⟩
      · apply List.mem_append_left
        exact List.mem_map.mpr ⟨d, List.mem_filter.mpr ⟨hd,
          List.any_eq_true.mpr ⟨s, hs, hfd⟩⟩, rfl⟩
      · rw [fpMatches_times accuracy s (reconciledDst accuracy src d) d
          (reconciledDst_start accuracy src d)
          (reconciledDst_end accuracy src d)]
        exact hfd
    | false =>
      have hmiss : s ∈ missingDecl accuracy src dst :=
        List.mem_filter.mpr ⟨hs, by rw [hsany]; rfl⟩
      rcases exists_zip_right (missingDecl accuracy src dst) ids
        hlen.symm s hmiss with ⟨i, hzip⟩
      apply List.any_eq_true.mpr
      refine ⟨{ s with id := i }, ?_, ?_⟩
      · apply List.mem_append_right
        exact List.mem_map.mpr ⟨(s, i), hzip, rfl⟩
      · rw [fpMatches_times accuracy s { s with id := i } s rfl rfl]
        exact fpMatches_self accuracy s
  rw [hany] at hcon
  simp at hcon

theorem rerun_additional_nil (accuracy : Accuracy) (src dst : List DataPoint)
    (ids : List String) :
    additionalDecl accuracy src
      ((dst.filter (fun d =>
          src.any (fun s => fpMatches accuracy s d))).map
          (reconciledDst accuracy src) ++
        ((missingDecl accuracy src dst).zip ids).map
          (fun si => { si.1 with id := si.2 })) = [] := by
  apply List.filter_eq_nil_iff.mpr
  intro x hx
  intro hcon
  have hany : src.any (fun s => fpMatches accuracy s x) = true := by
    rcases List.mem_append.mp hx with hk | hn
    · rcases List.mem_map.mp hk with ⟨d, hdf, rfl⟩
      have hpk : (src.any (fun s => fpMatches accuracy s d)) = true :=
        (List.mem_filter.mp hdf).2
      rcases List.any_eq_true.mp hpk with ⟨s, hs, hfd⟩
      apply List.any_eq_true.mpr
      refine ⟨s, hs, ?_⟩
      rw [fpMatches_times accuracy s (reconciledDst accuracy src d) d
        (reconciledDst_start accuracy src d)
        (reconciledDst_end accuracy src d)]
      exact hfd
    · rcases List.mem_map.mp hn with ⟨si, hsi, rfl⟩
      have hmm : si.1 ∈ src.filter (fun s =>
          ! dst.any (fun d' => fpMatches accuracy s d')) :=
        (List.of_mem_zip hsi).1
      apply List.any_eq_true.mpr
      refine ⟨si.1, List.mem_of_mem_filter hmm, ?_⟩
      rw [fpMatches_times accuracy si.1 { si.1 with id := si.2 } si.1
        rfl rfl]
      exact fpMatches_self accuracy si.1
  rw [hany] at hcon
  simp at hcon

theorem rerun_modified_nil (accuracy : Accuracy) (src dst : List DataPoint)
    (ids : List String)
    (hfp : src.Pairwise (fun a b => fpMatches accuracy a b = false)) :
    modifiedDecl accuracy src
      ((dst.filter (fun d =>
          src.any (fun s => fpMatches accuracy s d))).map
          (reconciledDst accuracy src) ++
        ((missingDecl accuracy src dst).zip ids).map
          (fun si => { si.1 with id := si.2 })) = [] := by
  apply List.filterMap_eq_nil_iff.mpr
  intro x hx
  rcases List.mem_append.mp hx with hk | hn
  · rcases List.mem_map.mp hk with ⟨d, hdf, rfl⟩
    have hmdeq : matchDecl accuracy src (reconciledDst accuracy src d) =
        matchDecl accuracy src d := by
      show src.find? (fun s =>
          fpMatches accuracy s (reconciledDst accuracy src d)) =
        src.find? (fun s => fpMatches accuracy s d)
      apply find?_congr_mem
      intro s _
      exact fpMatches_times accuracy s (reconciledDst accuracy src d) d
        (reconciledDst_start accuracy src d)
        (reconciledDst_end accuracy src d)
    rw [hmdeq]
    cases hmd : matchDecl accuracy src d with
    | none => rfl
    | some s₁ =>
      dsimp only [Option.some_bind]
      rw [if_neg (by rw [kept_not_modified accuracy src d s₁ hmd]; simp)]
  · rcases news_match accuracy src dst ids hfp x hn with
      ⟨s, _, hmdn, hdiff⟩
    rw [hmdn]
    dsimp only [Option.some_bind]
    rw [if_neg (by rw [hdiff]; simp)]

theorem rerun_sideOk (accuracy : Accuracy) (src dst : List DataPoint)
    (ids : List String) (hsok : sideOk accuracy src)
    (hdok : sideOk accuracy dst)
    (hlen : ids.length = (missingDecl accuracy src dst).length)
    (hidn : ids.Nodup)
    (hfresh : ∀ i ∈ ids, i ∉ src.map (fun p => p.id) ∧
      i ∉ dst.map (fun p => p.id)) :
    sideOk accuracy
      ((dst.filter (fun d =>
          src.any (fun s => fpMatches accuracy s d))).map
          (reconciledDst accuracy src) ++
        ((missingDecl accuracy src dst).zip ids).map
          (fun si => { si.1 with id := si.2 })) := by
  have hkeq : (((dst.filter (fun d =>
      src.any (fun s => fpMatches accuracy s d))).map
      (reconciledDst accuracy src)).map (fun p => p.id)) =
      ((dst.filter (fun d =>
        src.any (fun s => fpMatches accuracy s d))).map (fun p => p.id)) := by
    rw [List.map_map]
    apply List.map_congr_left
    intro d _
    exact reconciledDst_id accuracy src d
  have hneq : ((((missingDecl accuracy src dst).zip ids).map
      (fun si => { si.1 with id := si.2 })).map (fun p => p.id)) = ids := by
    rw [List.map_map]
    show ((missingDecl accuracy src dst).zip ids).map Prod.snd = ids
    exact List.map_snd_zip _ _ hlen.le
  constructor
  · rw [List.map_append]
    apply List.Nodup.append
    · rw [hkeq]
      exact List.Nodup.sublist
        (List.Sublist.map _ (List.filter_sublist dst)) hdok.1
    · rw [hneq]
      exact hidn
    · intro a hak han
      rw [hkeq] at hak
      rw [hneq] at han
      rcases List.mem_map.mp hak with ⟨d, hdf, rfl⟩
      exact (hfresh d.id han).2
        (List.mem_map.mpr ⟨d, List.mem_of_mem_filter hdf, rfl⟩)
  · refine List.pairwise_append.mpr ⟨?_, ?_, ?_⟩
    · apply List.pairwise_map.mpr
      have hdp : (dst.filter (fun d =>
          src.any (fun s => fpMatches accuracy s d))).Pairwise
          (fun a b => collB accuracy a b = false) :=
        List.Pairwise.filter _ hdok.2
      apply hdp.imp
      intro a b hab
      rw [collB_times accuracy a (reconciledDst accuracy src a) b
        (reconciledDst accuracy src b) (reconciledDst_start accuracy src a)
        (reconciledDst_end accuracy src a) (reconciledDst_start accuracy src b)
        (reconciledDst_end accuracy src b)]
      exact hab
    · apply List.pairwise_map.mpr
      have hmp : (missingDecl accuracy src dst).Pairwise
          (fun a b => collB accuracy a b = false) :=
        List.Pairwise.filter _ hsok.2
      have hmap : ((missingDecl accuracy src dst).zip ids).map Prod.fst =
          missingDecl accuracy src dst := List.map_fst_zip _ _ hlen.ge
      have hzip_pw : ((missingDecl accuracy src dst).zip ids).Pairwise
          (fun a b => collB accuracy a.1 b.1 = false) := by
        rw [← hmap] at hmp
        exact List.pairwise_map.mp hmp
      apply hzip_pw.imp
      intro a b hab
      rw [collB_times accuracy a.1 { a.1 with id := a.2 } b.1
        { b.1 with id := b.2 } rfl rfl rfl rfl]
      exact hab
    · intro a ha b hb
      rcases List.mem_map.mp ha with ⟨d, hdf, rfl⟩
      rcases List.mem_map.mp hb with ⟨si, hsi, rfl⟩
      cases hcb : collB accuracy (reconciledDst accuracy src d)
          { si.1 with id := si.2 } with
      | false => rfl
      | true =>
        exfalso
        have hcb' : collB accuracy d si.1 = true := by
          rw [← collB_times accuracy d (reconciledDst accuracy src d) si.1
            { si.1 with id := si.2 } (reconciledDst_start accuracy src d)
            (reconciledDst_end accuracy src d) rfl rfl]
          exact hcb
        have hfpm : fpMatches accuracy si.1 d = true := by
          rw [fpMatches_symm]
          exact collB_fpMatches accuracy d si.1 hcb'
        have hmm : si.1 ∈ src.filter (fun s =>
            ! dst.any (fun d' => fpMatches accuracy s d')) :=
          (List.of_mem_zip hsi).1
        have hmiss := List.of_mem_filter hmm
        have hany : dst.any (fun d' => fpMatches accuracy si.1 d') = true :=
          List.any_eq_true.mpr ⟨d, List.mem_of_mem_filter hdf, hfpm⟩
        rw [hany] at hmiss
        simp at hmiss

/-- Claim C4 (corrected): reconciliation is idempotent provided the source
records have pairwise distinct rounded fingerprints: for every run of
`sync` that succeeds with change list `ch`, applying `ch` to the dumped
destination collection (creates appended, updates replacing the record
carrying the same id in place, deletes removed, following
`BaseProvider.add_changes`) and re-running `sync` with the same accuracy
over the same source and the resulting destination emits an empty change
list. The original claim had no fingerprint-distinctness proviso; without
it a rerun can emit an update, because a created copy of one source record
can be matched against a different source record sharing its fingerprint
(see the counterexample). -/
theorem C4_idempotent (accuracy : Accuracy) (src dst : List DataPoint)
    (ch : List DataPointAction) (newDst : List DataPoint)
    (hfp : src.Pairwise (fun a b => fpMatches accuracy a b = false))
    (h : sync accuracy src dst = .ok ch)
    (happ : applyChangeList dst ch = .ok newDst) :
    sync accuracy src newDst = .ok [] := by
  obtain ⟨hsok, hdok⟩ := sync_ok_sideOk accuracy src dst ch h
  obtain ⟨ids, hlen, hidn, hfresh, heq⟩ := sync_ok_char accuracy src dst ch h
  have hrun := applyList_run accuracy src dst ids hdok.1 hlen hidn hfresh
  rw [heq, hrun] at happ
  have hnew : newDst = (dst.filter (fun d =>
      src.any (fun s => fpMatches accuracy s d))).map
      (reconciledDst accuracy src) ++
    ((missingDecl accuracy src dst).zip ids).map
      (fun si => { si.1 with id := si.2 }) := (Except.ok.inj happ).symm
  subst hnew
  obtain ⟨ids₂, _hl2, _hn2, _hf2, heq₂⟩ := sync_spec accuracy src _
    hsok (rerun_sideOk accuracy src dst ids hsok hdok hlen hidn hfresh)
  rw [heq₂]
  have hu : updatesDecl accuracy src ((dst.filter (fun d =>
      src.any (fun s => fpMatches accuracy s d))).map
      (reconciledDst accuracy src) ++
    ((missingDecl accuracy src dst).zip ids).map
      (fun si => { si.1 with id := si.2 })) = [] := by
    unfold updatesDecl
    rw [rerun_modified_nil accuracy src dst ids hfp]
    rfl
  have hm2 := rerun_missing_nil accuracy src dst ids hlen
  have hd2 : deletesDecl accuracy src ((dst.filter (fun d =>
      src.any (fun s => fpMatches accuracy s d))).map
      (reconciledDst accuracy src) ++
    ((missingDecl accuracy src dst).zip ids).map
      (fun si => { si.1 with id := si.2 })) = [] := by
    unfold deletesDecl
    rw [rerun_additional_nil accuracy src dst ids]
    rfl
  rw [hu, hm2, hd2]
  rfl

/-- Claim C4, counterexample: with minute accuracy and source records
`cs1` and `cs2` sharing a rounded fingerprint, a run over an empty
destination creates copies `cn1` and `cn2`; applying those creates and
re-running `sync` emits an update (rewriting `cn2`'s name to `cs1`'s
name), so reconciliation as claimed is not idempotent. -/
theorem C4_counterexample :
    sync .minute [cs1, cs2] [] =
      .ok [⟨none, some cn1⟩, ⟨none, some cn2⟩] ∧
    applyChangeList [] [⟨none, some cn1⟩, ⟨none, some cn2⟩] =
      .ok [cn1, cn2] ∧
    sync .minute [cs1, cs2] [cn1, cn2] =
      .ok [⟨some cn2, some { cn2 with name := "A" }⟩] := by
  refine ⟨rfl, rfl, rfl⟩

theorem C4_witness : sync .minute [cs1] [cn1] = .ok [] :=
  C4_idempotent .minute [cs1] [] [⟨none, some cn1⟩] [cn1]
    (by simp) (by rfl) (by rfl)
